import Mathlib

/-!
# Analysis core of `statistics.c`: a shallow embedding

The C `double` is idealised as an arbitrary linearly ordered field `K` with a floor
function (no rounding, no overflow); `K = ℚ` makes every definition executable and
`K = ℝ` with `Real.sqrt` is the intended reading.  C `int` values that serve as molecule
ids, array indices and counters are `Int`; `int` arrays are total maps `Int → Int`
(an access outside the allocated block is not modelled as a fault).

Globals of the program (`box_l`, `partCfg`, `n_total_particles`, `n_molecules`) are
explicit arguments.  `n_total_particles` is the length of `partCfg`.

The configuration history (`configs`, `n_configs`, `n_part_conf`) is a value of type
`History`; a history command maps a history to `Option (return code × history)`, with
`none` where the C code frees or writes outside its blocks.  Functions that are not part
of `statistics.c` (`place_particle`, `sortPartCfg`, the Tcl word parsers, the C library)
are arguments or fields of the input.  A command is modelled by its return code and the
computation it runs; the text it appends to the Tcl result is left out.  A call of
`errexit()` is an outcome of its own.
-/

set_option linter.unusedSectionVars false

namespace Statistics

/-! ## Data model -/

/-- A `double[3]`. -/
structure Vec3 (K : Type) where
  x : K
  y : K
  z : K
deriving DecidableEq, Repr

/-- The fields of `Particle` that `statistics.c` reads:
`p.identity`, `p.type`, `p.mol_id`, `PMASS` and `r.p`. -/
structure Particle (K : Type) where
  identity : Int
  type : Int
  mol_id : Int
  mass : K
  p : Vec3 K
deriving DecidableEq, Repr

section Geometry

variable {K : Type} [LinearOrderedField K] [FloorRing K]

/-- The macro `SQR`. -/
def SQR (a : K) : K := a * a

/-- The helper `dmin` of `utils.h`: the smaller of two doubles. -/
def dmin (a b : K) : K := if a < b then a else b

/-- The helper `sqrlen` of `utils.h`: squared length of a vector. -/
def sqrlen (v : Vec3 K) : K := SQR v.x + SQR v.y + SQR v.z

/-- Modelled from the spec: one axis of `get_mi_vector` (grid.h, not in the sources at
hand), "per-axis difference wrapped into (−L/2, L/2]". -/
def mi_wrap (d L : K) : K := d - L * ((⌈d / L - 1 / 2⌉ : Int) : K)

/-- Modelled from the spec: `get_mi_vector(res, a, b)` (grid.h), the minimum-image
vector `a - b` with each axis wrapped into (−L/2, L/2]. -/
def get_mi_vector (box_l a b : Vec3 K) : Vec3 K :=
  ⟨mi_wrap (a.x - b.x) box_l.x, mi_wrap (a.y - b.y) box_l.y, mi_wrap (a.z - b.z) box_l.z⟩

/-- `min_distance2` (statistics.c 58-63). -/
def min_distance2 (box_l pos1 pos2 : Vec3 K) : K :=
  sqrlen (get_mi_vector box_l pos1 pos2)

/-- Modelled from the spec: `min_distance` (statistics.h), "`squared_distance`/`distance`
compose on top": the square root of `min_distance2`.  The library `sqrt` is an argument. -/
def min_distance (sqrt : K → K) (box_l pos1 pos2 : Vec3 K) : K :=
  sqrt (min_distance2 box_l pos1 pos2)

end Geometry

/-! ## `mindist` -/

/-- An `IntList *` that may be `NULL`. -/
abbrev IntSet := Option (List Int)

/-- The test `!set || intlist_contains(set, t)`. -/
def in_type_set (set : IntSet) (t : Int) : Bool :=
  match set with
  | none => true
  | some l => l.contains t

section Mindist

variable {K : Type} [LinearOrderedField K] [FloorRing K]

/-- The bit mask `in_set` of `mindist` (lines 120-124): bit 0 for set1, bit 1 for set2. -/
def in_set_mask (set1 set2 : IntSet) (t : Int) : Nat :=
  (if in_type_set set1 t then 1 else 0) ||| (if in_type_set set2 t then 2 else 0)

/-- The acceptance test of lines 130-131 for particle `i` given the mask of particle `j`. -/
def mindist_accept (set1 set2 : IntSet) (in_set : Nat) (ti : Int) : Bool :=
  ((in_set &&& 1 != 0) && in_type_set set2 ti) || ((in_set &&& 2 != 0) && in_type_set set1 ti)

/-- The inner loop of `mindist` (lines 128-132): `i` runs over `j+1 .. n-1`. -/
def mindist_inner (box_l : Vec3 K) (partCfg : List (Particle K)) (set1 set2 : IntSet)
    (j : Nat) (in_set : Nat) (pt : Vec3 K) (mindist : K) : K :=
  (List.range' (j + 1) (partCfg.length - (j + 1))).foldl
    (fun md i =>
      match partCfg[i]? with
      | none => md
      | some pi =>
        if mindist_accept set1 set2 in_set pi.type then dmin md (min_distance2 box_l pt pi.p)
        else md)
    mindist

/-- The value of the local `mindist` before the final `sqrt` (lines 110-133):
`j` runs over `0 .. n-2`. -/
def mindist_sq (box_l : Vec3 K) (partCfg : List (Particle K)) (set1 set2 : IntSet) : K :=
  (List.range (partCfg.length - 1)).foldl
    (fun md j =>
      match partCfg[j]? with
      | none => md
      | some pj =>
        let in_set := in_set_mask set1 set2 pj.type
        if in_set = 0 then md
        else mindist_inner box_l partCfg set1 set2 j in_set pj.p md)
    (SQR (box_l.x + box_l.y + box_l.z))

/-- `mindist` (statistics.c 105-136).  The library `sqrt` is an argument. -/
def mindist (sqrt : K → K) (box_l : Vec3 K) (partCfg : List (Particle K))
    (set1 set2 : IntSet) : K :=
  sqrt (mindist_sq box_l partCfg set1 set2)

/-- The type condition under which the loops of `mindist` accept the pair of types
`(tj, ti)`: one is in set1 and the other in set2. -/
def pair_qualifies (set1 set2 : IntSet) (tj ti : Int) : Prop :=
  (in_type_set set1 tj = true ∧ in_type_set set2 ti = true) ∨
    (in_type_set set2 tj = true ∧ in_type_set set1 ti = true)

/-- Specification side of `mindist`: the minimum-image distances of all pairs of distinct
particles with one member's type in set1 and the other's in set2. -/
def qualifying_distances (sqrt : K → K) (box_l : Vec3 K) (partCfg : List (Particle K))
    (set1 set2 : IntSet) : Set K :=
  {d | ∃ (a b : Nat) (pa pb : Particle K), a ≠ b ∧ partCfg[a]? = some pa ∧
    partCfg[b]? = some pb ∧ in_type_set set1 pa.type = true ∧
    in_type_set set2 pb.type = true ∧ d = min_distance sqrt box_l pa.p pb.p}

/-- The box with all sides 10 of the spec's example. -/
def box10 : Vec3 K := ⟨10, 10, 10⟩

/-- A particle of the given identity and type at `(x, 0, 0)` with unit mass, molecule id
equal to its identity. -/
def particle_on_x_axis (identity type : Int) (x : K) : Particle K :=
  ⟨identity, type, identity, 1, ⟨x, 0, 0⟩⟩

end Mindist

/-! ## `aggregation` -/

/-- The memory `aggregation` works on: the caller's arrays `head_list`, `link_list`,
`agg_id_list`, `agg_size`, the local array `contact_num`, and the caller's in/out
scalars `*agg_num`, `*agg_max`, `*agg_min`, `*agg_avg`, `*agg_std`. -/
structure AggState where
  head_list : Int → Int
  link_list : Int → Int
  agg_id_list : Int → Int
  agg_size : Int → Int
  contact_num : Int → Int
  agg_num : Int
  agg_max : Int
  agg_min : Int
  agg_avg : Int
  agg_std : Int

/-- The values `s, s+1, ..., f` of a loop `for (i = s; i <= f; i++)`. -/
def mol_range (s f : Int) : List Int :=
  (List.range (f - s + 1).toNat).map (fun (k : Nat) => s + (k : Int))

/-- Lines 147-148: `contact_num` is a fresh block of `n_molecules * n_molecules` ints
set to zero; whatever lies outside the block is left as it is. -/
def agg_alloc_contact (n_molecules : Int) (st : AggState) : AggState :=
  { st with contact_num := fun i =>
      if 0 ≤ i ∧ i < n_molecules * n_molecules then 0 else st.contact_num i }

/-- One round of the initialisation loop, lines 154-157. -/
def agg_init_step (st : AggState) (i : Int) : AggState :=
  { st with
    head_list := Function.update st.head_list i i
    link_list := Function.update st.link_list i (-1)
    agg_id_list := Function.update st.agg_id_list i i
    agg_size := Function.update st.agg_size i 0 }

/-- The initialisation loop, lines 153-158. -/
def agg_init (s_mol_id f_mol_id : Int) (st : AggState) : AggState :=
  (mol_range s_mol_id f_mol_id).foldl agg_init_step st

/-- The loop of lines 189-193, entered with the current `target1`, `target2` and
`agg_id_list`; returns the final `agg_id_list` and `target1`, or `none` when `fuel`
rounds do not reach `target2 == -1`. -/
def merge_walk (link_list : Int → Int) (p1molid : Int) :
    Nat → (Int → Int) → Int → Int → Option ((Int → Int) × Int)
  | fuel, agg_id_list, target1, target2 =>
    if target2 ≠ -1 then
      match fuel with
      | 0 => none
      | fuel + 1 =>
        let target1 := target2
        let target2 := link_list target1
        merge_walk link_list p1molid fuel
          (Function.update agg_id_list target1 (agg_id_list p1molid)) target1 target2
    else some (agg_id_list, target1)

/-- The merge of lines 183-195. -/
def agg_merge (fuel : Nat) (st : AggState) (p1molid p2molid : Int) : Option AggState :=
  let target1 := st.head_list (st.agg_id_list p2molid)
  let head_list := Function.update st.head_list (st.agg_id_list p2molid) (-2)
  let head_p1 := head_list (st.agg_id_list p1molid)
  let head_list := Function.update head_list (st.agg_id_list p1molid) target1
  let agg_id_list := Function.update st.agg_id_list target1 (st.agg_id_list p1molid)
  let target2 := st.link_list target1
  match merge_walk st.link_list p1molid fuel agg_id_list target1 target2 with
  | none => none
  | some (agg_id_list, target1) =>
    let agg_id_list := Function.update agg_id_list target1 (agg_id_list p1molid)
    let link_list := Function.update st.link_list target1 head_p1
    some { st with head_list := head_list, link_list := link_list, agg_id_list := agg_id_list }

/-- The index into `contact_num` of lines 175-176. -/
def contact_index (n_molecules p1molid p2molid : Int) : Int :=
  if p1molid > p2molid then p1molid * n_molecules + p2molid
  else p2molid * n_molecules + p1molid

section AggregationPairs

variable {K : Type} [LinearOrderedField K]

/-- The body of the Verlet-list loop for one candidate pair, lines 168-198.
`distance2vec` (utils.h) is an argument. -/
def agg_pair_step (distance2vec : Vec3 K → Vec3 K → K) (dist_criteria2 : K)
    (min_contact n_molecules s_mol_id f_mol_id : Int) (fuel : Nat)
    (st : AggState) (p1 p2 : Particle K) : Option AggState :=
  let p1molid := p1.mol_id
  let p2molid := p2.mol_id
  if ((p1molid ≤ f_mol_id) ∧ (p1molid ≥ s_mol_id)) ∧
      ((p2molid ≤ f_mol_id) ∧ (p2molid ≥ s_mol_id)) then
    if st.agg_id_list p1molid ≠ st.agg_id_list p2molid then
      let dist2 := distance2vec p1.p p2.p
      let ind := contact_index n_molecules p1molid p2molid
      let contact_num :=
        if dist2 < dist_criteria2 then
          Function.update st.contact_num ind (st.contact_num ind + 1)
        else st.contact_num
      if contact_num ind ≥ min_contact then
        agg_merge fuel { st with contact_num := contact_num } p1molid p2molid
      else some { st with contact_num := contact_num }
    else some st
  else some st

/-- The loops over cells, cell neighbours and Verlet pairs, lines 161-201; `pairs` lists
the candidate pairs in the order in which these loops visit them. -/
def agg_pairs (distance2vec : Vec3 K → Vec3 K → K) (dist_criteria2 : K)
    (min_contact n_molecules s_mol_id f_mol_id : Int) (fuel : Nat) :
    AggState → List (Particle K × Particle K) → Option AggState
  | st, [] => some st
  | st, (p1, p2) :: rest =>
    match agg_pair_step distance2vec dist_criteria2 min_contact n_molecules s_mol_id f_mol_id
        fuel st p1 p2 with
    | none => none
    | some st1 =>
      agg_pairs distance2vec dist_criteria2 min_contact n_molecules s_mol_id f_mol_id fuel
        st1 rest

end AggregationPairs

/-- The loop of lines 211-214 for the size slot `k = *agg_num - 1`. -/
def count_walk (link_list : Int → Int) (k : Int) :
    Nat → Int → (Int → Int) → Option (Int → Int)
  | fuel, target1, agg_size =>
    if link_list target1 ≠ -1 then
      match fuel with
      | 0 => none
      | fuel + 1 =>
        count_walk link_list k fuel (link_list target1)
          (Function.update agg_size k (agg_size k + 1))
    else some agg_size

/-- One round of the counting loop, lines 207-215. -/
def agg_count_step (fuel : Nat) (st : AggState) (i : Int) : Option AggState :=
  if st.head_list i ≠ -2 then
    let agg_num := st.agg_num + 1
    let agg_size := Function.update st.agg_size (agg_num - 1) (st.agg_size (agg_num - 1) + 1)
    let target1 := st.head_list i
    match count_walk st.link_list (agg_num - 1) fuel target1 agg_size with
    | none => none
    | some agg_size => some { st with agg_num := agg_num, agg_size := agg_size }
  else some st

/-- The counting loop, lines 206-216, over the given values of `i`. -/
def agg_count (fuel : Nat) : AggState → List Int → Option AggState
  | st, [] => some st
  | st, i :: rest =>
    match agg_count_step fuel st i with
    | none => none
    | some st1 => agg_count fuel st1 rest

/-- One round of the statistics loop, lines 219-222. -/
def agg_stats_step (st : AggState) (i : Nat) : AggState :=
  let st1 := { st with
    agg_avg := st.agg_avg + st.agg_size i
    agg_std := st.agg_std + st.agg_size i * st.agg_size i }
  let st2 := if st1.agg_min > st1.agg_size i then { st1 with agg_min := st1.agg_size i } else st1
  if st2.agg_max < st2.agg_size i then { st2 with agg_max := st2.agg_size i } else st2

/-- The statistics loop, lines 218-223. -/
def agg_stats (st : AggState) : AggState :=
  (List.range st.agg_num.toNat).foldl agg_stats_step st

section Aggregation

variable {K : Type} [LinearOrderedField K]

/-- `aggregation` (statistics.c 138-226).  `st` holds what the caller passes in; every
`while` loop may run for at most `fuel` rounds, and the result is `none` if one of them
needs more. -/
def aggregation (distance2vec : Vec3 K → Vec3 K → K) (n_molecules : Int)
    (pairs : List (Particle K × Particle K)) (fuel : Nat)
    (dist_criteria2 : K) (min_contact s_mol_id f_mol_id : Int) (st : AggState) :
    Option AggState :=
  let st0 := agg_init s_mol_id f_mol_id (agg_alloc_contact n_molecules st)
  match agg_pairs distance2vec dist_criteria2 min_contact n_molecules s_mol_id f_mol_id fuel
      st0 pairs with
  | none => none
  | some st1 =>
    match agg_count fuel st1 (mol_range s_mol_id f_mol_id) with
    | none => none
    | some st2 => some (agg_stats st2)

end Aggregation

/-! ### Specification side of `aggregation` -/

/-- `Chain link_list x c`: following `link_list` from `x` visits exactly the entries of
`c`, in this order, and then reaches the END sentinel -1. -/
def Chain (link_list : Int → Int) : Int → List Int → Prop
  | x, [] => x = -1
  | x, m :: rest => x = m ∧ m ≠ -1 ∧ Chain link_list (link_list m) rest

/-- The cluster-partition invariant on the molecule range `[s, f]`: the representative
`agg_id_list[m]` of every molecule of the range is a molecule of the range whose head is
not the ABSENT sentinel -2; and every head `h` of the range that is not ABSENT is its own
representative and starts a chain that ends in END, has no repetition and lists exactly
the molecules of the range whose representative is `h`. -/
def PartInv (s f : Int) (st : AggState) : Prop :=
  (∀ m, s ≤ m → m ≤ f →
    s ≤ st.agg_id_list m ∧ st.agg_id_list m ≤ f ∧ st.head_list (st.agg_id_list m) ≠ -2) ∧
  (∀ h, s ≤ h → h ≤ f → st.head_list h ≠ -2 →
    st.agg_id_list h = h ∧
    ∃ c, Chain st.link_list (st.head_list h) c ∧ c.Nodup ∧
      ∀ m, m ∈ c ↔ (s ≤ m ∧ m ≤ f ∧ st.agg_id_list m = h))

section AggregationSpec

variable {K : Type} [LinearOrderedField K]

/-- The array `contact_num` after lines 178-180 for the candidate pair `(p1, p2)`. -/
def contact_after (distance2vec : Vec3 K → Vec3 K → K) (dist_criteria2 : K)
    (n_molecules : Int) (st : AggState) (p1 p2 : Particle K) : Int → Int :=
  if distance2vec p1.p p2.p < dist_criteria2 then
    Function.update st.contact_num (contact_index n_molecules p1.mol_id p2.mol_id)
      (st.contact_num (contact_index n_molecules p1.mol_id p2.mol_id) + 1)
  else st.contact_num

/-- The candidate pair `(p1, p2)` triggers a merge in state `st`: both molecule ids are
in the range, the representatives differ, and the contact count of the molecule pair,
after counting this pair, has reached `min_contact` (lines 172, 173, 181). -/
def triggers_merge (distance2vec : Vec3 K → Vec3 K → K) (dist_criteria2 : K)
    (min_contact n_molecules s_mol_id f_mol_id : Int) (st : AggState)
    (p1 p2 : Particle K) : Prop :=
  (s_mol_id ≤ p1.mol_id ∧ p1.mol_id ≤ f_mol_id) ∧
  (s_mol_id ≤ p2.mol_id ∧ p2.mol_id ≤ f_mol_id) ∧
  st.agg_id_list p1.mol_id ≠ st.agg_id_list p2.mol_id ∧
  min_contact ≤ contact_after distance2vec dist_criteria2 n_molecules st p1 p2
    (contact_index n_molecules p1.mol_id p2.mol_id)

end AggregationSpec

/-- The members of a chain as the output loop of `parse_aggregation` (lines 1154-1161)
and the counting loop list them: follow `link_list` from `x` until END = -1, for at most
`fuel` entries. -/
def chain_list (link_list : Int → Int) : Nat → Int → Option (List Int)
  | fuel, x =>
    if x = -1 then some []
    else
      match fuel with
      | 0 => none
      | fuel + 1 => (chain_list link_list fuel (link_list x)).map (fun c => x :: c)

/-- The invariant of the spec on the range `[s, f]`, "every molecule in range belongs to
exactly one chain reachable from exactly one non-absorbed head": the representative of a
molecule `m` of the range is in the range and its head is not ABSENT; the chain of that
head ends in END, has no repetition and contains `m`; no chain of another non-ABSENT head
of the range contains `m`; and every non-ABSENT head of the range starts a chain that ends
in END without repetition. -/
def ClusterPartition (s f : Int) (st : AggState) : Prop :=
  (∀ m, s ≤ m → m ≤ f →
    (s ≤ st.agg_id_list m ∧ st.agg_id_list m ≤ f) ∧
    st.head_list (st.agg_id_list m) ≠ -2 ∧
    (∃ c, Chain st.link_list (st.head_list (st.agg_id_list m)) c ∧ c.Nodup ∧ m ∈ c) ∧
    (∀ h c, s ≤ h → h ≤ f → st.head_list h ≠ -2 →
      Chain st.link_list (st.head_list h) c → m ∈ c → h = st.agg_id_list m)) ∧
  (∀ h, s ≤ h → h ≤ f → st.head_list h ≠ -2 →
    ∃ c, Chain st.link_list (st.head_list h) c ∧ c.Nodup ∧ c.length ≤ (f - s + 1).toNat)

/-- The number of molecules of the range `[s, f]` whose representative is `h`. -/
def cluster_size (s f : Int) (agg_id_list : Int → Int) (h : Int) : Nat :=
  ((mol_range s f).filter (fun m => agg_id_list m = h)).length

/-- The entries `h` of `l` whose head is not the ABSENT sentinel -2. -/
def surviving_heads (head_list : Int → Int) (l : List Int) : List Int :=
  l.filter (fun h => head_list h ≠ -2)

section ContactGraph

variable {K : Type} [LinearOrderedField K]

/-- The candidate pair joins a particle of molecule `m1` and a particle of molecule `m2`
(in either order). -/
def joins (m1 m2 : Int) (pr : Particle K × Particle K) : Bool :=
  (pr.1.mol_id == m1 && pr.2.mol_id == m2) || (pr.1.mol_id == m2 && pr.2.mol_id == m1)

/-- The number of candidate pairs of the list that join `m1` and `m2` and have squared
distance below `dist_criteria2`. -/
def contact_count (distance2vec : Vec3 K → Vec3 K → K) (dist_criteria2 : K)
    (pairs : List (Particle K × Particle K)) (m1 m2 : Int) : Nat :=
  (pairs.filter (fun pr =>
    joins m1 m2 pr && decide (distance2vec pr.1.p pr.2.p < dist_criteria2))).length

/-- The contact graph on the molecules of `[s, f]`: an edge between `m1 ≠ m2` exactly
when at least `min_contact` candidate pairs joining them are below the criterion. -/
def contact_edge (distance2vec : Vec3 K → Vec3 K → K) (dist_criteria2 : K)
    (min_contact s f : Int) (pairs : List (Particle K × Particle K)) (m1 m2 : Int) : Prop :=
  (s ≤ m1 ∧ m1 ≤ f) ∧ (s ≤ m2 ∧ m2 ≤ f) ∧ m1 ≠ m2 ∧
    min_contact ≤ (contact_count distance2vec dist_criteria2 pairs m1 m2 : Int)

/-- Connectedness in the contact graph. -/
def contact_connected (distance2vec : Vec3 K → Vec3 K → K) (dist_criteria2 : K)
    (min_contact s f : Int) (pairs : List (Particle K × Particle K)) (m1 m2 : Int) : Prop :=
  Relation.ReflTransGen (contact_edge distance2vec dist_criteria2 min_contact s f pairs) m1 m2

/-- The invariant of the pair loop that ties the clusters to the contact graph of the
candidate pairs `done` processed so far: the partition invariant holds, molecules with the
same representative are connected, and for molecules with different representatives the
slot of `contact_num` holds their contact count, which is still below `min_contact`. -/
def ContactInv (distance2vec : Vec3 K → Vec3 K → K) (dist_criteria2 : K)
    (min_contact n_molecules s f : Int) (done : List (Particle K × Particle K))
    (st : AggState) : Prop :=
  PartInv s f st ∧
  (∀ m1 m2, s ≤ m1 → m1 ≤ f → s ≤ m2 → m2 ≤ f → st.agg_id_list m1 = st.agg_id_list m2 →
    contact_connected distance2vec dist_criteria2 min_contact s f done m1 m2) ∧
  (∀ m1 m2, s ≤ m1 → m1 ≤ f → s ≤ m2 → m2 ≤ f → st.agg_id_list m1 ≠ st.agg_id_list m2 →
    st.contact_num (contact_index n_molecules m1 m2) =
      (contact_count distance2vec dist_criteria2 done m1 m2 : Int) ∧
    (contact_count distance2vec dist_criteria2 done m1 m2 : Int) < min_contact)

end ContactGraph

section AggregationExamples

variable {K : Type} [LinearOrderedField K]

/-- The plain squared distance of two positions, the instance of `distance2vec` used in
the examples. -/
def distance2vec_plain (pos1 pos2 : Vec3 K) : K :=
  (pos1.x - pos2.x) * (pos1.x - pos2.x) + (pos1.y - pos2.y) * (pos1.y - pos2.y) +
    (pos1.z - pos2.z) * (pos1.z - pos2.z)

/-- The memory `parse_aggregation` hands to `aggregation` (lines 1079-1086): the arrays
are fresh blocks, here filled with the value `junk`, and the scalars are
`agg_num = 0`, `agg_max = 0`, `agg_min = n_molecules`, `agg_avg = 0`, `agg_std = 0`. -/
def caller_state (n_molecules junk : Int) : AggState :=
  { head_list := fun _ => junk
    link_list := fun _ => junk
    agg_id_list := fun _ => junk
    agg_size := fun _ => junk
    contact_num := fun _ => junk
    agg_num := 0
    agg_max := 0
    agg_min := n_molecules
    agg_avg := 0
    agg_std := 0 }

/-- A particle of molecule `m` at `(x, 0, 0)`. -/
def mol_particle (m : Int) (x : K) : Particle K :=
  ⟨m, 0, m, 1, ⟨x, 0, 0⟩⟩

/-- The state after the initialisation loop for two molecules 0 and 1, from the memory
`caller_state 2 7`. -/
def two_mol_state : AggState :=
  agg_init 0 1 (agg_alloc_contact 2 (caller_state 2 7))

instance triggers_merge_decidable (distance2vec : Vec3 K → Vec3 K → K) (dist_criteria2 : K)
    (min_contact n_molecules s_mol_id f_mol_id : Int) (st : AggState)
    (p1 p2 : Particle K) :
    Decidable (triggers_merge distance2vec dist_criteria2 min_contact n_molecules
      s_mol_id f_mol_id st p1 p2) := by
  unfold triggers_merge
  infer_instance

end AggregationExamples

/-! ## `calc_rdf`, `calc_rdf_av`, `calc_rdf_intermol_av` -/

/-- The comparison loop of lines 482-486 (also 536-540, 604-608): `mixed_flag` stays 0
only if the lists have the same length and agree at every index. -/
def rdf_mixed_flag (p1_types p2_types : List Int) : Int :=
  if p1_types.length = p2_types.length then
    (List.range p1_types.length).foldl
      (fun mixed_flag i => if p1_types[i]? ≠ p2_types[i]? then 1 else mixed_flag) 0
  else 1

/-- The first value of the second particle index, lines 496-497 (also 553-554, 621-622). -/
def rdf_start (mixed_flag : Int) (i : Nat) : Nat :=
  if mixed_flag = 1 then 0 else i + 1

/-- The histogram under construction and the pair counter `cnt`. -/
structure RdfAcc (K : Type) where
  rdf : Int → K
  cnt : Int

/-- A stored configuration `configs[k]`: the positions of the particles 0, 1, ... (three
doubles per particle in the C block). -/
abbrev Snapshot (K : Type) := List (Vec3 K)

section RdfCode

variable {K : Type} [LinearOrderedField K] [FloorRing K]

/-- The conversion `(int) x` of a double: truncation towards zero. -/
def c_int_cast (x : K) : Int :=
  if 0 ≤ x then ⌊x⌋ else ⌈x⌉

/-- The block of lines 503-507 (also 563-567, 634-638) for one examined pair with the
distance `dist` already computed. -/
def calc_rdf_pair (r_min r_max inv_bin_width dist : K) (acc : RdfAcc K) : RdfAcc K :=
  let rdf :=
    if dist > r_min ∧ dist < r_max then
      let ind := c_int_cast ((dist - r_min) * inv_bin_width)
      Function.update acc.rdf ind (acc.rdf ind + 1)
    else acc.rdf
  { rdf := rdf, cnt := acc.cnt + 1 }

/-- The four nested loops over particles and type lists that `calc_rdf` (lines 492-513),
`calc_rdf_av` (549-569) and `calc_rdf_intermol_av` (617-642) have in common; `body i pi j pj`
is the innermost block, run for particle `i` and particle `j`. -/
def rdf_pair_loops {A : Type} (partCfg : List (Particle K)) (p1_types p2_types : List Int)
    (mixed_flag : Int) (body : Nat → Particle K → Nat → Particle K → A → A) (acc : A) : A :=
  (List.range partCfg.length).foldl
    (fun acc i =>
      match partCfg[i]? with
      | none => acc
      | some pi =>
        p1_types.foldl
          (fun acc ty1 =>
            if pi.type = ty1 then
              (List.range' (rdf_start mixed_flag i)
                  (partCfg.length - rdf_start mixed_flag i)).foldl
                (fun acc j =>
                  match partCfg[j]? with
                  | none => acc
                  | some pj =>
                    p2_types.foldl
                      (fun acc ty2 => if pj.type = ty2 then body i pi j pj acc else acc)
                      acc)
                acc
            else acc)
          acc)
    acc

/-- The histogram array with its `r_bins` entries set to zero (line 490, also 544, 547). -/
def rdf_clear (r_bins : Int) (rdf0 : Int → K) : Int → K :=
  fun i => if 0 ≤ i ∧ i < r_bins then 0 else rdf0 i

/-- The variable `bin_volume` of the normalisation loops for bin `i` (lines 518-520). -/
def rdf_bin_volume (PI r_min bin_width : K) (i : Int) : K :=
  let r_in := (i : K) * bin_width + r_min
  let r_out := r_in + bin_width
  4 / 3 * PI * (r_out * r_out * r_out - r_in * r_in * r_in)

/-- The state of `calc_rdf` before the normalisation (lines 482-513): the histogram and
`cnt`.  `rdf0` is the caller's array. -/
def calc_rdf_raw (sqrt : K → K) (box_l : Vec3 K) (partCfg : List (Particle K))
    (p1_types p2_types : List Int) (r_min r_max : K) (r_bins : Int) (rdf0 : Int → K) :
    RdfAcc K :=
  let mixed_flag := rdf_mixed_flag p1_types p2_types
  let bin_width := (r_max - r_min) / (r_bins : K)
  let inv_bin_width := 1 / bin_width
  rdf_pair_loops partCfg p1_types p2_types mixed_flag
    (fun _ pi _ pj acc =>
      calc_rdf_pair r_min r_max inv_bin_width (min_distance sqrt box_l pi.p pj.p) acc)
    { rdf := rdf_clear r_bins rdf0, cnt := 0 }

/-- `calc_rdf` (statistics.c 474-523): the array `rdf` on return.  The constant `PI`
(utils.h) and the library `sqrt` are arguments. -/
def calc_rdf (sqrt : K → K) (PI : K) (box_l : Vec3 K) (partCfg : List (Particle K))
    (p1_types p2_types : List Int) (r_min r_max : K) (r_bins : Int) (rdf0 : Int → K) :
    Int → K :=
  let acc := calc_rdf_raw sqrt box_l partCfg p1_types p2_types r_min r_max r_bins rdf0
  let bin_width := (r_max - r_min) / (r_bins : K)
  let volume := box_l.x * box_l.y * box_l.z
  fun i =>
    if 0 ≤ i ∧ i < r_bins then
      acc.rdf i * (volume / (rdf_bin_volume PI r_min bin_width i * (acc.cnt : K)))
    else acc.rdf i

/-- Reading `configs[k][3*i], configs[k][3*i+1], configs[k][3*i+2]` (a read past the end
of the block is not modelled as a fault: it yields the zero vector). -/
def snapshot_pos (c : Snapshot K) (i : Nat) : Vec3 K :=
  c.getD i ⟨0, 0, 0⟩

/-- The block `configs[k]` for a C index `k` (outside `[0, n_configs)`: the empty block). -/
def config_at (configs : List (Snapshot K)) (k : Int) : Snapshot K :=
  if 0 ≤ k then configs.getD k.toNat [] else []

/-- The histogram `rdf_tmp` and `cnt` of one round of the `while` loop of `calc_rdf_av`
after the particle loops (lines 547-569), for the stored configuration `frame`. -/
def calc_rdf_av_frame (sqrt : K → K) (box_l : Vec3 K) (partCfg : List (Particle K))
    (p1_types p2_types : List Int) (r_min r_max inv_bin_width : K) (mixed_flag r_bins : Int)
    (frame : Snapshot K) (rdf_tmp : Int → K) : RdfAcc K :=
  rdf_pair_loops partCfg p1_types p2_types mixed_flag
    (fun i _ j _ acc =>
      calc_rdf_pair r_min r_max inv_bin_width
        (min_distance sqrt box_l (snapshot_pos frame i) (snapshot_pos frame j)) acc)
    { rdf := rdf_clear r_bins rdf_tmp, cnt := 0 }

/-- The same for `calc_rdf_intermol_av` (lines 615-645): the pair is skipped unless the
molecule ids differ (line 627). -/
def calc_rdf_intermol_av_frame (sqrt : K → K) (box_l : Vec3 K) (partCfg : List (Particle K))
    (p1_types p2_types : List Int) (r_min r_max inv_bin_width : K) (mixed_flag r_bins : Int)
    (frame : Snapshot K) (rdf_tmp : Int → K) : RdfAcc K :=
  rdf_pair_loops partCfg p1_types p2_types mixed_flag
    (fun i pi j pj acc =>
      if pi.mol_id ≠ pj.mol_id then
        calc_rdf_pair r_min r_max inv_bin_width
          (min_distance sqrt box_l (snapshot_pos frame i) (snapshot_pos frame j)) acc
      else acc)
    { rdf := rdf_clear r_bins rdf_tmp, cnt := 0 }

/-- The normalisation of one round, lines 573-578 (also 649-654):
`rdf[i] += rdf_tmp[i]*volume / (bin_volume * cnt)` for `0 ≤ i < r_bins`. -/
def rdf_av_accumulate (PI r_min bin_width volume : K) (r_bins : Int) (rdf : Int → K)
    (acc : RdfAcc K) : Int → K :=
  fun i =>
    if 0 ≤ i ∧ i < r_bins then
      rdf i + acc.rdf i * volume / (rdf_bin_volume PI r_min bin_width i * (acc.cnt : K))
    else rdf i

/-- The common frame of `calc_rdf_av` and `calc_rdf_intermol_av` around the particle
loops: the `while` loop over `cnt_conf = 1 .. n_conf`, which reads `configs[n_configs -
cnt_conf]`, and the final division by `cnt_conf - 1` (lines 544-586, 612-657).
`frame_hist` is the round's particle loops. -/
def rdf_av_rounds (PI : K) (box_l : Vec3 K) (configs : List (Snapshot K)) (r_min r_max : K)
    (r_bins : Int) (rdf0 : Int → K) (n_conf : Int)
    (frame_hist : Snapshot K → RdfAcc K) : Int → K :=
  let bin_width := (r_max - r_min) / (r_bins : K)
  let volume := box_l.x * box_l.y * box_l.z
  let n_configs : Int := configs.length
  let rdf := (List.range n_conf.toNat).foldl
    (fun rdf (c : Nat) =>
      let cnt_conf : Int := (c : Int) + 1
      let k := n_configs - cnt_conf
      rdf_av_accumulate PI r_min bin_width volume r_bins rdf (frame_hist (config_at configs k)))
    (rdf_clear r_bins rdf0)
  let cnt_conf : Int := (n_conf.toNat : Int) + 1
  fun i => if 0 ≤ i ∧ i < r_bins then rdf i / ((cnt_conf - 1 : Int) : K) else rdf i

/-- `calc_rdf_av` (statistics.c 525-590): the array `rdf` on return.  `rdf_tmp` is the
fresh block of line 534. -/
def calc_rdf_av (sqrt : K → K) (PI : K) (box_l : Vec3 K) (partCfg : List (Particle K))
    (configs : List (Snapshot K)) (p1_types p2_types : List Int) (r_min r_max : K)
    (r_bins : Int) (rdf0 rdf_tmp : Int → K) (n_conf : Int) : Int → K :=
  rdf_av_rounds PI box_l configs r_min r_max r_bins rdf0 n_conf
    (fun frame =>
      calc_rdf_av_frame sqrt box_l partCfg p1_types p2_types r_min r_max
        (1 / ((r_max - r_min) / (r_bins : K))) (rdf_mixed_flag p1_types p2_types) r_bins
        frame rdf_tmp)

/-- `calc_rdf_intermol_av` (statistics.c 592-660): the array `rdf` on return. -/
def calc_rdf_intermol_av (sqrt : K → K) (PI : K) (box_l : Vec3 K)
    (partCfg : List (Particle K)) (configs : List (Snapshot K))
    (p1_types p2_types : List Int) (r_min r_max : K) (r_bins : Int)
    (rdf0 rdf_tmp : Int → K) (n_conf : Int) : Int → K :=
  rdf_av_rounds PI box_l configs r_min r_max r_bins rdf0 n_conf
    (fun frame =>
      calc_rdf_intermol_av_frame sqrt box_l partCfg p1_types p2_types r_min r_max
        (1 / ((r_max - r_min) / (r_bins : K))) (rdf_mixed_flag p1_types p2_types) r_bins
        frame rdf_tmp)

/-- The `n` most recent stored configurations, oldest first. -/
def last_configs (configs : List (Snapshot K)) (n : Nat) : List (Snapshot K) :=
  configs.drop (configs.length - n)

/-! ### Specification side of the rdf functions -/

/-- An examined pair: `((i, particle i), (j, particle j))`. -/
abbrev RdfPair (K : Type) := (Nat × Particle K) × (Nat × Particle K)

/-- The pairs the particle loops examine, in the order of examination: the first
particle's type equals an entry of `p1_types`, the second's an entry of `p2_types` (once
per matching entry), and the second index starts at `rdf_start mixed_flag i`. -/
def rdf_examined (partCfg : List (Particle K)) (p1_types p2_types : List Int)
    (mixed_flag : Int) : List (RdfPair K) :=
  (List.range partCfg.length).flatMap (fun i =>
    match partCfg[i]? with
    | none => []
    | some pi =>
      p1_types.flatMap (fun ty1 =>
        if pi.type = ty1 then
          (List.range' (rdf_start mixed_flag i)
              (partCfg.length - rdf_start mixed_flag i)).flatMap (fun j =>
            match partCfg[j]? with
            | none => []
            | some pj =>
              p2_types.flatMap (fun ty2 => if pj.type = ty2 then [((i, pi), (j, pj))] else []))
        else []))

/-- The minimum-image distance of an examined pair in the live configuration. -/
def live_dist (sqrt : K → K) (box_l : Vec3 K) (e : RdfPair K) : K :=
  min_distance sqrt box_l e.1.2.p e.2.2.p

/-- The minimum-image distance of an examined pair in a stored configuration. -/
def frame_dist (sqrt : K → K) (box_l : Vec3 K) (frame : Snapshot K) (e : RdfPair K) : K :=
  min_distance sqrt box_l (snapshot_pos frame e.1.1) (snapshot_pos frame e.2.1)

end RdfCode

/-! ## `calc_part_distribution` -/

/-- The accumulators of `calc_part_distribution`: `*low`, `dist` and `cnt`. -/
structure PartDistAcc (K : Type) where
  low : K
  dist : Int → K
  cnt : Int

section PartDistCode

variable {K : Type} [LinearOrderedField K] [FloorRing K]

/-- The loop over the second particle, lines 440-449: the smallest squared minimum-image
distance from particle `i` to a particle `j ≠ i` whose type is in `p2_types`, starting
from `start_dist2`. -/
def part_dist_min2 (box_l : Vec3 K) (partCfg : List (Particle K)) (p2_types : List Int)
    (i : Nat) (pi : Particle K) (start_dist2 : K) : K :=
  (List.range partCfg.length).foldl
    (fun min_dist2 j =>
      if j ≠ i then
        match partCfg[j]? with
        | none => min_dist2
        | some pj =>
          p2_types.foldl
            (fun min_dist2 ty2 =>
              if pj.type = ty2 then
                if min_distance2 box_l pi.p pj.p < min_dist2 then min_distance2 box_l pi.p pj.p
                else min_dist2
              else min_dist2)
            min_dist2
      else min_dist2)
    start_dist2

/-- Lines 450-464 for one particle of `p1_types` with its `min_dist2`. -/
def part_dist_bin (sqrt log : K → K) (r_min r_max inv_bin_width : K) (r_bins log_flag : Int)
    (min_dist2 : K) (acc : PartDistAcc K) : PartDistAcc K :=
  let min_dist := sqrt min_dist2
  let acc1 :=
    if min_dist ≤ r_max then
      if min_dist ≥ r_min then
        let ind :=
          if log_flag = 1 then c_int_cast ((log min_dist - log r_min) * inv_bin_width)
          else c_int_cast ((min_dist - r_min) * inv_bin_width)
        if ind ≥ 0 ∧ ind < r_bins then
          { acc with dist := Function.update acc.dist ind (acc.dist ind + 1) }
        else acc
      else { acc with low := acc.low + 1 }
    else acc
  { acc1 with cnt := acc1.cnt + 1 }

/-- The variable `inv_bin_width` of `calc_part_distribution`, lines 431-432. -/
def part_dist_inv_bin_width (log : K → K) (r_min r_max : K) (r_bins log_flag : Int) : K :=
  if log_flag = 1 then (r_bins : K) / (log r_max - log r_min)
  else (r_bins : K) / (r_max - r_min)

/-- The accumulators of `calc_part_distribution` before the normalisation
(lines 427-467). -/
def calc_part_distribution_raw (sqrt log : K → K) (box_l : Vec3 K)
    (partCfg : List (Particle K)) (p1_types p2_types : List Int) (r_min r_max : K)
    (r_bins log_flag : Int) (dist0 : Int → K) : PartDistAcc K :=
  let start_dist2 := SQR (box_l.x + box_l.y + box_l.z)
  let inv_bin_width := part_dist_inv_bin_width log r_min r_max r_bins log_flag
  (List.range partCfg.length).foldl
    (fun acc i =>
      match partCfg[i]? with
      | none => acc
      | some pi =>
        p1_types.foldl
          (fun acc ty1 =>
            if pi.type = ty1 then
              part_dist_bin sqrt log r_min r_max inv_bin_width r_bins log_flag
                (part_dist_min2 box_l partCfg p2_types i pi start_dist2) acc
            else acc)
          acc)
    { low := 0, dist := rdf_clear r_bins dist0, cnt := 0 }

/-- `calc_part_distribution` (statistics.c 419-472): `*low` and the array `dist` on
return.  The library `sqrt` and `log` are arguments. -/
def calc_part_distribution (sqrt log : K → K) (box_l : Vec3 K)
    (partCfg : List (Particle K)) (p1_types p2_types : List Int) (r_min r_max : K)
    (r_bins log_flag : Int) (dist0 : Int → K) : K × (Int → K) :=
  let acc := calc_part_distribution_raw sqrt log box_l partCfg p1_types p2_types r_min r_max
    r_bins log_flag dist0
  (acc.low / (acc.cnt : K),
    fun i => if 0 ≤ i ∧ i < r_bins then acc.dist i / (acc.cnt : K) else acc.dist i)

/-! ### Specification side of `calc_part_distribution` -/

/-- The example of the spec: three particles of type 0 at `x = 0, 1, 2`. -/
def three_on_a_line : List (Particle K) :=
  [particle_on_x_axis 0 0 0, particle_on_x_axis 1 0 1, particle_on_x_axis 2 0 2]

end PartDistCode

/-! ## The configuration history -/

/-- The Tcl return code `TCL_OK`. -/
def TCL_OK : Int := 0

/-- The Tcl return code `TCL_ERROR`. -/
def TCL_ERROR : Int := 1

/-- The globals `configs`, `n_configs` and `n_part_conf` (statistics.c 42).  `configs`
lists the allocated blocks `configs[0], ..., configs[n_configs - 1]`; a block has room for
as many positions as its list has entries. -/
structure History (K : Type) where
  configs : List (Snapshot K)
  n_part_conf : Int
deriving DecidableEq

/-- A word of a Tcl command line, given by what `ARG_IS_I` and `ARG_IS_D` make of it
(`none`: the word is not a number of that kind). -/
structure TclArg (K : Type) where
  as_int : Option Int
  as_double : Option K

/-- What the history commands see of the live particle store: `partCfg` with its
`n_total_particles` entries, and whether `sortPartCfg()` succeeds. -/
structure LiveStore (K : Type) where
  partCfg : List (Particle K)
  sorted : Bool

section HistoryCode

variable {K : Type} [LinearOrderedField K] [FloorRing K]

/-- The global `n_configs`. -/
def History.n_configs (h : History K) : Int := (h.configs.length : Int)

/-- The history at program start: `configs = NULL`, `n_configs = 0`, `n_part_conf = 0`. -/
def empty_history : History K := ⟨[], 0⟩

/-- The global `n_total_particles`. -/
def n_total_particles (live : LiveStore K) : Int := (live.partCfg.length : Int)

/-- The block filled by the copy loops of `analyze_append` and `analyze_push`: the
positions `partCfg[i].r.p` for `i < n_total_particles`. -/
def live_snapshot (live : LiveStore K) : Snapshot K :=
  live.partCfg.map (fun pt => pt.p)

/-- The loop `for(i=ind; i<n_configs-1; i++) configs[i]=configs[i+1];` of `analyze_push`
(with `ind = 0`) and `analyze_remove`. -/
def shift_down (configs : List (Snapshot K)) (ind : Nat) : List (Snapshot K) :=
  (List.range' ind (configs.length - 1 - ind)).foldl
    (fun cs (i : Nat) =>
      match cs[i + 1]? with
      | some s => cs.set i s
      | none => cs)
    configs

/-- `analyze_append` (statistics.c 711-722). -/
def analyze_append (live : LiveStore K) (h : History K) : History K :=
  { configs := h.configs ++ [live_snapshot live], n_part_conf := n_total_particles live }

/-- `analyze_push` (statistics.c 724-737).  With no stored configuration the function
frees and writes outside `configs`: no result. -/
def analyze_push (live : LiveStore K) (h : History K) : Option (History K) :=
  if h.configs.length = 0 then none
  else
    some { configs := (shift_down h.configs 0).set (h.configs.length - 1) (live_snapshot live),
           n_part_conf := n_total_particles live }

/-- `analyze_replace` (statistics.c 739-747): the live positions are written into the
existing block `configs[ind]`.  No result when `ind` is no stored configuration or the
block is too small. -/
def analyze_replace (live : LiveStore K) (h : History K) (ind : Int) : Option (History K) :=
  if 0 ≤ ind then
    match h.configs[ind.toNat]? with
    | none => none
    | some old =>
      if live.partCfg.length ≤ old.length then
        some { configs := h.configs.set ind.toNat
                 (live_snapshot live ++ old.drop live.partCfg.length),
               n_part_conf := n_total_particles live }
      else none
  else none

/-- `analyze_remove` (statistics.c 749-758).  No result when `ind` is no stored
configuration. -/
def analyze_remove (h : History K) (ind : Int) : Option (History K) :=
  if 0 ≤ ind ∧ ind < h.n_configs then
    some { configs := (shift_down h.configs ind.toNat).take (h.configs.length - 1),
           n_part_conf := if h.n_configs - 1 = 0 then 0 else h.n_part_conf }
  else none

/-- `analyze_configs` (statistics.c 760-771). -/
def analyze_configs (tmp_config : List K) (count : Int) (h : History K) : History K :=
  { configs := h.configs ++
      [(List.range count.toNat).map (fun (i : Nat) =>
        (⟨tmp_config.getD (3 * i) 0, tmp_config.getD (3 * i + 1) 0,
          tmp_config.getD (3 * i + 2) 0⟩ : Vec3 K))],
    n_part_conf := count }

end HistoryCode

/-- What `analyze_activate` leaves behind: the live store, the calls of `place_particle`
in the order they were made (particle, position, return code), the particles for which a
runtime error was recorded, and `n_part_conf`. -/
structure Activation (σ K : Type) where
  store : σ
  writes : List (Int × Vec3 K × Int)
  errors : List Int
  n_part_conf : Int

section HistoryCommands

variable {K : Type} [LinearOrderedField K] [FloorRing K] {σ : Type}

/-- `analyze_activate` (statistics.c 773-787).  The external `place_particle` is an
argument: from the live store, a particle and a position it gives a return code and the
new live store. -/
def analyze_activate (place_particle : σ → Int → Vec3 K → Int × σ) (n_total : Int)
    (h : History K) (ind : Int) (store : σ) : Activation σ K :=
  (List.range n_total.toNat).foldl
    (fun acc (i : Nat) =>
      let pos := snapshot_pos (config_at h.configs ind) i
      let r := place_particle acc.store (i : Int) pos
      { acc with
        store := r.2
        writes := acc.writes ++ [((i : Int), pos, r.1)]
        errors := if r.1 = TCL_ERROR then acc.errors ++ [(i : Int)] else acc.errors })
    { store := store, writes := [], errors := [], n_part_conf := n_total }

/-- `parse_append` (statistics.c 1686-1703): return code and history afterwards. -/
def parse_append (live : LiveStore K) (argv : List (TclArg K)) (h : History K) :
    Option (Int × History K) :=
  if argv.length ≠ 0 then some (TCL_ERROR, h)
  else if n_total_particles live = 0 then some (TCL_ERROR, h)
  else if h.n_configs > 0 ∧ h.n_part_conf ≠ n_total_particles live then some (TCL_ERROR, h)
  else if live.sorted = false then some (TCL_ERROR, h)
  else some (TCL_OK, analyze_append live h)

/-- The loop `for(j=0; j < n_configs-i; j++) analyze_remove(0);` of `parse_push`, from
the given `j`; `fuel` bounds the number of rounds. -/
def push_evict (i : Int) : Nat → Int → History K → Option (History K)
  | 0, j, h => if j < h.n_configs - i then none else some h
  | fuel + 1, j, h =>
    if j < h.n_configs - i then
      match analyze_remove h 0 with
      | none => none
      | some h1 => push_evict i fuel (j + 1) h1
    else some h

/-- `parse_push` (statistics.c 1705-1729). -/
def parse_push (live : LiveStore K) (argv : List (TclArg K)) (h : History K) :
    Option (Int × History K) :=
  if n_total_particles live = 0 then some (TCL_ERROR, h)
  else if h.n_configs > 0 ∧ h.n_part_conf ≠ n_total_particles live then some (TCL_ERROR, h)
  else if live.sorted = false then some (TCL_ERROR, h)
  else if argv.length = 1 then
    match (argv.head?).bind (fun a => a.as_int) with
    | none => some (TCL_ERROR, h)
    | some i =>
      match (if h.n_configs < i then some (analyze_append live h) else analyze_push live h) with
      | none => none
      | some h1 =>
        if h1.n_configs > i then
          match push_evict i h1.configs.length 0 h1 with
          | none => none
          | some h2 => some (TCL_OK, h2)
        else some (TCL_OK, h1)
  else if argv.length ≠ 0 then some (TCL_ERROR, h)
  else if h.n_configs > 0 then
    match analyze_push live h with
    | none => none
    | some h1 => some (TCL_OK, h1)
  else some (TCL_OK, analyze_append live h)

/-- `parse_replace` (statistics.c 1731-1756). -/
def parse_replace (live : LiveStore K) (argv : List (TclArg K)) (h : History K) :
    Option (Int × History K) :=
  if argv.length ≠ 1 then some (TCL_ERROR, h)
  else if n_total_particles live = 0 then some (TCL_ERROR, h)
  else if h.n_configs > 0 ∧ h.n_part_conf ≠ n_total_particles live then some (TCL_ERROR, h)
  else if live.sorted = false then some (TCL_ERROR, h)
  else
    match (argv.head?).bind (fun a => a.as_int) with
    | none => some (TCL_ERROR, h)
    | some i =>
      if h.n_configs = 0 ∧ i = 0 then some (TCL_OK, analyze_append live h)
      else if h.n_configs = 0 ∧ i ≠ 0 then some (TCL_ERROR, h)
      else if i < 0 ∨ i > h.n_configs - 1 then some (TCL_ERROR, h)
      else
        match analyze_replace live h i with
        | none => none
        | some h1 => some (TCL_OK, h1)

/-- The loop `for (i = n_configs-1; i >= 0; i--) analyze_remove(i);` of `parse_remove`. -/
def remove_all (h : History K) : Option (History K) :=
  (List.range h.configs.length).reverse.foldl
    (fun (acc : Option (History K)) (i : Nat) =>
      match acc with
      | none => none
      | some h1 => analyze_remove h1 (i : Int))
    (some h)

/-- `parse_remove` (statistics.c 1758-1780). -/
def parse_remove (live : LiveStore K) (argv : List (TclArg K)) (h : History K) :
    Option (Int × History K) :=
  if live.sorted = false then some (TCL_ERROR, h)
  else if argv.length = 0 then
    match remove_all h with
    | none => none
    | some h1 => some (TCL_OK, h1)
  else if argv.length = 1 then
    match (argv.head?).bind (fun a => a.as_int) with
    | none => some (TCL_ERROR, h)
    | some i =>
      if h.n_configs = 0 then some (TCL_ERROR, h)
      else if i < 0 ∨ i > h.n_configs - 1 then some (TCL_ERROR, h)
      else
        match analyze_remove h i with
        | none => none
        | some h1 => some (TCL_OK, h1)
  else some (TCL_ERROR, h)

/-- The loop `for(j=0; j < argc; j++) if (!ARG_IS_D(j, tmp_config[j])) return (TCL_ERROR);`
of `parse_configs`: the doubles read, or `none` at the first word that is no double. -/
def parse_doubles : List (TclArg K) → Option (List K)
  | [] => some []
  | a :: rest =>
    match a.as_double with
    | none => none
    | some d =>
      match parse_doubles rest with
      | none => none
      | some ds => some (d :: ds)

/-- `parse_configs` (statistics.c 1782-1825); the printed text is not modelled. -/
def parse_configs (argv : List (TclArg K)) (h : History K) : Option (Int × History K) :=
  if argv.length = 0 then some (TCL_OK, h)
  else if argv.length = 1 then
    match (argv.head?).bind (fun a => a.as_int) with
    | none => some (TCL_ERROR, h)
    | some i =>
      if i < 0 ∨ i > h.n_configs - 1 then some (TCL_ERROR, h)
      else some (TCL_OK, h)
  else if (argv.length : Int) = 3 * h.n_part_conf ∨ h.n_part_conf = 0 then
    if h.n_part_conf = 0 ∧ (argv.length : Int) % 3 = 0 then
      match parse_doubles argv with
      | none => some (TCL_ERROR, { h with n_part_conf := (argv.length : Int) / 3 })
      | some tmp_config =>
        some (TCL_OK, analyze_configs tmp_config ((argv.length : Int) / 3)
          { h with n_part_conf := (argv.length : Int) / 3 })
    else if (argv.length : Int) ≠ 3 * h.n_part_conf then some (TCL_ERROR, h)
    else
      match parse_doubles argv with
      | none => some (TCL_ERROR, h)
      | some tmp_config => some (TCL_OK, analyze_configs tmp_config h.n_part_conf h)
  else some (TCL_ERROR, h)

/-- `parse_activate` (statistics.c 1827-1853): return code, history, live store and the
runtime errors recorded by `analyze_activate`. -/
def parse_activate (place_particle : σ → Int → Vec3 K → Int × σ) (live : LiveStore K)
    (argv : List (TclArg K)) (h : History K) (store : σ) :
    Option (Int × History K × σ × List Int) :=
  if argv.length ≠ 1 then some (TCL_ERROR, h, store, [])
  else if n_total_particles live = 0 then some (TCL_ERROR, h, store, [])
  else if h.n_configs > 0 ∧ h.n_part_conf ≠ n_total_particles live then
    some (TCL_ERROR, h, store, [])
  else if live.sorted = false then some (TCL_ERROR, h, store, [])
  else
    match (argv.head?).bind (fun a => a.as_int) with
    | none => some (TCL_ERROR, h, store, [])
    | some i =>
      if h.n_configs = 0 ∧ i = 0 then some (TCL_OK, analyze_append live h, store, [])
      else if h.n_configs = 0 ∧ i ≠ 0 then some (TCL_ERROR, h, store, [])
      else if i < 0 ∨ i > h.n_configs - 1 then some (TCL_ERROR, h, store, [])
      else
        some (TCL_OK,
          { h with n_part_conf :=
              (analyze_activate place_particle (n_total_particles live) h i store).n_part_conf },
          (analyze_activate place_particle (n_total_particles live) h i store).store,
          (analyze_activate place_particle (n_total_particles live) h i store).errors)

end HistoryCommands

/-! ### Sessions of history commands -/

/-- The history commands of `analyze`. -/
inductive HistoryCmd where
  | append
  | push
  | replace
  | remove
  | configs
  | activate

/-- One call of a history command: the command, its words, and the live store at the
time of the call. -/
structure HistoryCall (σ K : Type) where
  cmd : HistoryCmd
  argv : List (TclArg K)
  live : LiveStore K
  store : σ

section HistorySessions

variable {K : Type} [LinearOrderedField K] [FloorRing K] {σ : Type}

/-- Return code and history after one call. -/
def history_step (place_particle : σ → Int → Vec3 K → Int × σ) (call : HistoryCall σ K)
    (h : History K) : Option (Int × History K) :=
  match call.cmd with
  | HistoryCmd.append => parse_append call.live call.argv h
  | HistoryCmd.push => parse_push call.live call.argv h
  | HistoryCmd.replace => parse_replace call.live call.argv h
  | HistoryCmd.remove => parse_remove call.live call.argv h
  | HistoryCmd.configs => parse_configs call.argv h
  | HistoryCmd.activate =>
    match parse_activate place_particle call.live call.argv h call.store with
    | none => none
    | some r => some (r.1, r.2.1)

/-- The history after a sequence of calls, whatever their return codes; `none` when a
call has no result. -/
def history_run (place_particle : σ → Int → Vec3 K → Int × σ) :
    List (HistoryCall σ K) → History K → Option (History K)
  | [], h => some h
  | call :: rest, h =>
    match history_step place_particle call h with
    | none => none
    | some r => history_run place_particle rest r.2

/-- A command word that reads as the integer `k`. -/
def int_arg (k : Int) : TclArg K := ⟨some k, some (k : K)⟩

/-- A command word that reads as the double `d` and as no integer. -/
def double_arg (d : K) : TclArg K := ⟨none, some d⟩

/-- A command word that is no number. -/
def bad_arg : TclArg K := ⟨none, none⟩

/-- The call `analyze push <k>`, the `maintain_window(k, snapshot)` of the spec with the
live positions as snapshot. -/
def maintain_window (k : Int) (live : LiveStore K) (h : History K) :
    Option (Int × History K) :=
  parse_push live [int_arg k] h

/-- The history after calls `analyze push <k>` with the given live stores, all of which
return `TCL_OK`; `none` when a call returns an error or has no result. -/
def push_sequence (k : Int) : List (LiveStore K) → History K → Option (History K)
  | [], h => some h
  | live :: rest, h =>
    match maintain_window k live h with
    | none => none
    | some r => if r.1 = TCL_OK then push_sequence k rest r.2 else none

/-- A sorted live store with one particle, at `(x, 0, 0)`. -/
def one_particle_store (x : K) : LiveStore K :=
  ⟨[particle_on_x_axis 0 0 x], true⟩

/-- The same-length property of a history: when configurations are stored, `n_part_conf`
is at least 1 and every stored block holds exactly `n_part_conf` positions. -/
def SameLength (h : History K) : Prop :=
  0 < h.n_configs → 1 ≤ h.n_part_conf ∧ ∀ s ∈ h.configs, (s.length : Int) = h.n_part_conf

end HistorySessions

section ActivationSpec

variable {K : Type} [LinearOrderedField K] [FloorRing K] {σ : Type}

/-- The live store after the writes for the particles `0, ..., k - 1` of
`analyze_activate(ind)`. -/
def store_after (place_particle : σ → Int → Vec3 K → Int × σ) (h : History K) (ind : Int)
    (store : σ) : Nat → σ
  | 0 => store
  | k + 1 =>
    (place_particle (store_after place_particle h ind store k) (k : Int)
      (snapshot_pos (config_at h.configs ind) k)).2

/-- A `place_particle` on a store that lists the particles written so far; the write for
particle `bad` fails. -/
def place_failing (bad : Int) (store : List Int) (i : Int) (_pos : Vec3 K) : Int × List Int :=
  (if i = bad then TCL_ERROR else TCL_OK, store ++ [i])

end ActivationSpec

/-! ## `calc_cell_gpb` -/

/-- The functions of the C library that `calc_cell_gpb` calls. -/
structure Libm (K : Type) where
  log : K → K
  sqrt : K → K
  atan : K → K
  atanh : K → K
  exp : K → K
  pow : K → K → K

/-- The variables of the bisection loops of `calc_cell_gpb`, and the number of rounds
executed so far. -/
structure Bisection (K : Type) where
  rtb : K
  dg : K
  gmid : K
  fmid : K
  rounds : Nat

section CellGpb

variable {K : Type} [LinearOrderedField K] [FloorRing K]

/-- The function whose zero the first bisection searches (lines 366, 367, 377). -/
def gpb_f_pos (m : Libm K) (xi_m LOG g : K) : K :=
  m.atan (1 / g) + m.atan ((xi_m - 1) / g) - g * LOG

/-- The function whose zero the second bisection searches (lines 391, 402). -/
def gpb_f_neg (m : Libm K) (xi_m LOG g : K) : K :=
  -1 * (m.atanh g + m.atanh (g / (xi_m - 1))) - g * LOG

/-- The loop of lines 375-380, at most `n` more rounds. -/
def gpb_loop_pos (m : Libm K) (xi_m LOG gacc : K) : Nat → Bisection K → Bisection K
  | 0, st => st
  | n + 1, st =>
    let dg := st.dg * (1 / 2)
    let gmid := st.rtb + dg
    let fmid := gpb_f_pos m xi_m LOG gmid
    let rtb := if fmid ≤ 0 then gmid else st.rtb
    let st1 : Bisection K := ⟨rtb, dg, gmid, fmid, st.rounds + 1⟩
    if |dg| < gacc ∨ fmid = 0 then st1 else gpb_loop_pos m xi_m LOG gacc n st1

/-- The loop of lines 400-405, at most `n` more rounds. -/
def gpb_loop_neg (m : Libm K) (xi_m LOG gacc : K) : Nat → Bisection K → Bisection K
  | 0, st => st
  | n + 1, st =>
    let dg := st.dg * (1 / 2)
    let gmid := st.rtb - dg
    let fmid := gpb_f_neg m xi_m LOG gmid
    let rtb := if fmid ≥ 0 then gmid else st.rtb
    let st1 : Bisection K := ⟨rtb, dg, gmid, fmid, st.rounds + 1⟩
    if |dg| < gacc ∨ fmid = 0 then st1 else gpb_loop_neg m xi_m LOG gacc n st1

/-- The regime selection of lines 327-353: `(ig, g1, g2)`, or `none` where the code sets
`result[2] = -5` and returns. -/
def gpb_regime (m : Libm K) (PI xi_m LOG xi_min : K) : Option (K × K × K) :=
  if xi_m > 1 then some (1, PI / LOG, PI / (LOG + xi_m / (xi_m - 1)))
  else if xi_m = 1 then some (1, (PI / 2) / LOG, (PI / 2) / (LOG + 1))
  else if xi_m = xi_min then some (1, 0, 0)
  else if xi_m > xi_min then
    some (1, (PI / 2) / LOG,
      m.sqrt (3 * (LOG - xi_m / (1 - xi_m)) / (1 - m.pow (1 - xi_m) (-3))))
  else if xi_m > 0 then
    some (-1, 1 - xi_m, xi_m * (6 - (3 - xi_m) * xi_m) / (3 * LOG))
  else if xi_m = 0 then some (-1, 1 - xi_m, 1 - xi_m)
  else none

/-- `calc_cell_gpb` (statistics.c 320-417): the array `result` on return and the number of
bisection rounds executed.  The C library functions and `PI` are arguments. -/
def calc_cell_gpb (m : Libm K) (PI xi_m Rc ro gacc : K) (maxtry : Int) (result : Vec3 K) :
    Vec3 K × Nat :=
  let LOG := m.log (Rc / ro)
  let xi_min := LOG / (1 + LOG)
  let maxtry := if maxtry < 1 then 1 else maxtry
  match gpb_regime m PI xi_m LOG xi_min with
  | none => ({ result with z := -5 }, 0)
  | some (ig, g1, g2) =>
    if xi_m = xi_min then (⟨0, 0, ig⟩, 0)
    else if xi_m = 0 then (⟨1 - xi_m, -1, ig⟩, 0)
    else if ig = 1 then
      let f := gpb_f_pos m xi_m LOG g1
      let fmid := gpb_f_pos m xi_m LOG g2
      if f * fmid ≥ 0 then (⟨f, fmid, -3⟩, 0)
      else
        let st0 : Bisection K :=
          if f < 0 then ⟨g1, g2 - g1, 0, fmid, 0⟩ else ⟨g2, g1 - g2, 0, fmid, 0⟩
        let st := gpb_loop_pos m xi_m LOG gacc maxtry.toNat st0
        if |st.dg| > gacc then (⟨st.gmid, st.dg, -2⟩, st.rounds)
        else (⟨st.gmid, Rc * m.exp (-(1 / st.gmid) * m.atan (1 / st.gmid)), ig⟩, st.rounds)
    else if ig = -1 then
      let f := gpb_f_neg m xi_m LOG g2
      let st0 : Bisection K :=
        if f < 0 then ⟨g1, g1 - g2, 0, 0, 0⟩ else ⟨g1, g1, 0, 0, 0⟩
      let st := gpb_loop_neg m xi_m LOG gacc maxtry.toNat st0
      if |st.dg| > gacc then (⟨st.gmid, st.dg, -2⟩, st.rounds)
      else (⟨st.gmid, Rc * m.exp (m.atan (1 / st.gmid) / st.gmid), ig⟩, st.rounds)
    else ({ result with z := -5 }, 0)

end CellGpb

/-! ## `centermass` and `momentofinertiamatrix` -/

section Moments

variable {K : Type} [LinearOrderedField K] [FloorRing K]

/-- The sums `com[0..2]` and `M` of `centermass` after the particle loop (lines 237-244). -/
def centermass_sums (type : Int) (partCfg : List (Particle K)) : Vec3 K × K :=
  partCfg.foldl
    (fun (acc : Vec3 K × K) pt =>
      if type = pt.type then
        (⟨acc.1.x + pt.p.x * pt.mass, acc.1.y + pt.p.y * pt.mass, acc.1.z + pt.p.z * pt.mass⟩,
          acc.2 + pt.mass)
      else acc)
    (⟨0, 0, 0⟩, 0)

/-- `centermass` (statistics.c 230-250): the array `com` on return. -/
def centermass (type : Int) (partCfg : List (Particle K)) : Vec3 K :=
  let acc := centermass_sums type partCfg
  ⟨acc.1.x / acc.2, acc.1.y / acc.2, acc.1.z / acc.2⟩

/-- The body of the particle loop of `momentofinertiamatrix` (lines 263-275) for one
particle. -/
def moi_step (type : Int) (com : Vec3 K) (MofImatrix : Int → K) (pt : Particle K) : Int → K :=
  if type = pt.type then
    let p1 : Vec3 K := ⟨pt.p.x - com.x, pt.p.y - com.y, pt.p.z - com.z⟩
    let massi := pt.mass
    let m0 := Function.update MofImatrix 0 (MofImatrix 0 + massi * (p1.y * p1.y + p1.z * p1.z))
    let m1 := Function.update m0 4 (m0 4 + massi * (p1.x * p1.x + p1.z * p1.z))
    let m2 := Function.update m1 8 (m1 8 + massi * (p1.x * p1.x + p1.y * p1.y))
    let m3 := Function.update m2 1 (m2 1 - massi * (p1.x * p1.y))
    let m4 := Function.update m3 2 (m3 2 - massi * (p1.x * p1.z))
    Function.update m4 5 (m4 5 - massi * (p1.y * p1.z))
  else MofImatrix

/-- `momentofinertiamatrix` (statistics.c 253-282): the array `MofImatrix` on return. -/
def momentofinertiamatrix (type : Int) (partCfg : List (Particle K)) (MofImatrix : Int → K) :
    Int → K :=
  let cleared : Int → K := fun i => if 0 ≤ i ∧ i < 9 then 0 else MofImatrix i
  let com := centermass type partCfg
  let summed := partCfg.foldl (moi_step type com) cleared
  let s3 := Function.update summed 3 (summed 1)
  let s6 := Function.update s3 6 (s3 2)
  Function.update s6 7 (s6 5)

/-! ### Specification side -/

/-- The particles of the given type. -/
def of_type (type : Int) (partCfg : List (Particle K)) : List (Particle K) :=
  partCfg.filter (fun pt => decide (pt.type = type))

/-- The total mass of the particles of the given type. -/
def total_mass (type : Int) (partCfg : List (Particle K)) : K :=
  ((of_type type partCfg).map (fun pt => pt.mass)).sum

/-- What one particle adds to entry `i` of `MofImatrix` in the particle loop, for the
centre `com`. -/
def moi_term (com : Vec3 K) (pt : Particle K) (i : Int) : K :=
  if i = 0 then
    pt.mass * ((pt.p.y - com.y) * (pt.p.y - com.y) + (pt.p.z - com.z) * (pt.p.z - com.z))
  else if i = 4 then
    pt.mass * ((pt.p.x - com.x) * (pt.p.x - com.x) + (pt.p.z - com.z) * (pt.p.z - com.z))
  else if i = 8 then
    pt.mass * ((pt.p.x - com.x) * (pt.p.x - com.x) + (pt.p.y - com.y) * (pt.p.y - com.y))
  else if i = 1 then -(pt.mass * ((pt.p.x - com.x) * (pt.p.y - com.y)))
  else if i = 2 then -(pt.mass * ((pt.p.x - com.x) * (pt.p.z - com.z)))
  else if i = 5 then -(pt.mass * ((pt.p.y - com.y) * (pt.p.z - com.z)))
  else 0

/-- Component `a` (0, 1 or 2) of a vector. -/
def Vec3.component (v : Vec3 K) (a : Nat) : K :=
  if a = 0 then v.x else if a = 1 then v.y else v.z

/-- Entry `(a, b)` of the standard inertia tensor of the particles of the given type about
the point `o`: the sum of `m * (|d|² * δ_ab - d_a * d_b)` with `d = position - o`. -/
def inertia_tensor (type : Int) (partCfg : List (Particle K)) (o : Vec3 K) (a b : Nat) : K :=
  ((of_type type partCfg).map (fun pt =>
    pt.mass *
      ((if a = b then
          (pt.p.x - o.x) * (pt.p.x - o.x) + (pt.p.y - o.y) * (pt.p.y - o.y) +
            (pt.p.z - o.z) * (pt.p.z - o.z)
        else 0) -
        (Vec3.component ⟨pt.p.x - o.x, pt.p.y - o.y, pt.p.z - o.z⟩ a) *
          (Vec3.component ⟨pt.p.x - o.x, pt.p.y - o.y, pt.p.z - o.z⟩ b)))).sum

end Moments

/-! ### `parse_cell_gpb` -/

/-- The arguments of a call of `calc_cell_gpb`. -/
structure GpbCall (K : Type) where
  xi_m : K
  Rc : K
  ro : K
  gacc : K
  maxtry : Int

section CellGpbCommand

variable {K : Type} [LinearOrderedField K] [FloorRing K]

/-- The variable `gacc` of `parse_cell_gpb` after line 1383
`if (argc == 4) if (!ARG_IS_D(3,gacc)) return TCL_ERROR;`, with its initial value `1e-6`;
`none` where the function returns. -/
def gpb_gacc (argv : List (TclArg K)) : Option K :=
  if argv.length = 4 then (argv[3]?).bind (fun a => a.as_double)
  else some (1 / 1000000)

/-- The variable `maxtry` of `parse_cell_gpb` after line 1385
`if (argc == 5) if (!ARG_IS_I(4,maxtry)) return TCL_ERROR;`, with its initial value 30000;
`none` where the function returns. -/
def gpb_maxtry (argv : List (TclArg K)) : Option Int :=
  if argv.length = 5 then (argv[4]?).bind (fun a => a.as_int)
  else some 30000

/-- `parse_cell_gpb` (statistics.c 1370-1413): the return code, the call of
`calc_cell_gpb` made (if any) and the array `result` afterwards; the text of the Tcl
result is not modelled. -/
def parse_cell_gpb (m : Libm K) (PI : K) (argv : List (TclArg K)) (result : Vec3 K) :
    Int × Option (GpbCall K) × Vec3 K :=
  if argv.length < 3 ∨ argv.length > 5 then (TCL_ERROR, none, result)
  else
    match (argv[0]?).bind (fun a => a.as_double), (argv[1]?).bind (fun a => a.as_double),
      (argv[2]?).bind (fun a => a.as_double) with
    | some xi_m, some Rc, some ro =>
      match gpb_gacc argv with
      | none => (TCL_ERROR, none, result)
      | some gacc =>
        match gpb_maxtry argv with
        | none => (TCL_ERROR, none, result)
        | some maxtry =>
          if xi_m < 0 ∨ ¬ (Rc > 0 ∧ ro > 0) then (TCL_ERROR, none, result)
          else
            let res := (calc_cell_gpb m PI xi_m Rc ro gacc maxtry result).1
            let code :=
              if res.z = -2 then TCL_ERROR
              else if res.z = -3 then TCL_ERROR
              else if res.z = -4 then TCL_ERROR
              else if res.z = -5 then TCL_ERROR
              else TCL_OK
            (code, some ⟨xi_m, Rc, ro, gacc, maxtry⟩, res)
    | _, _, _ => (TCL_ERROR, none, result)

end CellGpbCommand

section CellGpbSpec

variable {K : Type} [LinearOrderedField K] [FloorRing K]

/-- The number of rounds the bisection loops of `calc_cell_gpb` may run: `maxtry`, with a
value below 1 replaced by 1 (line 325). -/
def gpb_max_rounds (maxtry : Int) : Nat :=
  (if maxtry < 1 then 1 else maxtry).toNat

end CellGpbSpec

/-! ## The commands `distribution`, `rdf` and `aggregation` -/

/-- A word of a Tcl command line that may also stand for a list of integers:
`as_intlist` is what `ARG_IS_INTLIST` makes of it. -/
structure TclWord (K : Type) extends TclArg K where
  as_intlist : Option (List Int)

/-- The variables of `parse_distribution` after the words are read and the defaults are
set (line 1492). -/
structure DistributionArgs (K : Type) where
  p1 : List Int
  p2 : List Int
  r_min : K
  r_max : K
  r_bins : Int
  log_flag : Int
  int_flag : Int

/-- The variables of `parse_rdf` after the words are read and the defaults are set
(line 1592). -/
structure RdfArgs (K : Type) where
  p1 : List Int
  p2 : List Int
  r_min : K
  r_max : K
  r_bins : Int
  n_conf : Int

/-- The call of `aggregation` made by `parse_aggregation`: the arguments passed and the
state of the arrays and counters afterwards (`none`: the model ran out of fuel). -/
structure AggregationRun (K : Type) where
  dist_criteria2 : K
  min_contact : Int
  s_mol_id : Int
  f_mol_id : Int
  state : Option AggState

section Commands

variable {K : Type} [LinearOrderedField K] [FloorRing K]

/-- An optional double word
`if( argc>0 ) { if (!ARG0_IS_D(x)) return (TCL_ERROR); argc--; argv++; }`:
the value of `x` afterwards and the words left, `none` where the command returns. -/
def opt_double : List (TclWord K) → K → Option (K × List (TclWord K))
  | [], x => some (x, [])
  | w :: rest, _ =>
    match w.as_double with
    | none => none
    | some v => some (v, rest)

/-- An optional integer word
`if( argc>0 ) { if (!ARG0_IS_I(x)) return (TCL_ERROR); argc--; argv++; }`. -/
def opt_int : List (TclWord K) → Int → Option (Int × List (TclWord K))
  | [], x => some (x, [])
  | w :: rest, _ =>
    match w.as_int with
    | none => none
    | some v => some (v, rest)

/-- Lines 1463-1492 of `parse_distribution`: reading the words and setting the defaults;
`none` where the command returns `TCL_ERROR`. -/
def distribution_args (min_box_l : K) (n_total_particles : Int) (argv : List (TclWord K)) :
    Option (DistributionArgs K) :=
  if argv.length < 2 then none
  else
    match (argv[0]?).bind (fun w => w.as_intlist), (argv[1]?).bind (fun w => w.as_intlist) with
    | some p1, some p2 =>
      match opt_double (argv.drop 2) 0 with
      | none => none
      | some (r_min, rest1) =>
        match opt_double rest1 (-1) with
        | none => none
        | some (r_max, rest2) =>
          match opt_int rest2 0 with
          | none => none
          | some (r_bins, rest3) =>
            match opt_int rest3 0 with
            | none => none
            | some (log_flag, rest4) =>
              match opt_int rest4 0 with
              | none => none
              | some (int_flag, _) =>
                some
                  { p1 := p1
                    p2 := p2
                    r_min := r_min
                    r_max := (if r_max = -1 then min_box_l / 2 else r_max)
                    r_bins := (if r_bins < 0 then n_total_particles / 20 else r_bins)
                    log_flag := log_flag
                    int_flag := int_flag }
    | _, _ => none

/-- Lines 1516-1517 of `parse_distribution`, the integrated distribution:
`distribution[0] += low; for(i=0; i<r_bins-1; i++) distribution[i+1] += distribution[i];`. -/
def distribution_integrate (r_bins : Int) (low : K) (distribution : Int → K) : Int → K :=
  (List.range (r_bins - 1).toNat).foldl
    (fun d (i : Nat) => Function.update d ((i : Int) + 1) (d ((i : Int) + 1) + d (i : Int)))
    (Function.update distribution 0 (distribution 0 + low))

/-- `parse_distribution` (statistics.c 1446-1541): the return code and the array
`distribution` that is printed (`none`: `calc_part_distribution` was not called).  The
text of the Tcl result is not modelled. -/
def parse_distribution (sqrt log : K → K) (box_l : Vec3 K) (min_box_l : K)
    (partCfg : List (Particle K)) (argv : List (TclWord K)) (distribution : Int → K) :
    Int × Option (Int → K) :=
  match distribution_args min_box_l (partCfg.length : Int) argv with
  | none => (TCL_ERROR, none)
  | some a =>
    if a.r_min < 0 ∨ (a.log_flag = 1 ∧ a.r_min = 0) then (TCL_ERROR, none)
    else if a.r_max ≤ a.r_min then (TCL_ERROR, none)
    else if a.r_bins < 1 then (TCL_ERROR, none)
    else
      let res := calc_part_distribution sqrt log box_l partCfg a.p1 a.p2 a.r_min a.r_max
        a.r_bins a.log_flag distribution
      (TCL_OK,
        some (if a.int_flag = 1 then distribution_integrate a.r_bins res.1 res.2 else res.2))

/-- Lines 1554-1592 of `parse_rdf`: reading the words and setting the defaults; `none`
where the command returns `TCL_ERROR`. -/
def rdf_args (min_box_l : K) (n_total_particles n_configs average : Int)
    (argv : List (TclWord K)) : Option (RdfArgs K) :=
  if argv.length < 2 then none
  else
    match (argv[0]?).bind (fun w => w.as_intlist), (argv[1]?).bind (fun w => w.as_intlist) with
    | some p1, some p2 =>
      match opt_double (argv.drop 2) 0 with
      | none => none
      | some (r_min, rest1) =>
        match opt_double rest1 (-1) with
        | none => none
        | some (r_max, rest2) =>
          match opt_int rest2 (-1) with
          | none => none
          | some (r_bins, rest3) =>
            match (if average ≠ 0 then
                if n_configs = 0 then none
                else
                  match rest3 with
                  | [] => some n_configs
                  | w :: _ => w.as_int
              else some 1) with
            | none => none
            | some n_conf =>
              some
                { p1 := p1
                  p2 := p2
                  r_min := r_min
                  r_max := (if r_max = -1 then min_box_l / 2 else r_max)
                  r_bins := (if r_bins = -1 then n_total_particles / 20 else r_bins)
                  n_conf := n_conf }
    | _, _ => none

/-- `parse_rdf` (statistics.c 1543-1651): the return code and the array `rdf` that is
printed (`none`: no rdf function was called). -/
def parse_rdf (sqrt : K → K) (PI : K) (box_l : Vec3 K) (min_box_l : K)
    (partCfg : List (Particle K)) (h : History K) (average : Int) (argv : List (TclWord K))
    (rdf rdf_tmp : Int → K) : Int × Option (Int → K) :=
  match rdf_args min_box_l (partCfg.length : Int) h.n_configs average argv with
  | none => (TCL_ERROR, none)
  | some a =>
    if average = 0 then
      (TCL_OK, some (calc_rdf sqrt PI box_l partCfg a.p1 a.p2 a.r_min a.r_max a.r_bins rdf))
    else if average = 1 then
      (TCL_OK,
        some (calc_rdf_av sqrt PI box_l partCfg h.configs a.p1 a.p2 a.r_min a.r_max a.r_bins
          rdf rdf_tmp a.n_conf))
    else if average = 2 then
      (TCL_OK,
        some (calc_rdf_intermol_av sqrt PI box_l partCfg h.configs a.p1 a.p2 a.r_min a.r_max
          a.r_bins rdf rdf_tmp a.n_conf))
    else (TCL_ERROR, none)

/-- `parse_aggregation` (statistics.c 1068-1161): the return code and the call of
`aggregation` made (`none`: `aggregation` was not called).  `domdec` says whether
`cell_structure.type` is `CELL_STRUCTURE_DOMDEC`; `pairs`, `distance2vec` and `fuel` are
the arguments of the model of `aggregation`, `junk` fills the fresh blocks. -/
def parse_aggregation (distance2vec : Vec3 K → Vec3 K → K) (n_molecules n_nodes : Int)
    (domdec : Bool) (max_range_non_bonded2 : K) (pairs : List (Particle K × Particle K))
    (fuel : Nat) (junk : Int) (argv : List (TclArg K)) : Int × Option (AggregationRun K) :=
  if argv.length < 3 then (TCL_ERROR, none)
  else
    match (argv[0]?).bind (fun a => a.as_double) with
    | none => (TCL_ERROR, none)
    | some dist_criteria =>
      match (argv[1]?).bind (fun a => a.as_int), (argv[2]?).bind (fun a => a.as_int) with
      | some s_mol_id, some f_mol_id =>
        if n_nodes > 1 then (TCL_ERROR, none)
        else if domdec = false then (TCL_ERROR, none)
        else if s_mol_id < 0 ∨ s_mol_id > n_molecules ∨ f_mol_id < 0 ∨ f_mol_id > n_molecules
        then (TCL_ERROR, none)
        else if max_range_non_bonded2 < dist_criteria * dist_criteria then (TCL_ERROR, none)
        else
          match (if argv.length = 4 then (argv[3]?).bind (fun a => a.as_int) else some 1) with
          | none => (TCL_ERROR, none)
          | some min_contact =>
            (TCL_OK,
              some
                { dist_criteria2 := dist_criteria * dist_criteria
                  min_contact := min_contact
                  s_mol_id := s_mol_id
                  f_mol_id := f_mol_id
                  state :=
                    (aggregation distance2vec n_molecules pairs fuel
                      (dist_criteria * dist_criteria) min_contact s_mol_id f_mol_id
                      (caller_state n_molecules junk)) })
      | _, _ => (TCL_ERROR, none)

end Commands

/-! ## `analyze_structurefactor` -/

/-- How a call of `analyze_structurefactor` ends: it calls `errexit()`, or it returns with
the array `ff`. -/
inductive SfOutcome (K : Type) where
  | errexit : SfOutcome K
  | returned (ff : Int → K) : SfOutcome K

/-- The arrays `ff` and `fn` of `analyze_structurefactor`. -/
structure SfAcc (K : Type) where
  ff : Int → K
  fn : Int → Int

section StructureFactor

variable {K : Type} [LinearOrderedField K] [FloorRing K]

/-- The sums `C_sum` and `S_sum` for the lattice vector `(i, j, k)` (lines 681-688). -/
def sf_sums (cos sin : K → K) (twoPI_L : K) (partCfg : List (Particle K)) (type : Int)
    (i j k : Int) : K × K :=
  partCfg.foldl
    (fun (acc : K × K) pt =>
      if pt.type = type then
        (acc.1 + cos (twoPI_L * ((i : K) * pt.p.x + (j : K) * pt.p.y + (k : K) * pt.p.z)),
          acc.2 + sin (twoPI_L * ((i : K) * pt.p.x + (j : K) * pt.p.y + (k : K) * pt.p.z)))
      else acc)
    (0, 0)

/-- The body of the innermost lattice loop (lines 679-692) for the vector `v`. -/
def sf_vector_step (cos sin : K → K) (twoPI_L : K) (partCfg : List (Particle K))
    (type order2 : Int) (acc : SfAcc K) (v : Int × Int × Int) : SfAcc K :=
  let n := v.1 * v.1 + v.2.1 * v.2.1 + v.2.2 * v.2.2
  if n ≤ order2 ∧ n > 0 then
    { ff := Function.update acc.ff n
        (acc.ff n +
          ((sf_sums cos sin twoPI_L partCfg type v.1 v.2.1 v.2.2).1 *
              (sf_sums cos sin twoPI_L partCfg type v.1 v.2.1 v.2.2).1 +
            (sf_sums cos sin twoPI_L partCfg type v.1 v.2.1 v.2.2).2 *
              (sf_sums cos sin twoPI_L partCfg type v.1 v.2.1 v.2.2).2))
      fn := Function.update acc.fn n (acc.fn n + 1) }
  else acc

/-- The variable `n` of lines 696-699: the number of particles of the type. -/
def sf_count (partCfg : List (Particle K)) (type : Int) : Int :=
  partCfg.foldl (fun n pt => if pt.type = type then n + 1 else n) 0

/-- The loop of lines 674-677: the entries `1, ..., order2` of `ff` and `fn` are set to
zero. -/
def sf_clear (order2 : Int) (ff : Int → K) (fn : Int → Int) : SfAcc K :=
  ⟨fun qi => if 1 ≤ qi ∧ qi ≤ order2 then 0 else ff qi,
    fun qi => if 1 ≤ qi ∧ qi ≤ order2 then 0 else fn qi⟩

/-- The loop of lines 700-701:
`for(qi=0; qi<=order2; qi++) if (fn[qi]!=0) ff[qi]/= n*fn[qi];`. -/
def sf_normalise (n order2 : Int) (acc : SfAcc K) : Int → K :=
  fun qi =>
    if 0 ≤ qi ∧ qi ≤ order2 then
      if acc.fn qi ≠ 0 then acc.ff qi / ((n * acc.fn qi : Int) : K) else acc.ff qi
    else acc.ff qi

/-- `analyze_structurefactor` (statistics.c 662-705).  `cos`, `sin` and `PI` are
arguments; `ff` and `fn` are the fresh blocks before they are written. -/
def analyze_structurefactor (cos sin : K → K) (PI : K) (box_l : Vec3 K)
    (n_particle_types : Int) (partCfg : List (Particle K)) (type order : Int)
    (ff : Int → K) (fn : Int → Int) : SfOutcome K :=
  let order2 := order * order
  let twoPI_L := 2 * PI / box_l.x
  if type < 0 ∨ type > n_particle_types then SfOutcome.errexit
  else if order < 1 then SfOutcome.errexit
  else
    let acc :=
      (mol_range 0 order).foldl
        (fun acc i =>
          (mol_range (-order) order).foldl
            (fun acc j =>
              (mol_range (-order) order).foldl
                (fun acc k => sf_vector_step cos sin twoPI_L partCfg type order2 acc (i, j, k))
                acc)
            acc)
        (sf_clear order2 ff fn)
    SfOutcome.returned (sf_normalise (sf_count partCfg type) order2 acc)

/-- How a call of `parse_structurefactor` ends: the process is ended by `errexit()` inside
`analyze_structurefactor`, or the command returns a code. -/
inductive SfCommand where
  | errexit : SfCommand
  | returned (code : Int) : SfCommand

/-- `parse_structurefactor` (statistics.c 1654-1680); the text of the Tcl result is not
modelled. -/
def parse_structurefactor (cos sin : K → K) (PI : K) (box_l : Vec3 K)
    (n_particle_types : Int) (partCfg : List (Particle K)) (argv : List (TclArg K))
    (ff : Int → K) (fn : Int → Int) : SfCommand :=
  if argv.length < 2 then SfCommand.returned TCL_ERROR
  else
    match (argv[0]?).bind (fun a => a.as_int) with
    | none => SfCommand.returned TCL_ERROR
    | some type =>
      match (argv[1]?).bind (fun a => a.as_int) with
      | none => SfCommand.returned TCL_ERROR
      | some order =>
        match analyze_structurefactor cos sin PI box_l n_particle_types partCfg type order
            ff fn with
        | SfOutcome.errexit => SfCommand.errexit
        | SfOutcome.returned _ => SfCommand.returned TCL_OK

/-! ### Specification side of `analyze_structurefactor` -/

/-- The lattice vectors `(i, j, k)` the loops visit, in order: `0 ≤ i ≤ order`,
`-order ≤ j, k ≤ order`. -/
def sf_lattice (order : Int) : List (Int × Int × Int) :=
  (mol_range 0 order).flatMap (fun i =>
    (mol_range (-order) order).flatMap (fun j =>
      (mol_range (-order) order).map (fun k => (i, j, k))))

/-- The lattice vectors of squared length `n`. -/
def sf_vectors (order n : Int) : List (Int × Int × Int) :=
  (sf_lattice order).filter (fun v => decide (v.1 * v.1 + v.2.1 * v.2.1 + v.2.2 * v.2.2 = n))

/-- The sum of `cos(q.r)` over the particles of the type, `q = twoPI_L * (i, j, k)`. -/
def sf_cos_sum (cos : K → K) (twoPI_L : K) (partCfg : List (Particle K)) (type : Int)
    (v : Int × Int × Int) : K :=
  ((of_type type partCfg).map (fun pt =>
    cos (twoPI_L * ((v.1 : K) * pt.p.x + (v.2.1 : K) * pt.p.y + (v.2.2 : K) * pt.p.z)))).sum

/-- The sum of `sin(q.r)` over the particles of the type. -/
def sf_sin_sum (sin : K → K) (twoPI_L : K) (partCfg : List (Particle K)) (type : Int)
    (v : Int × Int × Int) : K :=
  ((of_type type partCfg).map (fun pt =>
    sin (twoPI_L * ((v.1 : K) * pt.p.x + (v.2.1 : K) * pt.p.y + (v.2.2 : K) * pt.p.z)))).sum

end StructureFactor

/-! ## Counting the pairs of the rdf loops -/

section RdfCounting

variable {K : Type} [LinearOrderedField K] [FloorRing K]

end RdfCounting

section RdfAvReads

variable {K : Type} [LinearOrderedField K] [FloorRing K]

/-- The history indices `k = n_configs - cnt_conf` that the `while` loop of `calc_rdf_av`
and `calc_rdf_intermol_av` uses for `configs[k]`, in the order of the rounds
`cnt_conf = 1 .. n_conf` (lines 546-549, 614-616). -/
def rdf_av_read_indices (n_configs n_conf : Int) : List Int :=
  (List.range n_conf.toNat).map (fun (c : Nat) => n_configs - ((c : Int) + 1))

/-- The divisor `cnt_conf - 1` of the final loop (lines 584-586, 654-656). -/
def rdf_av_divisor (n_conf : Int) : Int :=
  ((n_conf.toNat : Int) + 1) - 1

end RdfAvReads

/-! ## Slots and output texts of the commands -/

section PushSlots

variable {K : Type} [LinearOrderedField K] [FloorRing K]

/-- The history slots that `analyze_push` frees and overwrites: `free(configs[0])`
(line 727) and `configs[n_configs-1] = malloc(...)` (line 731). -/
def analyze_push_slots (h : History K) : List Int :=
  [0, h.n_configs - 1]

end PushSlots

section SfOutput

variable {K : Type} [LinearOrderedField K] [FloorRing K]

/-- One round of the output loop of `parse_structurefactor` (lines 1676-1677):
`if (sf[i]>1e-6) sprintf(buffer,"{%f %f} ",qfak*sqrt(i),sf[i]);
Tcl_AppendResult(interp, buffer, (char *)NULL);`.  The state is the content of `buffer`
(the two numbers last printed into it, `none` while it has not been written) and the list
of appended texts, each with the loop index `i` of its round. -/
def sf_output_step (sqrt : K → K) (qfak : K) (sf : Int → K)
    (st : Option (K × K) × List (Int × Option (K × K))) (i : Int) :
    Option (K × K) × List (Int × Option (K × K)) :=
  let buffer := if sf i > 1 / 1000000 then some (qfak * sqrt (i : K), sf i) else st.1
  (buffer, st.2 ++ [(i, buffer)])

/-- The output loop of `parse_structurefactor` (lines 1675-1677),
`for(i=1; i<=order*order+1; i++)`: the texts appended to the Tcl result, each with the
index `i` at which `sf[i]` was read.  `sqrt` and `PI` are arguments. -/
def sf_output (sqrt : K → K) (PI : K) (box_l : Vec3 K) (order : Int) (sf : Int → K) :
    List (Int × Option (K × K)) :=
  let qfak := 2 * PI / box_l.x
  ((mol_range 1 (order * order + 1)).foldl (sf_output_step sqrt qfak sf) (none, [])).2

/-- The Tcl result of `parse_structurefactor` (statistics.c 1654-1680): the texts appended
by the output loop; `none` when the command appends nothing of the kind (it returns
`TCL_ERROR`, or `analyze_structurefactor` calls `errexit()`). -/
def parse_structurefactor_output (cos sin sqrt : K → K) (PI : K) (box_l : Vec3 K)
    (n_particle_types : Int) (partCfg : List (Particle K)) (argv : List (TclArg K))
    (ff : Int → K) (fn : Int → Int) : Option (List (Int × Option (K × K))) :=
  if argv.length < 2 then none
  else
    match (argv[0]?).bind (fun a => a.as_int) with
    | none => none
    | some type =>
      match (argv[1]?).bind (fun a => a.as_int) with
      | none => none
      | some order =>
        match analyze_structurefactor cos sin PI box_l n_particle_types partCfg type order
            ff fn with
        | SfOutcome.errexit => none
        | SfOutcome.returned sf => some (sf_output sqrt PI box_l order sf)

end SfOutput

/-! ## Proofs: `mindist` -/

section FoldLemmas

variable {K : Type} [LinearOrder K] {ι : Type}

theorem foldl_le_init (F : K → ι → K) (hF : ∀ md j, F md j ≤ md) (l : List ι) (init : K) :
    l.foldl F init ≤ init := by
  induction l generalizing init with
  | nil => exact le_refl _
  | cons a t ih => exact le_trans (ih (F init a)) (hF init a)

theorem foldl_le_of_mem (F : K → ι → K) (hF : ∀ md j, F md j ≤ md) (j : ι) (B : K)
    (hB : ∀ md, F md j ≤ B) (l : List ι) (hj : j ∈ l) (init : K) :
    l.foldl F init ≤ B := by
  induction l generalizing init with
  | nil => cases hj
  | cons a t ih =>
    rcases List.mem_cons.mp hj with h | h
    · subst h
      exact le_trans (foldl_le_init F hF t (F init j)) (hB init)
    · exact ih h (F init a)

theorem foldl_init_or (F : K → ι → K) (Q : K → Prop) (l : List ι)
    (hF : ∀ md, ∀ j ∈ l, F md j = md ∨ Q (F md j)) (init : K) :
    l.foldl F init = init ∨ Q (l.foldl F init) := by
  induction l generalizing init with
  | nil => exact Or.inl rfl
  | cons a t ih =>
    have ht : ∀ md, ∀ j ∈ t, F md j = md ∨ Q (F md j) :=
      fun md j hj => hF md j (List.mem_cons_of_mem _ hj)
    rcases ih ht (F init a) with h | h
    · rcases hF init a (List.mem_cons_self _ _) with h2 | h2
      · left; simp only [List.foldl_cons]; rw [h, h2]
      · right; simp only [List.foldl_cons]; rw [h]; exact h2
    · exact Or.inr h

end FoldLemmas

section MindistProofs

variable {K : Type} [LinearOrderedField K] [FloorRing K]

theorem dmin_le_left (a b : K) : dmin a b ≤ a := by
  unfold dmin; split_ifs with h
  · exact le_refl _
  · exact not_lt.mp h

theorem dmin_le_right (a b : K) : dmin a b ≤ b := by
  unfold dmin; split_ifs with h
  · exact le_of_lt h
  · exact le_refl _

theorem dmin_eq_or (a b : K) : dmin a b = a ∨ dmin a b = b := by
  unfold dmin; split_ifs <;> simp

/-- The acceptance test on the mask of `j` unfolds to the symmetric type condition. -/
theorem mindist_accept_mask (set1 set2 : IntSet) (tj ti : Int) :
    mindist_accept set1 set2 (in_set_mask set1 set2 tj) ti =
      ((in_type_set set1 tj && in_type_set set2 ti) ||
        (in_type_set set2 tj && in_type_set set1 ti)) := by
  unfold mindist_accept in_set_mask
  cases in_type_set set1 tj <;> cases in_type_set set2 tj <;>
    cases in_type_set set1 ti <;> cases in_type_set set2 ti <;> decide

theorem in_set_mask_eq_zero (set1 set2 : IntSet) (t : Int) :
    in_set_mask set1 set2 t = 0 ↔ in_type_set set1 t = false ∧ in_type_set set2 t = false := by
  unfold in_set_mask
  cases in_type_set set1 t <;> cases in_type_set set2 t <;> decide

end MindistProofs

section MindistMain

variable {K : Type} [LinearOrderedField K] [FloorRing K]

/-- The body of the inner loop of `mindist`. -/
theorem mindist_inner_le_init (box_l : Vec3 K) (partCfg : List (Particle K))
    (set1 set2 : IntSet) (j in_set : Nat) (pt : Vec3 K) (md : K) :
    mindist_inner box_l partCfg set1 set2 j in_set pt md ≤ md := by
  unfold mindist_inner
  apply foldl_le_init
  intro md i
  cases partCfg[i]? with
  | none => exact le_refl _
  | some pi =>
    dsimp only
    split_ifs
    · exact dmin_le_left _ _
    · exact le_refl _

theorem mindist_inner_le (box_l : Vec3 K) (partCfg : List (Particle K))
    (set1 set2 : IntSet) (j in_set : Nat) (pt : Vec3 K) (md : K)
    (i : Nat) (pi : Particle K) (hji : j < i) (hi : partCfg[i]? = some pi)
    (hacc : mindist_accept set1 set2 in_set pi.type = true) :
    mindist_inner box_l partCfg set1 set2 j in_set pt md ≤ min_distance2 box_l pt pi.p := by
  unfold mindist_inner
  have hlen : i < partCfg.length := by
    rcases List.getElem?_eq_some.mp hi with ⟨h, _⟩
    exact h
  apply foldl_le_of_mem _ _ i
  · intro md
    simp only [hi, hacc, if_true]
    exact dmin_le_right _ _
  · rw [List.mem_range']
    exact ⟨i - (j + 1), by omega, by omega⟩
  · intro md i
    cases partCfg[i]? with
    | none => exact le_refl _
    | some pi =>
      dsimp only
      split_ifs
      · exact dmin_le_left _ _
      · exact le_refl _

theorem mindist_inner_init_or (box_l : Vec3 K) (partCfg : List (Particle K))
    (set1 set2 : IntSet) (j in_set : Nat) (pt : Vec3 K) (md : K) :
    mindist_inner box_l partCfg set1 set2 j in_set pt md = md ∨
      ∃ i pi, j < i ∧ partCfg[i]? = some pi ∧
        mindist_accept set1 set2 in_set pi.type = true ∧
        mindist_inner box_l partCfg set1 set2 j in_set pt md = min_distance2 box_l pt pi.p := by
  unfold mindist_inner
  apply foldl_init_or _ (fun r => ∃ i pi, j < i ∧ partCfg[i]? = some pi ∧
        mindist_accept set1 set2 in_set pi.type = true ∧ r = min_distance2 box_l pt pi.p)
  intro md i hi
  rw [List.mem_range'] at hi
  obtain ⟨k, _, hk⟩ := hi
  cases hpi : partCfg[i]? with
  | none => exact Or.inl rfl
  | some pi =>
    dsimp only
    split_ifs with hacc
    · rcases dmin_eq_or md (min_distance2 box_l pt pi.p) with h | h
      · exact Or.inl h
      · exact Or.inr ⟨i, pi, by omega, hpi, hacc, h⟩
    · exact Or.inl rfl

theorem mindist_accept_iff (set1 set2 : IntSet) (tj ti : Int) :
    mindist_accept set1 set2 (in_set_mask set1 set2 tj) ti = true ↔
      pair_qualifies set1 set2 tj ti := by
  rw [mindist_accept_mask]
  unfold pair_qualifies
  simp only [Bool.or_eq_true, Bool.and_eq_true]

theorem mindist_outer_step_le (box_l : Vec3 K) (partCfg : List (Particle K))
    (set1 set2 : IntSet) (md : K) (j : Nat) :
    (match partCfg[j]? with
      | none => md
      | some pj =>
        let in_set := in_set_mask set1 set2 pj.type
        if in_set = 0 then md
        else mindist_inner box_l partCfg set1 set2 j in_set pj.p md) ≤ md := by
  cases partCfg[j]? with
  | none => exact le_refl _
  | some pj =>
    dsimp only
    split_ifs
    · exact le_refl _
    · exact mindist_inner_le_init _ _ _ _ _ _ _ _

/-- Every qualifying pair `j < i` bounds the running minimum from above. -/
theorem mindist_sq_le (box_l : Vec3 K) (partCfg : List (Particle K)) (set1 set2 : IntSet)
    (j i : Nat) (pj pi : Particle K) (hji : j < i)
    (hj : partCfg[j]? = some pj) (hi : partCfg[i]? = some pi)
    (hq : pair_qualifies set1 set2 pj.type pi.type) :
    mindist_sq box_l partCfg set1 set2 ≤ min_distance2 box_l pj.p pi.p := by
  unfold mindist_sq
  have hlen : i < partCfg.length := by
    rcases List.getElem?_eq_some.mp hi with ⟨h, _⟩
    exact h
  apply foldl_le_of_mem _ (mindist_outer_step_le box_l partCfg set1 set2) j
  · intro md
    simp only [hj]
    have hacc := (mindist_accept_iff set1 set2 pj.type pi.type).mpr hq
    have hmask : in_set_mask set1 set2 pj.type ≠ 0 := by
      intro h0
      rw [h0] at hacc
      simp [mindist_accept] at hacc
    rw [if_neg hmask]
    exact mindist_inner_le box_l partCfg set1 set2 j _ pj.p md i pi hji hi hacc
  · rw [List.mem_range]
    omega

/-- The running minimum is its start value or the squared distance of a qualifying pair. -/
theorem mindist_sq_init_or (box_l : Vec3 K) (partCfg : List (Particle K))
    (set1 set2 : IntSet) :
    mindist_sq box_l partCfg set1 set2 = SQR (box_l.x + box_l.y + box_l.z) ∨
      ∃ (j i : Nat) (pj pi : Particle K), j < i ∧ partCfg[j]? = some pj ∧
        partCfg[i]? = some pi ∧ pair_qualifies set1 set2 pj.type pi.type ∧
        mindist_sq box_l partCfg set1 set2 = min_distance2 box_l pj.p pi.p := by
  unfold mindist_sq
  apply foldl_init_or _ (fun r => ∃ (j i : Nat) (pj pi : Particle K), j < i ∧
        partCfg[j]? = some pj ∧ partCfg[i]? = some pi ∧ pair_qualifies set1 set2 pj.type pi.type ∧
        r = min_distance2 box_l pj.p pi.p)
  intro md j _
  cases hpj : partCfg[j]? with
  | none => exact Or.inl rfl
  | some pj =>
    dsimp only
    split_ifs with h0
    · exact Or.inl rfl
    · rcases mindist_inner_init_or box_l partCfg set1 set2 j
        (in_set_mask set1 set2 pj.type) pj.p md with h | ⟨i, pi, hji, hpi, hacc, h⟩
      · exact Or.inl h
      · exact Or.inr ⟨j, i, pj, pi, hji, hpj, hpi,
          (mindist_accept_iff set1 set2 pj.type pi.type).mp hacc, h⟩

end MindistMain

section GeometryProofs

variable {K : Type} [LinearOrderedField K] [FloorRing K]

/-- The wrapped difference lies in (−L/2, L/2]. -/
theorem mi_wrap_range (d L : K) (hL : 0 < L) :
    -(L / 2) < mi_wrap d L ∧ mi_wrap d L ≤ L / 2 := by
  unfold mi_wrap
  have h1 : d / L - 1 / 2 ≤ ((⌈d / L - 1 / 2⌉ : Int) : K) := Int.le_ceil _
  have h2 : ((⌈d / L - 1 / 2⌉ : Int) : K) < d / L - 1 / 2 + 1 := Int.ceil_lt_add_one _
  have hd : d / L * L = d := div_mul_cancel₀ d (ne_of_gt hL)
  constructor
  · have := mul_lt_mul_of_pos_right h2 hL
    nlinarith
  · have := mul_le_mul_of_nonneg_right h1 (le_of_lt hL)
    nlinarith

theorem mi_wrap_sq_le (d L : K) (hL : 0 < L) : SQR (mi_wrap d L) ≤ L * L / 4 := by
  obtain ⟨h1, h2⟩ := mi_wrap_range d L hL
  unfold SQR
  nlinarith

/-- Wrapping `-d` gives the same square as wrapping `d`. -/
theorem mi_wrap_neg_sq (d L : K) (hL : 0 < L) :
    SQR (mi_wrap (-d) L) = SQR (mi_wrap d L) := by
  obtain ⟨h1, h2⟩ := mi_wrap_range d L hL
  obtain ⟨h3, h4⟩ := mi_wrap_range (-d) L hL
  unfold SQR
  unfold mi_wrap at *
  generalize (⌈d / L - 1 / 2⌉ : Int) = c at *
  generalize (⌈-d / L - 1 / 2⌉ : Int) = c2 at *
  have hlo : ((-1 : Int) : K) ≤ ((c + c2 : Int) : K) := by
    push_cast
    by_contra hcon
    push_neg at hcon
    nlinarith
  have hhi : ((c + c2 : Int) : K) < ((1 : Int) : K) := by
    push_cast
    by_contra hcon
    push_neg at hcon
    nlinarith
  have hlo2 : (-1 : Int) ≤ c + c2 := Int.cast_le.mp hlo
  have hhi2 : c + c2 < (1 : Int) := Int.cast_lt.mp hhi
  have hcases : c + c2 = 0 ∨ c + c2 = -1 := by omega
  rcases hcases with h | h
  · have hc : c2 = -c := by omega
    subst hc
    push_cast
    ring
  · have hc : c2 = -1 - c := by omega
    subst hc
    push_cast at h3 h4 ⊢
    have e1 : d - L * (c : K) = L / 2 := by linarith
    have e2 : -d - L * (-1 - (c : K)) = L / 2 := by linarith
    rw [e1, e2]

theorem min_distance2_comm (box_l a b : Vec3 K)
    (hbox : 0 < box_l.x ∧ 0 < box_l.y ∧ 0 < box_l.z) :
    min_distance2 box_l a b = min_distance2 box_l b a := by
  unfold min_distance2 sqrlen get_mi_vector
  dsimp only
  rw [← mi_wrap_neg_sq (a.x - b.x) _ hbox.1, ← mi_wrap_neg_sq (a.y - b.y) _ hbox.2.1,
    ← mi_wrap_neg_sq (a.z - b.z) _ hbox.2.2]
  simp only [neg_sub]

/-- No minimum-image squared distance exceeds the start value of `mindist`. -/
theorem min_distance2_le_init (box_l a b : Vec3 K)
    (hbox : 0 < box_l.x ∧ 0 < box_l.y ∧ 0 < box_l.z) :
    min_distance2 box_l a b ≤ SQR (box_l.x + box_l.y + box_l.z) := by
  unfold min_distance2 sqrlen get_mi_vector
  dsimp only
  have hx := mi_wrap_sq_le (a.x - b.x) _ hbox.1
  have hy := mi_wrap_sq_le (a.y - b.y) _ hbox.2.1
  have hz := mi_wrap_sq_le (a.z - b.z) _ hbox.2.2
  obtain ⟨px, py, pz⟩ := hbox
  have : SQR (box_l.x + box_l.y + box_l.z) =
      (box_l.x + box_l.y + box_l.z) * (box_l.x + box_l.y + box_l.z) := rfl
  rw [this]
  nlinarith [mul_pos px py, mul_pos px pz, mul_pos py pz, mul_pos px px, mul_pos py py,
    mul_pos pz pz]

end GeometryProofs

section MindistClaims

variable {K : Type} [LinearOrderedField K] [FloorRing K]

/-- Any two distinct particles of which one is in set1 and the other in set2 bound the
running minimum, whatever their order in `partCfg`. -/
theorem mindist_sq_le_unordered (box_l : Vec3 K)
    (hbox : 0 < box_l.x ∧ 0 < box_l.y ∧ 0 < box_l.z)
    (partCfg : List (Particle K)) (set1 set2 : IntSet)
    (a b : Nat) (pa pb : Particle K) (hab : a ≠ b)
    (ha : partCfg[a]? = some pa) (hb : partCfg[b]? = some pb)
    (h1 : in_type_set set1 pa.type = true) (h2 : in_type_set set2 pb.type = true) :
    mindist_sq box_l partCfg set1 set2 ≤ min_distance2 box_l pa.p pb.p := by
  rcases Nat.lt_or_gt_of_ne hab with h | h
  · exact mindist_sq_le box_l partCfg set1 set2 a b pa pb h ha hb (Or.inl ⟨h1, h2⟩)
  · rw [min_distance2_comm box_l pa.p pb.p hbox]
    exact mindist_sq_le box_l partCfg set1 set2 b a pb pa h hb ha (Or.inr ⟨h2, h1⟩)

theorem mindist_sq_attained (box_l : Vec3 K)
    (hbox : 0 < box_l.x ∧ 0 < box_l.y ∧ 0 < box_l.z)
    (partCfg : List (Particle K)) (set1 set2 : IntSet)
    (hex : ∃ (a b : Nat) (pa pb : Particle K), a ≠ b ∧ partCfg[a]? = some pa ∧
      partCfg[b]? = some pb ∧ in_type_set set1 pa.type = true ∧
      in_type_set set2 pb.type = true) :
    ∃ (a b : Nat) (pa pb : Particle K), a ≠ b ∧ partCfg[a]? = some pa ∧
      partCfg[b]? = some pb ∧ in_type_set set1 pa.type = true ∧
      in_type_set set2 pb.type = true ∧
      mindist_sq box_l partCfg set1 set2 = min_distance2 box_l pa.p pb.p := by
  rcases mindist_sq_init_or box_l partCfg set1 set2 with h | ⟨j, i, pj, pi, hji, hj, hi, hq, h⟩
  · obtain ⟨a, b, pa, pb, hab, ha, hb, h1, h2⟩ := hex
    refine ⟨a, b, pa, pb, hab, ha, hb, h1, h2, ?_⟩
    apply le_antisymm
    · exact mindist_sq_le_unordered box_l hbox partCfg set1 set2 a b pa pb hab ha hb h1 h2
    · rw [h]
      exact min_distance2_le_init box_l pa.p pb.p hbox
  · rcases hq with ⟨h1, h2⟩ | ⟨h2, h1⟩
    · exact ⟨j, i, pj, pi, Nat.ne_of_lt hji, hj, hi, h1, h2, h⟩
    · refine ⟨i, j, pi, pj, Nat.ne_of_gt hji, hi, hj, h1, h2, ?_⟩
      rw [h]
      exact min_distance2_comm box_l pj.p pi.p hbox

/-- C1: for a box with positive side lengths and type sets (each possibly absent) with at
least one qualifying pair, `mindist(set1, set2)` is the least element of the set of
minimum-image distances (square roots of `min_distance2`) over all pairs of distinct
particles with one member's type in set1 and the other's in set2. -/
theorem mindist_is_least_qualifying_distance (sqrt : K → K) (hsqrt : Monotone sqrt)
    (box_l : Vec3 K) (hbox : 0 < box_l.x ∧ 0 < box_l.y ∧ 0 < box_l.z)
    (partCfg : List (Particle K)) (set1 set2 : IntSet)
    (hex : (qualifying_distances sqrt box_l partCfg set1 set2).Nonempty) :
    IsLeast (qualifying_distances sqrt box_l partCfg set1 set2)
      (mindist sqrt box_l partCfg set1 set2) := by
  constructor
  · obtain ⟨d, a, b, pa, pb, hab, ha, hb, h1, h2, _⟩ := hex
    obtain ⟨a, b, pa, pb, hab, ha, hb, h1, h2, h⟩ :=
      mindist_sq_attained box_l hbox partCfg set1 set2 ⟨a, b, pa, pb, hab, ha, hb, h1, h2⟩
    refine ⟨a, b, pa, pb, hab, ha, hb, h1, h2, ?_⟩
    unfold mindist min_distance
    rw [h]
  · rintro d ⟨a, b, pa, pb, hab, ha, hb, h1, h2, rfl⟩
    unfold mindist min_distance
    exact hsqrt (mindist_sq_le_unordered box_l hbox partCfg set1 set2 a b pa pb hab ha hb h1 h2)

theorem mindist_is_least_qualifying_distance_witness :
    ((0 : ℝ) < (box10 : Vec3 ℝ).x ∧ (0 : ℝ) < (box10 : Vec3 ℝ).y ∧
        (0 : ℝ) < (box10 : Vec3 ℝ).z) ∧
      (qualifying_distances Real.sqrt (box10 : Vec3 ℝ)
        [particle_on_x_axis 0 0 0, particle_on_x_axis 1 1 9, particle_on_x_axis 2 1 5]
        (some [0]) (some [1])).Nonempty ∧
      IsLeast (qualifying_distances Real.sqrt (box10 : Vec3 ℝ)
        [particle_on_x_axis 0 0 0, particle_on_x_axis 1 1 9, particle_on_x_axis 2 1 5]
        (some [0]) (some [1]))
        (mindist Real.sqrt (box10 : Vec3 ℝ)
          [particle_on_x_axis 0 0 0, particle_on_x_axis 1 1 9, particle_on_x_axis 2 1 5]
          (some [0]) (some [1])) := by
  have hbox : (0 : ℝ) < (box10 : Vec3 ℝ).x ∧ (0 : ℝ) < (box10 : Vec3 ℝ).y ∧
      (0 : ℝ) < (box10 : Vec3 ℝ).z := by
    simp [box10]
  have hex : (qualifying_distances Real.sqrt (box10 : Vec3 ℝ)
      [particle_on_x_axis 0 0 0, particle_on_x_axis 1 1 9, particle_on_x_axis 2 1 5]
      (some [0]) (some [1])).Nonempty :=
    ⟨_, 0, 1, _, _, by decide, rfl, rfl, rfl, rfl, rfl⟩
  exact ⟨hbox, hex, mindist_is_least_qualifying_distance Real.sqrt
    (fun _ _ h => Real.sqrt_le_sqrt h) _ hbox _ _ _ hex⟩

/-- The example of the spec: in the box (10,10,10) the squared minimum-image distance
between (0,0,0) and (9,0,0) is 1. -/
theorem min_distance2_example :
    min_distance2 (box10 : Vec3 K) (⟨0, 0, 0⟩ : Vec3 K) ⟨9, 0, 0⟩ = 1 := by
  have c1 : (⌈((0 : K) - 9) / 10 - 1 / 2⌉ : Int) = -1 := by
    rw [Int.ceil_eq_iff]
    constructor <;> norm_num
  have c2 : (⌈((0 : K) - 0) / 10 - 1 / 2⌉ : Int) = 0 := by
    rw [Int.ceil_eq_iff]
    constructor <;> norm_num
  unfold min_distance2 sqrlen get_mi_vector mi_wrap SQR box10
  dsimp only
  rw [c1, c2]
  norm_num

/-- With exactly two particles and no type restriction the running minimum is the squared
minimum-image distance of the two. -/
theorem mindist_sq_two (box_l : Vec3 K) (hbox : 0 < box_l.x ∧ 0 < box_l.y ∧ 0 < box_l.z)
    (p q : Particle K) :
    mindist_sq box_l [p, q] none none = min_distance2 box_l p.p q.p := by
  have hle := min_distance2_le_init box_l p.p q.p hbox
  have h : mindist_sq box_l [p, q] none none =
      dmin (SQR (box_l.x + box_l.y + box_l.z)) (min_distance2 box_l p.p q.p) := by
    simp [mindist_sq, mindist_inner, in_set_mask, in_type_set, mindist_accept, List.range_succ,
      List.range']
  rw [h]
  unfold dmin
  split_ifs with hlt
  · exact le_antisymm (le_of_lt hlt) hle
  · rfl

/-- C2: for a system of exactly two particles and no type restriction `mindist` is the
minimum-image distance between the two, the square root of the squared length of the
difference vector whose axes are each wrapped into (-L/2, L/2]; in the box (10,10,10)
with particles at (0,0,0) and (9,0,0) the result is exactly 1. -/
theorem mindist_two_particles :
    (∀ (F : Type) [LinearOrderedField F] [FloorRing F] (sqrt : F → F) (box_l : Vec3 F),
      (0 < box_l.x ∧ 0 < box_l.y ∧ 0 < box_l.z) → ∀ (p q : Particle F),
        mindist sqrt box_l [p, q] none none = min_distance sqrt box_l p.p q.p ∧
        min_distance sqrt box_l p.p q.p = sqrt (sqrlen (get_mi_vector box_l p.p q.p)) ∧
        (-(box_l.x / 2) < (get_mi_vector box_l p.p q.p).x ∧
          (get_mi_vector box_l p.p q.p).x ≤ box_l.x / 2) ∧
        (-(box_l.y / 2) < (get_mi_vector box_l p.p q.p).y ∧
          (get_mi_vector box_l p.p q.p).y ≤ box_l.y / 2) ∧
        (-(box_l.z / 2) < (get_mi_vector box_l p.p q.p).z ∧
          (get_mi_vector box_l p.p q.p).z ≤ box_l.z / 2)) ∧
    mindist Real.sqrt (box10 : Vec3 ℝ)
      [particle_on_x_axis 0 0 0, particle_on_x_axis 1 0 9] none none = 1 := by
  have gen : ∀ (F : Type) [LinearOrderedField F] [FloorRing F] (sqrt : F → F)
      (box_l : Vec3 F), (0 < box_l.x ∧ 0 < box_l.y ∧ 0 < box_l.z) → ∀ (p q : Particle F),
        mindist sqrt box_l [p, q] none none = min_distance sqrt box_l p.p q.p := by
    intro F _ _ sqrt box_l hbox p q
    unfold mindist min_distance
    rw [mindist_sq_two box_l hbox p q]
  refine ⟨?_, ?_⟩
  · intro F _ _ sqrt box_l hbox p q
    exact ⟨gen F sqrt box_l hbox p q, rfl, mi_wrap_range _ _ hbox.1,
      mi_wrap_range _ _ hbox.2.1, mi_wrap_range _ _ hbox.2.2⟩
  · rw [gen ℝ Real.sqrt box10 (by simp [box10])]
    unfold min_distance
    have := min_distance2_example (K := ℝ)
    simp only [particle_on_x_axis]
    rw [this]
    exact Real.sqrt_one

theorem mindist_two_particles_witness :
    ((0 : ℝ) < (box10 : Vec3 ℝ).x ∧ (0 : ℝ) < (box10 : Vec3 ℝ).y ∧
        (0 : ℝ) < (box10 : Vec3 ℝ).z) ∧
      mindist Real.sqrt (box10 : Vec3 ℝ)
        [particle_on_x_axis 0 0 0, particle_on_x_axis 1 0 9] none none =
        min_distance Real.sqrt (box10 : Vec3 ℝ) (particle_on_x_axis 0 0 (0 : ℝ)).p
          (particle_on_x_axis 1 0 (9 : ℝ)).p :=
  ⟨by simp [box10], (mindist_two_particles.1 ℝ Real.sqrt box10 (by simp [box10])
    (particle_on_x_axis 0 0 0) (particle_on_x_axis 1 0 9)).1⟩

theorem mindist_inner_swap (box_l : Vec3 K) (partCfg : List (Particle K))
    (set1 set2 : IntSet) (j : Nat) (tj : Int) (pt : Vec3 K) (md : K) :
    mindist_inner box_l partCfg set1 set2 j (in_set_mask set1 set2 tj) pt md =
      mindist_inner box_l partCfg set2 set1 j (in_set_mask set2 set1 tj) pt md := by
  unfold mindist_inner
  congr 1
  funext md i
  cases partCfg[i]? with
  | none => rfl
  | some pi =>
    dsimp only
    rw [mindist_accept_mask, mindist_accept_mask, Bool.or_comm]

/-- C3: `mindist` is symmetric in its two type-set arguments, for every particle list, box
and type sets (each possibly absent). -/
theorem mindist_symmetric (sqrt : K → K) (box_l : Vec3 K) (partCfg : List (Particle K))
    (set1 set2 : IntSet) :
    mindist sqrt box_l partCfg set1 set2 = mindist sqrt box_l partCfg set2 set1 := by
  unfold mindist mindist_sq
  congr 2
  funext md j
  cases partCfg[j]? with
  | none => rfl
  | some pj =>
    dsimp only
    have hz : in_set_mask set1 set2 pj.type = 0 ↔ in_set_mask set2 set1 pj.type = 0 := by
      rw [in_set_mask_eq_zero, in_set_mask_eq_zero, and_comm]
    by_cases h : in_set_mask set1 set2 pj.type = 0
    · rw [if_pos h, if_pos (hz.mp h)]
    · rw [if_neg h, if_neg (fun h2 => h (hz.mpr h2))]
      exact mindist_inner_swap box_l partCfg set1 set2 j pj.type pj.p md

end MindistClaims

/-! ## Proofs: `aggregation` -/

section ChainLemmas

theorem Chain.congr {link1 link2 : Int → Int} {x : Int} {c : List Int}
    (h : ∀ m ∈ c, link1 m = link2 m) (hc : Chain link1 x c) : Chain link2 x c := by
  induction c generalizing x with
  | nil => exact hc
  | cons m rest ih =>
    obtain ⟨h1, h2, h3⟩ := hc
    refine ⟨h1, h2, ?_⟩
    rw [← h m (List.mem_cons_self _ _)]
    exact ih (fun k hk => h k (List.mem_cons_of_mem _ hk)) h3

theorem Chain.unique {link_list : Int → Int} {x : Int} {c1 c2 : List Int}
    (h1 : Chain link_list x c1) (h2 : Chain link_list x c2) : c1 = c2 := by
  induction c1 generalizing x c2 with
  | nil =>
    cases c2 with
    | nil => rfl
    | cons m rest =>
      obtain ⟨e, ne, _⟩ := h2
      have hx : x = -1 := h1
      exact absurd (e ▸ hx) ne
  | cons m rest ih =>
    cases c2 with
    | nil =>
      obtain ⟨e, ne, _⟩ := h1
      have hx : x = -1 := h2
      exact absurd (e ▸ hx) ne
    | cons m2 rest2 =>
      obtain ⟨e1, _, t1⟩ := h1
      obtain ⟨e2, _, t2⟩ := h2
      have hm : m = m2 := e1.symm.trans e2
      subst hm
      rw [ih t1 t2]

theorem Chain.start_eq {link_list : Int → Int} {x m : Int} {rest : List Int}
    (h : Chain link_list x (m :: rest)) : x = m := h.1

/-- Redirecting the link of the last entry of a chain to the start of a second chain
gives the concatenation. -/
theorem Chain.splice {link_list : Int → Int} {y : Int} {ca : List Int}
    (hca : Chain link_list y ca) :
    ∀ (cb : List Int) (x m0 : Int), Chain link_list x (m0 :: cb) → (m0 :: cb).Nodup →
      (∀ k ∈ ca, k ∉ m0 :: cb) →
      Chain (Function.update link_list (cb.getLastD m0) y) x ((m0 :: cb) ++ ca) := by
  intro cb
  induction cb with
  | nil =>
    intro x m0 hcb _ hdisj
    obtain ⟨e, ne, _⟩ := hcb
    refine ⟨e, ne, ?_⟩
    simp only [List.getLastD_nil, Function.update_same, List.nil_append]
    apply Chain.congr _ hca
    intro k hk
    have : k ≠ m0 := fun hkm => hdisj k hk (hkm ▸ List.mem_cons_self _ _)
    rw [Function.update_noteq this]
  | cons m1 rest ih =>
    intro x m0 hcb hnd hdisj
    obtain ⟨e, ne, htail⟩ := hcb
    have hnd2 : (m1 :: rest).Nodup := (List.nodup_cons.mp hnd).2
    have hm0 : m0 ∉ m1 :: rest := (List.nodup_cons.mp hnd).1
    have hlast : (rest.getLastD m1) ∈ m1 :: rest := by
      cases rest with
      | nil => simp
      | cons r rs =>
        rw [List.getLastD_cons]
        have := List.getLastD_mem_cons rs r
        exact List.mem_cons_of_mem _ this
    have hne0 : m0 ≠ rest.getLastD m1 := fun h => hm0 (h ▸ hlast)
    refine ⟨e, ne, ?_⟩
    rw [List.getLastD_cons, Function.update_noteq hne0]
    exact ih (link_list m0) m1 htail hnd2
      (fun k hk hmem => hdisj k hk (List.mem_cons_of_mem _ hmem))

theorem getLastD_mem (cb : List Int) (m0 : Int) : cb.getLastD m0 ∈ m0 :: cb := by
  cases cb with
  | nil => simp
  | cons r rs =>
    rw [List.getLastD_cons]
    have := List.getLastD_mem_cons rs r
    exact List.mem_cons_of_mem _ this

/-- What the loop of lines 189-193 computes on a chain. -/
theorem merge_walk_chain (link_list : Int → Int) (p1molid : Int) :
    ∀ (rest : List Int) (fuel : Nat) (agg_id_list : Int → Int) (target1 target2 : Int),
      Chain link_list target2 rest → rest.length ≤ fuel → p1molid ∉ rest →
      merge_walk link_list p1molid fuel agg_id_list target1 target2 =
        some (fun m => if m ∈ rest then agg_id_list p1molid else agg_id_list m,
          rest.getLastD target1) := by
  intro rest
  induction rest with
  | nil =>
    intro fuel agg_id_list target1 target2 hc _ _
    have h2 : target2 = -1 := hc
    unfold merge_walk
    simp [h2]
  | cons m r ih =>
    intro fuel agg_id_list target1 target2 hc hfuel hp1
    obtain ⟨e, ne, htail⟩ := hc
    subst e
    cases fuel with
    | zero => simp at hfuel
    | succ fuel =>
      have hp1m : p1molid ≠ target2 := fun h => hp1 (h ▸ List.mem_cons_self _ _)
      have hp1r : p1molid ∉ r := fun h => hp1 (List.mem_cons_of_mem _ h)
      unfold merge_walk
      simp only [ne_eq, ne, not_false_eq_true, if_true]
      rw [ih fuel _ target2 (link_list target2) htail (by simpa using hfuel) hp1r]
      rw [List.getLastD_cons, Function.update_noteq hp1m]
      congr 2
      funext k
      by_cases hk : k = target2
      · subst hk
        simp
      · simp [hk, Function.update_noteq hk]

end ChainLemmas

section MergeLemmas

/-- A list without repetition whose entries lie in `[s, f]` has at most `f - s + 1`
entries. -/
theorem nodup_length_le_range (s f : Int) (c : List Int) (hnd : c.Nodup)
    (hmem : ∀ m ∈ c, s ≤ m ∧ m ≤ f) : c.length ≤ (f - s + 1).toNat := by
  have hsub : c.toFinset ⊆ Finset.Icc s f := by
    intro m hm
    rw [List.mem_toFinset] at hm
    rw [Finset.mem_Icc]
    exact hmem m hm
  have hcard := Finset.card_le_card hsub
  rw [List.toFinset_card_of_nodup hnd, Int.card_Icc] at hcard
  have : f + 1 - s = f - s + 1 := by ring
  rw [this] at hcard
  exact hcard

/-- The merge of lines 183-195 in closed form, when the chain of p2's representative is
`hb :: rest` and does not contain `p1molid`. -/
theorem agg_merge_eq (fuel : Nat) (st : AggState) (p1molid p2molid hb : Int)
    (rest : List Int)
    (hcb : Chain st.link_list (st.head_list (st.agg_id_list p2molid)) (hb :: rest))
    (hfuel : rest.length ≤ fuel) (hp1 : p1molid ∉ hb :: rest)
    (hab : st.agg_id_list p1molid ≠ st.agg_id_list p2molid) :
    agg_merge fuel st p1molid p2molid = some { st with
      head_list := Function.update
        (Function.update st.head_list (st.agg_id_list p2molid) (-2))
        (st.agg_id_list p1molid) hb
      link_list := Function.update st.link_list (rest.getLastD hb)
        (st.head_list (st.agg_id_list p1molid))
      agg_id_list := fun m =>
        if m ∈ hb :: rest then st.agg_id_list p1molid else st.agg_id_list m } := by
  obtain ⟨e, ne, htail⟩ := hcb
  have hp1b : p1molid ≠ hb := fun h => hp1 (h ▸ List.mem_cons_self _ _)
  have hp1r : p1molid ∉ rest := fun h => hp1 (List.mem_cons_of_mem _ h)
  unfold agg_merge
  simp only [e]
  rw [merge_walk_chain st.link_list p1molid rest fuel _ hb (st.link_list hb) htail hfuel hp1r]
  simp only [Function.update_noteq hab, Function.update_noteq hp1b, if_neg hp1r]
  congr 2
  funext m
  by_cases hm : m = rest.getLastD hb
  · subst hm
    have := getLastD_mem rest hb
    simp only [Function.update_same, if_pos this]
  · rw [Function.update_noteq hm]
    by_cases hmb : m = hb
    · subst hmb
      simp
    · simp [hmb, Function.update_noteq hmb]

end MergeLemmas

section MergeSpec

/-- The closed form of a merge of two different clusters of a state that satisfies the
partition invariant, with the chains of the two representatives. -/
theorem agg_merge_spec (s f : Int) (hs : 0 ≤ s) (fuel : Nat)
    (hfuel : (f - s + 1).toNat ≤ fuel) (st : AggState) (hinv : PartInv s f st)
    (p1molid p2molid : Int) (h1 : s ≤ p1molid ∧ p1molid ≤ f)
    (h2 : s ≤ p2molid ∧ p2molid ≤ f)
    (hab : st.agg_id_list p1molid ≠ st.agg_id_list p2molid) :
    ∃ (ca cb : List Int) (st1 : AggState),
      Chain st.link_list (st.head_list (st.agg_id_list p1molid)) ca ∧
      Chain st.link_list (st.head_list (st.agg_id_list p2molid)) cb ∧
      (∀ m, m ∈ ca ↔ (s ≤ m ∧ m ≤ f ∧ st.agg_id_list m = st.agg_id_list p1molid)) ∧
      (∀ m, m ∈ cb ↔ (s ≤ m ∧ m ≤ f ∧ st.agg_id_list m = st.agg_id_list p2molid)) ∧
      agg_merge fuel st p1molid p2molid = some st1 ∧
      Chain st1.link_list (st1.head_list (st.agg_id_list p1molid)) (cb ++ ca) ∧
      st1.head_list = Function.update
        (Function.update st.head_list (st.agg_id_list p2molid) (-2))
        (st.agg_id_list p1molid) (st.head_list (st.agg_id_list p2molid)) ∧
      (∀ m, st1.agg_id_list m =
        if m ∈ cb then st.agg_id_list p1molid else st.agg_id_list m) ∧
      (∀ m, m ∉ cb → st1.link_list m = st.link_list m) ∧
      st1.contact_num = st.contact_num ∧ st1.agg_size = st.agg_size ∧
      st1.agg_num = st.agg_num ∧ st1.agg_avg = st.agg_avg ∧
      PartInv s f st1 := by
  obtain ⟨hA1, hA2⟩ := hinv
  obtain ⟨ha_lo, ha_hi, ha_head⟩ := hA1 p1molid h1.1 h1.2
  obtain ⟨hb_lo, hb_hi, hb_head⟩ := hA1 p2molid h2.1 h2.2
  obtain ⟨haa, ca, hca, hca_nd, hca_mem⟩ := hA2 _ ha_lo ha_hi ha_head
  obtain ⟨hbb, cb, hcb, hcb_nd, hcb_mem⟩ := hA2 _ hb_lo hb_hi hb_head
  have hp2cb : p2molid ∈ cb := (hcb_mem p2molid).mpr ⟨h2.1, h2.2, rfl⟩
  have hp1cb : p1molid ∉ cb := fun h => hab ((hcb_mem p1molid).mp h).2.2
  cases cb with
  | nil => simp at hp2cb
  | cons hb rest =>
    have hhead : st.head_list (st.agg_id_list p2molid) = hb := hcb.1
    have hlen : (hb :: rest).length ≤ (f - s + 1).toNat :=
      nodup_length_le_range s f _ hcb_nd (fun m hm => ⟨((hcb_mem m).mp hm).1,
        ((hcb_mem m).mp hm).2.1⟩)
    have hfuel2 : rest.length ≤ fuel := by
      simp only [List.length_cons] at hlen
      omega
    have hdisj : ∀ k ∈ ca, k ∉ hb :: rest := by
      intro k hk hk2
      have e1 := ((hca_mem k).mp hk).2.2
      have e2 := ((hcb_mem k).mp hk2).2.2
      exact hab (e1.symm.trans e2)
    have hlast_mem : rest.getLastD hb ∈ hb :: rest := getLastD_mem rest hb
    have hhb_ne : hb ≠ -2 := by
      have := ((hcb_mem hb).mp (List.mem_cons_self _ _)).1
      omega
    have hchain : Chain (Function.update st.link_list (rest.getLastD hb)
        (st.head_list (st.agg_id_list p1molid))) hb ((hb :: rest) ++ ca) :=
      Chain.splice hca rest hb hb (hhead ▸ hcb) hcb_nd hdisj
    refine ⟨ca, hb :: rest, _, hca, hcb, hca_mem, hcb_mem,
      agg_merge_eq fuel st p1molid p2molid hb rest hcb hfuel2 hp1cb hab, ?_, ?_, ?_, ?_,
      rfl, rfl, rfl, rfl, ?_⟩
    · simp only [Function.update_same]
      exact hchain
    · simp only [hhead]
    · intro m
      rfl
    · intro m hm
      have : m ≠ rest.getLastD hb := fun h => hm (h ▸ hlast_mem)
      simp only [Function.update_noteq this]
    · constructor
      · intro m hm1 hm2
        simp only
        by_cases hmcb : m ∈ hb :: rest
        · rw [if_pos hmcb]
          refine ⟨ha_lo, ha_hi, ?_⟩
          rw [Function.update_same]
          exact hhb_ne
        · rw [if_neg hmcb]
          obtain ⟨l1, l2, l3⟩ := hA1 m hm1 hm2
          refine ⟨l1, l2, ?_⟩
          have hneb : st.agg_id_list m ≠ st.agg_id_list p2molid :=
            fun h => hmcb ((hcb_mem m).mpr ⟨hm1, hm2, h⟩)
          by_cases hma : st.agg_id_list m = st.agg_id_list p1molid
          · rw [hma, Function.update_same]
            exact hhb_ne
          · rw [Function.update_noteq hma, Function.update_noteq hneb]
            exact l3
      · intro h hh1 hh2 hhead1
        simp only at hhead1 ⊢
        have hneb : h ≠ st.agg_id_list p2molid := by
          intro e
          apply hhead1
          rw [e, Function.update_noteq (Ne.symm hab), Function.update_same]
        have hself : st.agg_id_list h = h := by
          by_cases hha : h = st.agg_id_list p1molid
          · rw [hha]; exact haa
          · rw [Function.update_noteq hha, Function.update_noteq hneb] at hhead1
            exact (hA2 h hh1 hh2 hhead1).1
        have hncb : h ∉ hb :: rest := by
          intro hmem
          have := ((hcb_mem h).mp hmem).2.2
          exact hneb (hself.symm.trans this)
        refine ⟨by rw [if_neg hncb]; exact hself, ?_⟩
        by_cases hha : h = st.agg_id_list p1molid
        · subst hha
          refine ⟨(hb :: rest) ++ ca, ?_, ?_, ?_⟩
          · rw [Function.update_same]
            exact hchain
          · rw [List.nodup_append]
            exact ⟨hcb_nd, hca_nd, fun k hk1 hk2 => hdisj k hk2 hk1⟩
          · intro m
            rw [List.mem_append]
            constructor
            · rintro (hm | hm)
              · exact ⟨((hcb_mem m).mp hm).1, ((hcb_mem m).mp hm).2.1, by rw [if_pos hm]⟩
              · exact ⟨((hca_mem m).mp hm).1, ((hca_mem m).mp hm).2.1,
                  by rw [if_neg (hdisj m hm)]; exact ((hca_mem m).mp hm).2.2⟩
            · rintro ⟨l1, l2, l3⟩
              by_cases hm : m ∈ hb :: rest
              · exact Or.inl hm
              · rw [if_neg hm] at l3
                exact Or.inr ((hca_mem m).mpr ⟨l1, l2, l3⟩)
        · rw [Function.update_noteq hha, Function.update_noteq hneb] at hhead1 ⊢
          obtain ⟨_, c, hc, hc_nd, hc_mem⟩ := hA2 h hh1 hh2 hhead1
          refine ⟨c, ?_, hc_nd, ?_⟩
          · apply Chain.congr _ hc
            intro m hm
            have hm_agg := ((hc_mem m).mp hm).2.2
            have : m ≠ rest.getLastD hb := by
              intro e
              have := ((hcb_mem m).mp (e ▸ hlast_mem)).2.2
              exact hneb (hm_agg.symm.trans this)
            rw [Function.update_noteq this]
          · intro m
            rw [hc_mem m]
            by_cases hm : m ∈ hb :: rest
            · rw [if_pos hm]
              have := ((hcb_mem m).mp hm).2.2
              constructor
              · rintro ⟨_, _, l3⟩
                exact absurd (l3.symm.trans this) hneb
              · rintro ⟨_, _, l3⟩
                exact absurd l3.symm hha
            · rw [if_neg hm]

end MergeSpec

section InitLemmas

theorem mem_mol_range (s f m : Int) : m ∈ mol_range s f ↔ s ≤ m ∧ m ≤ f := by
  unfold mol_range
  rw [List.mem_map]
  constructor
  · rintro ⟨k, hk, rfl⟩
    rw [List.mem_range] at hk
    omega
  · rintro ⟨h1, h2⟩
    refine ⟨(m - s).toNat, ?_, ?_⟩
    · rw [List.mem_range]
      omega
    · omega

theorem mol_range_nodup (s f : Int) : (mol_range s f).Nodup := by
  unfold mol_range
  apply List.Nodup.map
  · intro a b h
    simpa using h
  · exact List.nodup_range _

theorem agg_init_fold (l : List Int) (st : AggState) :
    ((l.foldl agg_init_step st).head_list = fun m => if m ∈ l then m else st.head_list m) ∧
    ((l.foldl agg_init_step st).link_list = fun m => if m ∈ l then -1 else st.link_list m) ∧
    ((l.foldl agg_init_step st).agg_id_list =
      fun m => if m ∈ l then m else st.agg_id_list m) ∧
    ((l.foldl agg_init_step st).agg_size = fun m => if m ∈ l then 0 else st.agg_size m) ∧
    (l.foldl agg_init_step st).contact_num = st.contact_num ∧
    (l.foldl agg_init_step st).agg_num = st.agg_num ∧
    (l.foldl agg_init_step st).agg_avg = st.agg_avg := by
  induction l generalizing st with
  | nil => simp
  | cons a t ih =>
    obtain ⟨e1, e2, e3, e4, e5, e6, e7⟩ := ih (agg_init_step st a)
    simp only [List.foldl_cons]
    refine ⟨?_, ?_, ?_, ?_, ?_, ?_, ?_⟩
    · rw [e1]; funext m
      by_cases hm : m ∈ t
      · simp [hm]
      · by_cases hma : m = a
        · simp [hma, agg_init_step]
        · simp [hm, hma, agg_init_step, Function.update_noteq hma]
    · rw [e2]; funext m
      by_cases hm : m ∈ t
      · simp [hm]
      · by_cases hma : m = a
        · simp [hma, agg_init_step]
        · simp [hm, hma, agg_init_step, Function.update_noteq hma]
    · rw [e3]; funext m
      by_cases hm : m ∈ t
      · simp [hm]
      · by_cases hma : m = a
        · simp [hma, agg_init_step]
        · simp [hm, hma, agg_init_step, Function.update_noteq hma]
    · rw [e4]; funext m
      by_cases hm : m ∈ t
      · simp [hm]
      · by_cases hma : m = a
        · simp [hma, agg_init_step]
        · simp [hm, hma, agg_init_step, Function.update_noteq hma]
    · rw [e5]; rfl
    · rw [e6]; rfl
    · rw [e7]; rfl

/-- The state after the initialisation loop. -/
theorem agg_init_spec (s f : Int) (st : AggState) :
    (∀ m, (agg_init s f st).head_list m = if s ≤ m ∧ m ≤ f then m else st.head_list m) ∧
    (∀ m, (agg_init s f st).link_list m = if s ≤ m ∧ m ≤ f then -1 else st.link_list m) ∧
    (∀ m, (agg_init s f st).agg_id_list m =
      if s ≤ m ∧ m ≤ f then m else st.agg_id_list m) ∧
    (∀ m, (agg_init s f st).agg_size m = if s ≤ m ∧ m ≤ f then 0 else st.agg_size m) ∧
    (agg_init s f st).contact_num = st.contact_num ∧
    (agg_init s f st).agg_num = st.agg_num ∧
    (agg_init s f st).agg_avg = st.agg_avg := by
  obtain ⟨e1, e2, e3, e4, e5, e6, e7⟩ := agg_init_fold (mol_range s f) st
  unfold agg_init
  refine ⟨?_, ?_, ?_, ?_, e5, e6, e7⟩
  · intro m; rw [e1]; simp only [mem_mol_range]
  · intro m; rw [e2]; simp only [mem_mol_range]
  · intro m; rw [e3]; simp only [mem_mol_range]
  · intro m; rw [e4]; simp only [mem_mol_range]

/-- The partition invariant holds after the initialisation loop. -/
theorem agg_init_inv (s f : Int) (hs : 0 ≤ s) (st : AggState) :
    PartInv s f (agg_init s f st) := by
  obtain ⟨e1, e2, e3, _, _, _, _⟩ := agg_init_spec s f st
  constructor
  · intro m h1 h2
    rw [e3 m, if_pos ⟨h1, h2⟩, e1 m, if_pos ⟨h1, h2⟩]
    exact ⟨h1, h2, by omega⟩
  · intro h h1 h2 _
    refine ⟨by rw [e3 h, if_pos ⟨h1, h2⟩], [h], ?_, List.nodup_singleton _, ?_⟩
    · rw [e1 h, if_pos ⟨h1, h2⟩]
      refine ⟨rfl, by omega, ?_⟩
      show (agg_init s f st).link_list h = -1
      rw [e2 h, if_pos ⟨h1, h2⟩]
    · intro m
      rw [List.mem_singleton]
      constructor
      · intro e
        subst e
        exact ⟨h1, h2, by rw [e3 m, if_pos ⟨h1, h2⟩]⟩
      · rintro ⟨l1, l2, l3⟩
        rw [e3 m, if_pos ⟨l1, l2⟩] at l3
        exact l3

end InitLemmas

section PairLemmas

variable {K : Type} [LinearOrderedField K]

theorem partInv_contact (s f : Int) (st : AggState) (cn : Int → Int)
    (h : PartInv s f st) : PartInv s f { st with contact_num := cn } := h

/-- One candidate pair: the step returns, keeps the partition invariant, and either leaves
the clusters alone or merges as described by `agg_merge_spec`. -/
theorem agg_pair_step_spec (distance2vec : Vec3 K → Vec3 K → K) (dist_criteria2 : K)
    (min_contact n_molecules s f : Int) (hs : 0 ≤ s) (fuel : Nat)
    (hfuel : (f - s + 1).toNat ≤ fuel) (st : AggState) (hinv : PartInv s f st)
    (p1 p2 : Particle K) :
    ∃ st1, agg_pair_step distance2vec dist_criteria2 min_contact n_molecules s f fuel
        st p1 p2 = some st1 ∧ PartInv s f st1 ∧
      st1.agg_size = st.agg_size ∧ st1.agg_num = st.agg_num ∧ st1.agg_avg = st.agg_avg ∧
      ((¬ ((s ≤ p1.mol_id ∧ p1.mol_id ≤ f) ∧ (s ≤ p2.mol_id ∧ p2.mol_id ≤ f) ∧
          st.agg_id_list p1.mol_id ≠ st.agg_id_list p2.mol_id) ∧ st1 = st) ∨
       (((s ≤ p1.mol_id ∧ p1.mol_id ≤ f) ∧ (s ≤ p2.mol_id ∧ p2.mol_id ≤ f) ∧
          st.agg_id_list p1.mol_id ≠ st.agg_id_list p2.mol_id) ∧
        st1.contact_num = contact_after distance2vec dist_criteria2 n_molecules st p1 p2 ∧
        ((¬ triggers_merge distance2vec dist_criteria2 min_contact n_molecules s f st p1 p2 ∧
            st1.agg_id_list = st.agg_id_list ∧ st1.head_list = st.head_list ∧
            st1.link_list = st.link_list) ∨
         (triggers_merge distance2vec dist_criteria2 min_contact n_molecules s f st p1 p2 ∧
            agg_merge fuel
              { st with contact_num :=
                  (contact_after distance2vec dist_criteria2 n_molecules st p1 p2) }
              p1.mol_id p2.mol_id = some st1)))) := by
  unfold agg_pair_step
  dsimp only
  by_cases hr : ((p1.mol_id ≤ f) ∧ (p1.mol_id ≥ s)) ∧ ((p2.mol_id ≤ f) ∧ (p2.mol_id ≥ s))
  · by_cases hne : st.agg_id_list p1.mol_id ≠ st.agg_id_list p2.mol_id
    · have hcond : (s ≤ p1.mol_id ∧ p1.mol_id ≤ f) ∧ (s ≤ p2.mol_id ∧ p2.mol_id ≤ f) ∧
          st.agg_id_list p1.mol_id ≠ st.agg_id_list p2.mol_id :=
        ⟨⟨hr.1.2, hr.1.1⟩, ⟨hr.2.2, hr.2.1⟩, hne⟩
      rw [if_pos hr, if_pos hne]
      have hcn : (if distance2vec p1.p p2.p < dist_criteria2 then
            Function.update st.contact_num (contact_index n_molecules p1.mol_id p2.mol_id)
              (st.contact_num (contact_index n_molecules p1.mol_id p2.mol_id) + 1)
          else st.contact_num) =
          contact_after distance2vec dist_criteria2 n_molecules st p1 p2 := rfl
      rw [hcn]
      by_cases hm : contact_after distance2vec dist_criteria2 n_molecules st p1 p2
          (contact_index n_molecules p1.mol_id p2.mol_id) ≥ min_contact
      · rw [if_pos hm]
        obtain ⟨ca, cb, st1, _, _, _, _, hmerge, _, _, _, _, e1, e2, e3, e4, hinv1⟩ :=
          agg_merge_spec s f hs fuel hfuel
            { st with contact_num :=
                (contact_after distance2vec dist_criteria2 n_molecules st p1 p2) }
            (partInv_contact s f st _ hinv) p1.mol_id p2.mol_id hcond.1 hcond.2.1 hne
        refine ⟨st1, hmerge, hinv1, e2, e3, e4, Or.inr ⟨hcond, e1, Or.inr ⟨?_, hmerge⟩⟩⟩
        exact ⟨hcond.1, hcond.2.1, hne, hm⟩
      · rw [if_neg hm]
        refine ⟨_, rfl, partInv_contact s f st _ hinv, rfl, rfl, rfl,
          Or.inr ⟨hcond, rfl, Or.inl ⟨?_, rfl, rfl, rfl⟩⟩⟩
        rintro ⟨_, _, _, h4⟩
        exact hm h4
    · rw [if_pos hr, if_neg hne]
      refine ⟨st, rfl, hinv, rfl, rfl, rfl, Or.inl ⟨?_, rfl⟩⟩
      rintro ⟨_, _, h3⟩
      exact hne h3
  · rw [if_neg hr]
    refine ⟨st, rfl, hinv, rfl, rfl, rfl, Or.inl ⟨?_, rfl⟩⟩
    rintro ⟨h1, h2, _⟩
    exact hr ⟨⟨h1.2, h1.1⟩, ⟨h2.2, h2.1⟩⟩

/-- The pair loop returns and keeps the partition invariant. -/
theorem agg_pairs_inv (distance2vec : Vec3 K → Vec3 K → K) (dist_criteria2 : K)
    (min_contact n_molecules s f : Int) (hs : 0 ≤ s) (fuel : Nat)
    (hfuel : (f - s + 1).toNat ≤ fuel) (pairs : List (Particle K × Particle K)) :
    ∀ (st : AggState), PartInv s f st →
      ∃ st1, agg_pairs distance2vec dist_criteria2 min_contact n_molecules s f fuel
          st pairs = some st1 ∧ PartInv s f st1 ∧
        st1.agg_size = st.agg_size ∧ st1.agg_num = st.agg_num ∧
        st1.agg_avg = st.agg_avg := by
  induction pairs with
  | nil =>
    intro st hinv
    exact ⟨st, rfl, hinv, rfl, rfl, rfl⟩
  | cons pr rest ih =>
    intro st hinv
    obtain ⟨p1, p2⟩ := pr
    obtain ⟨st1, hstep, hinv1, e1, e2, e3, _⟩ :=
      agg_pair_step_spec distance2vec dist_criteria2 min_contact n_molecules s f hs fuel
        hfuel st hinv p1 p2
    obtain ⟨st2, hrest, hinv2, g1, g2, g3⟩ := ih st1 hinv1
    refine ⟨st2, ?_, hinv2, g1.trans e1, g2.trans e2, g3.trans e3⟩
    unfold agg_pairs
    rw [hstep]
    exact hrest

end PairLemmas

section PartitionClaims

variable {K : Type} [LinearOrderedField K]

theorem chain_list_of_chain (link_list : Int → Int) :
    ∀ (c : List Int) (fuel : Nat) (x : Int), Chain link_list x c → c.length ≤ fuel →
      chain_list link_list fuel x = some c := by
  intro c
  induction c with
  | nil =>
    intro fuel x h _
    have hx : x = -1 := h
    unfold chain_list
    rw [if_pos hx]
  | cons m rest ih =>
    intro fuel x h hlen
    obtain ⟨e, ne, htail⟩ := h
    subst e
    cases fuel with
    | zero => simp at hlen
    | succ fuel =>
      unfold chain_list
      rw [if_neg ne]
      simp only
      rw [ih fuel (link_list x) htail (by simpa using hlen)]
      rfl

theorem partInv_clusterPartition (s f : Int) (st : AggState) (h : PartInv s f st) :
    ClusterPartition s f st := by
  obtain ⟨hA1, hA2⟩ := h
  constructor
  · intro m h1 h2
    obtain ⟨l1, l2, l3⟩ := hA1 m h1 h2
    obtain ⟨_, c, hc, hnd, hmem⟩ := hA2 _ l1 l2 l3
    refine ⟨⟨l1, l2⟩, l3, ⟨c, hc, hnd, (hmem m).mpr ⟨h1, h2, rfl⟩⟩, ?_⟩
    intro h c2 g1 g2 g3 hc2 hm
    obtain ⟨_, c3, hc3, _, hmem3⟩ := hA2 h g1 g2 g3
    have e : c2 = c3 := Chain.unique hc2 hc3
    subst e
    exact ((hmem3 m).mp hm).2.2.symm
  · intro h h1 h2 h3
    obtain ⟨_, c, hc, hnd, hmem⟩ := hA2 h h1 h2 h3
    exact ⟨c, hc, hnd, nodup_length_le_range s f c hnd
      (fun m hm => ⟨((hmem m).mp hm).1, ((hmem m).mp hm).2.1⟩)⟩

/-- C6: the cluster-partition invariant holds after the initialisation of `aggregation`
and after every processed candidate pair (that is, after any list `pairs` of processed
candidates): every molecule of `[s, f]` occurs in exactly one chain, the chain of its
representative, whose head is not ABSENT, and no chain contains a cycle.  Molecule ids
are array indices, so `0 ≤ s`; every `while` loop gets `f - s + 1` rounds. -/
theorem aggregation_cluster_partition_invariant (distance2vec : Vec3 K → Vec3 K → K)
    (dist_criteria2 : K) (min_contact n_molecules s f : Int) (hs : 0 ≤ s) (fuel : Nat)
    (hfuel : (f - s + 1).toNat ≤ fuel) (st : AggState)
    (pairs : List (Particle K × Particle K)) :
    ∃ st1, agg_pairs distance2vec dist_criteria2 min_contact n_molecules s f fuel
        (agg_init s f (agg_alloc_contact n_molecules st)) pairs = some st1 ∧
      ClusterPartition s f st1 := by
  obtain ⟨st1, h1, h2, _⟩ := agg_pairs_inv distance2vec dist_criteria2 min_contact
    n_molecules s f hs fuel hfuel pairs _ (agg_init_inv s f hs (agg_alloc_contact n_molecules st))
  exact ⟨st1, h1, partInv_clusterPartition s f st1 h2⟩

theorem aggregation_cluster_partition_invariant_witness :
    (0 : Int) ≤ 0 ∧ ((3 : Int) - 0 + 1).toNat ≤ 4 ∧
    ∃ st1, agg_pairs (distance2vec_plain : Vec3 ℚ → Vec3 ℚ → ℚ) 2 1 4 0 3 4
        (agg_init 0 3 (agg_alloc_contact 4 (caller_state 4 77)))
        [(mol_particle 0 0, mol_particle 1 1), (mol_particle 2 5, mol_particle 3 6),
          (mol_particle 1 1, mol_particle 2 (3 / 2))] = some st1 ∧
      ClusterPartition 0 3 st1 :=
  ⟨by decide, by decide,
    aggregation_cluster_partition_invariant distance2vec_plain 2 1 4 0 3 (by decide) 4
      (by decide) (caller_state 4 77) _⟩

end PartitionClaims

section MergeClaims

variable {K : Type} [LinearOrderedField K]

/-- A pair that triggers a merge makes the step run the merge of lines 183-195 on the
state with the updated contact count. -/
theorem agg_pair_step_of_triggers (distance2vec : Vec3 K → Vec3 K → K) (dist_criteria2 : K)
    (min_contact n_molecules s f : Int) (fuel : Nat) (st : AggState) (p1 p2 : Particle K)
    (htrig : triggers_merge distance2vec dist_criteria2 min_contact n_molecules s f st p1 p2) :
    agg_pair_step distance2vec dist_criteria2 min_contact n_molecules s f fuel st p1 p2 =
      agg_merge fuel
        { st with contact_num :=
            (contact_after distance2vec dist_criteria2 n_molecules st p1 p2) }
        p1.mol_id p2.mol_id := by
  obtain ⟨h1, h2, h3, h4⟩ := htrig
  unfold agg_pair_step
  dsimp only
  rw [if_pos ⟨⟨h1.2, h1.1⟩, ⟨h2.2, h2.1⟩⟩, if_pos h3]
  have hcn : (if distance2vec p1.p p2.p < dist_criteria2 then
        Function.update st.contact_num (contact_index n_molecules p1.mol_id p2.mol_id)
          (st.contact_num (contact_index n_molecules p1.mol_id p2.mol_id) + 1)
      else st.contact_num) =
      contact_after distance2vec dist_criteria2 n_molecules st p1 p2 := rfl
  rw [hcn, if_pos h4]

/-- A state reached by the pair loop from the initialised state satisfies the partition
invariant. -/
theorem reached_inv (distance2vec : Vec3 K → Vec3 K → K) (dist_criteria2 : K)
    (min_contact n_molecules s f : Int) (hs : 0 ≤ s) (fuel : Nat)
    (hfuel : (f - s + 1).toNat ≤ fuel) (st0 : AggState)
    (done : List (Particle K × Particle K)) (st : AggState)
    (hreach : agg_pairs distance2vec dist_criteria2 min_contact n_molecules s f fuel
      (agg_init s f (agg_alloc_contact n_molecules st0)) done = some st) :
    PartInv s f st := by
  obtain ⟨st1, h1, h2, _⟩ := agg_pairs_inv distance2vec dist_criteria2 min_contact
    n_molecules s f hs fuel hfuel done _
    (agg_init_inv s f hs (agg_alloc_contact n_molecules st0))
  rw [h1] at hreach
  exact Option.some.inj hreach ▸ h2

/-- C7 (as the code has it): when a candidate pair `(p1, p2)` triggers a merge in a state
reached by `aggregation`, p1's chain is spliced onto the end of p2's chain: the merged
chain stored under p1's representative lists all former members of p2's chain first, in
their previous order, followed by all former members of p1's chain in their previous
order, and its head is the former head of p2's chain. -/
theorem merge_splices_p1_chain_after_p2_chain (distance2vec : Vec3 K → Vec3 K → K)
    (dist_criteria2 : K) (min_contact n_molecules s f : Int) (hs : 0 ≤ s) (fuel : Nat)
    (hfuel : (f - s + 1).toNat ≤ fuel) (st0 : AggState)
    (done : List (Particle K × Particle K)) (st : AggState) (p1 p2 : Particle K)
    (hreach : agg_pairs distance2vec dist_criteria2 min_contact n_molecules s f fuel
      (agg_init s f (agg_alloc_contact n_molecules st0)) done = some st)
    (htrig : triggers_merge distance2vec dist_criteria2 min_contact n_molecules s f st p1 p2) :
    ∃ (ca cb : List Int) (st1 : AggState),
      Chain st.link_list (st.head_list (st.agg_id_list p1.mol_id)) ca ∧
      Chain st.link_list (st.head_list (st.agg_id_list p2.mol_id)) cb ∧
      agg_pair_step distance2vec dist_criteria2 min_contact n_molecules s f fuel st p1 p2 =
        some st1 ∧
      Chain st1.link_list (st1.head_list (st.agg_id_list p1.mol_id)) (cb ++ ca) ∧
      st1.head_list (st.agg_id_list p1.mol_id) =
        st.head_list (st.agg_id_list p2.mol_id) := by
  have hinv := reached_inv distance2vec dist_criteria2 min_contact n_molecules s f hs fuel
    hfuel st0 done st hreach
  obtain ⟨ca, cb, st1, hca, hcb, _, _, hmerge, hchain, hhead, _⟩ :=
    agg_merge_spec s f hs fuel hfuel
      { st with contact_num :=
          (contact_after distance2vec dist_criteria2 n_molecules st p1 p2) }
      (partInv_contact s f st _ hinv) p1.mol_id p2.mol_id htrig.1 htrig.2.1 htrig.2.2.1
  refine ⟨ca, cb, st1, hca, hcb, ?_, hchain, ?_⟩
  · rw [agg_pair_step_of_triggers distance2vec dist_criteria2 min_contact n_molecules s f
      fuel st p1 p2 htrig]
    exact hmerge
  · rw [hhead]
    simp only [Function.update_same]

theorem merge_splices_p1_chain_after_p2_chain_witness :
    (0 : Int) ≤ 0 ∧ ((1 : Int) - 0 + 1).toNat ≤ 2 ∧
    agg_pairs (distance2vec_plain : Vec3 ℚ → Vec3 ℚ → ℚ) 1 1 2 0 1 2
      (agg_init 0 1 (agg_alloc_contact 2 (caller_state 2 7))) [] = some two_mol_state ∧
    triggers_merge (distance2vec_plain : Vec3 ℚ → Vec3 ℚ → ℚ) 1 1 2 0 1
      two_mol_state
      (mol_particle 0 0) (mol_particle 1 (1 / 2)) ∧
    ∃ (ca cb : List Int) (st1 : AggState),
      Chain two_mol_state.link_list
        (two_mol_state.head_list
          (two_mol_state.agg_id_list
            (mol_particle 0 (0 : ℚ)).mol_id)) ca ∧
      Chain two_mol_state.link_list
        (two_mol_state.head_list
          (two_mol_state.agg_id_list
            (mol_particle 1 (1 / 2 : ℚ)).mol_id)) cb ∧
      agg_pair_step (distance2vec_plain : Vec3 ℚ → Vec3 ℚ → ℚ) 1 1 2 0 1 2
        two_mol_state
        (mol_particle 0 0) (mol_particle 1 (1 / 2)) = some st1 ∧
      Chain st1.link_list
        (st1.head_list (two_mol_state.agg_id_list
          (mol_particle 0 (0 : ℚ)).mol_id)) (cb ++ ca) ∧
      st1.head_list (two_mol_state.agg_id_list
          (mol_particle 0 (0 : ℚ)).mol_id) =
        two_mol_state.head_list
          (two_mol_state.agg_id_list
            (mol_particle 1 (1 / 2 : ℚ)).mol_id) :=
  ⟨by decide, by decide, rfl, by decide!,
    merge_splices_p1_chain_after_p2_chain distance2vec_plain 1 1 2 0 1 (by decide) 2
      (by decide) (caller_state 2 7) [] _ (mol_particle 0 0) (mol_particle 1 (1 / 2)) rfl
      (by decide!)⟩

/-- C7, counterexample to the order stated in the spec: two molecules 0 and 1, each its
own cluster with chains `[0]` and `[1]`; the candidate pair (p1 of molecule 0, p2 of
molecule 1) triggers a merge, after which the chain under p1's representative 0 is
`[1, 0]`, not `[0] ++ [1]`, and the head of that chain has changed from 0 to 1. -/
theorem merge_order_counterexample :
    triggers_merge (distance2vec_plain : Vec3 ℚ → Vec3 ℚ → ℚ) 1 1 2 0 1
      two_mol_state
      (mol_particle 0 0) (mol_particle 1 (1 / 2)) ∧
    chain_list two_mol_state.link_list 2
      (two_mol_state.head_list 0) = some [0] ∧
    chain_list two_mol_state.link_list 2
      (two_mol_state.head_list 1) = some [1] ∧
    (agg_pair_step (distance2vec_plain : Vec3 ℚ → Vec3 ℚ → ℚ) 1 1 2 0 1 2
        two_mol_state
        (mol_particle 0 0) (mol_particle 1 (1 / 2))).map
      (fun st1 => (st1.agg_id_list 0, st1.agg_id_list 1, st1.head_list 0,
        chain_list st1.link_list 2 (st1.head_list 0))) = some (0, 0, 1, some [1, 0]) ∧
    (agg_pair_step (distance2vec_plain : Vec3 ℚ → Vec3 ℚ → ℚ) 1 1 2 0 1 2
        two_mol_state
        (mol_particle 0 0) (mol_particle 1 (1 / 2))).map
      (fun st1 => chain_list st1.link_list 2 (st1.head_list 0)) ≠ some (some ([0] ++ [1])) := by
  decide!

/-- C8: when a candidate pair `(p1, p2)` triggers a merge in a state reached by
`aggregation`, the surviving representative is p1's: every molecule formerly in p2's
cluster gets p1's former representative, every molecule of p1's cluster keeps its
representative, `head_list` of p2's former representative becomes ABSENT = -2, and the
`agg_id_list`, `head_list` and `link_list` entries of the molecules of all other clusters
are unchanged. -/
theorem merge_keeps_p1_representative (distance2vec : Vec3 K → Vec3 K → K)
    (dist_criteria2 : K) (min_contact n_molecules s f : Int) (hs : 0 ≤ s) (fuel : Nat)
    (hfuel : (f - s + 1).toNat ≤ fuel) (st0 : AggState)
    (done : List (Particle K × Particle K)) (st : AggState) (p1 p2 : Particle K)
    (hreach : agg_pairs distance2vec dist_criteria2 min_contact n_molecules s f fuel
      (agg_init s f (agg_alloc_contact n_molecules st0)) done = some st)
    (htrig : triggers_merge distance2vec dist_criteria2 min_contact n_molecules s f st p1 p2) :
    ∃ st1 : AggState,
      agg_pair_step distance2vec dist_criteria2 min_contact n_molecules s f fuel st p1 p2 =
        some st1 ∧
      (∀ m, s ≤ m → m ≤ f → st.agg_id_list m = st.agg_id_list p2.mol_id →
        st1.agg_id_list m = st.agg_id_list p1.mol_id) ∧
      (∀ m, s ≤ m → m ≤ f → st.agg_id_list m = st.agg_id_list p1.mol_id →
        st1.agg_id_list m = st.agg_id_list p1.mol_id) ∧
      st1.head_list (st.agg_id_list p2.mol_id) = -2 ∧
      (∀ m, s ≤ m → m ≤ f → st.agg_id_list m ≠ st.agg_id_list p1.mol_id →
        st.agg_id_list m ≠ st.agg_id_list p2.mol_id →
        st1.agg_id_list m = st.agg_id_list m ∧ st1.head_list m = st.head_list m ∧
        st1.link_list m = st.link_list m) := by
  have hinv := reached_inv distance2vec dist_criteria2 min_contact n_molecules s f hs fuel
    hfuel st0 done st hreach
  obtain ⟨ca, cb, st1, hca, hcb, hcam, hcbm, hmerge, hchain, hhead, hagg, hlink, _⟩ :=
    agg_merge_spec s f hs fuel hfuel
      { st with contact_num :=
          (contact_after distance2vec dist_criteria2 n_molecules st p1 p2) }
      (partInv_contact s f st _ hinv) p1.mol_id p2.mol_id htrig.1 htrig.2.1 htrig.2.2.1
  have hab : st.agg_id_list p1.mol_id ≠ st.agg_id_list p2.mol_id := htrig.2.2.1
  obtain ⟨hA1, hA2⟩ := hinv
  obtain ⟨ha_lo, ha_hi, ha_head⟩ := hA1 p1.mol_id htrig.1.1 htrig.1.2
  obtain ⟨hb_lo, hb_hi, hb_head⟩ := hA1 p2.mol_id htrig.2.1.1 htrig.2.1.2
  have haa := (hA2 _ ha_lo ha_hi ha_head).1
  have hbb := (hA2 _ hb_lo hb_hi hb_head).1
  refine ⟨st1, ?_, ?_, ?_, ?_, ?_⟩
  · rw [agg_pair_step_of_triggers distance2vec dist_criteria2 min_contact n_molecules s f
      fuel st p1 p2 htrig]
    exact hmerge
  · intro m h1 h2 h3
    rw [hagg m, if_pos ((hcbm m).mpr ⟨h1, h2, h3⟩)]
  · intro m h1 h2 h3
    rw [hagg m]
    split_ifs
    · rfl
    · exact h3
  · rw [hhead, Function.update_noteq (Ne.symm hab), Function.update_same]
  · intro m h1 h2 h3 h4
    have hncb : m ∉ cb := fun hm => h4 ((hcbm m).mp hm).2.2
    have hma : m ≠ st.agg_id_list p1.mol_id := by
      intro e
      apply h3
      rw [e]
      exact haa
    have hmb : m ≠ st.agg_id_list p2.mol_id := by
      intro e
      apply h4
      rw [e]
      exact hbb
    refine ⟨?_, ?_, hlink m hncb⟩
    · rw [hagg m, if_neg hncb]
    · rw [hhead, Function.update_noteq hma, Function.update_noteq hmb]

theorem merge_keeps_p1_representative_witness :
    (0 : Int) ≤ 0 ∧ ((1 : Int) - 0 + 1).toNat ≤ 2 ∧
    agg_pairs (distance2vec_plain : Vec3 ℚ → Vec3 ℚ → ℚ) 1 1 2 0 1 2
      (agg_init 0 1 (agg_alloc_contact 2 (caller_state 2 7))) [] = some two_mol_state ∧
    triggers_merge (distance2vec_plain : Vec3 ℚ → Vec3 ℚ → ℚ) 1 1 2 0 1 two_mol_state
      (mol_particle 0 0) (mol_particle 1 (1 / 2)) ∧
    ∃ st1 : AggState,
      agg_pair_step (distance2vec_plain : Vec3 ℚ → Vec3 ℚ → ℚ) 1 1 2 0 1 2 two_mol_state
        (mol_particle 0 0) (mol_particle 1 (1 / 2)) = some st1 ∧
      (∀ m, (0 : Int) ≤ m → m ≤ 1 →
        two_mol_state.agg_id_list m =
          two_mol_state.agg_id_list (mol_particle 1 (1 / 2 : ℚ)).mol_id →
        st1.agg_id_list m = two_mol_state.agg_id_list (mol_particle 0 (0 : ℚ)).mol_id) ∧
      (∀ m, (0 : Int) ≤ m → m ≤ 1 →
        two_mol_state.agg_id_list m =
          two_mol_state.agg_id_list (mol_particle 0 (0 : ℚ)).mol_id →
        st1.agg_id_list m = two_mol_state.agg_id_list (mol_particle 0 (0 : ℚ)).mol_id) ∧
      st1.head_list (two_mol_state.agg_id_list (mol_particle 1 (1 / 2 : ℚ)).mol_id) = -2 ∧
      (∀ m, (0 : Int) ≤ m → m ≤ 1 →
        two_mol_state.agg_id_list m ≠
          two_mol_state.agg_id_list (mol_particle 0 (0 : ℚ)).mol_id →
        two_mol_state.agg_id_list m ≠
          two_mol_state.agg_id_list (mol_particle 1 (1 / 2 : ℚ)).mol_id →
        st1.agg_id_list m = two_mol_state.agg_id_list m ∧
        st1.head_list m = two_mol_state.head_list m ∧
        st1.link_list m = two_mol_state.link_list m) :=
  ⟨by decide, by decide, rfl, by decide!,
    merge_keeps_p1_representative distance2vec_plain 1 1 2 0 1 (by decide) 2
      (by decide) (caller_state 2 7) [] _ (mol_particle 0 0) (mol_particle 1 (1 / 2)) rfl
      (by decide!)⟩

end MergeClaims

section CountLemmas

theorem partInv_congr (s f : Int) (st st1 : AggState) (h1 : st1.head_list = st.head_list)
    (h2 : st1.link_list = st.link_list) (h3 : st1.agg_id_list = st.agg_id_list)
    (h : PartInv s f st) : PartInv s f st1 := by
  unfold PartInv at *
  rw [h1, h2, h3]
  exact h

/-- What the loop of lines 211-214 computes on a chain. -/
theorem count_walk_chain (link_list : Int → Int) (k : Int) :
    ∀ (rest : List Int) (fuel : Nat) (target1 : Int) (agg_size : Int → Int),
      Chain link_list (link_list target1) rest → rest.length ≤ fuel →
      count_walk link_list k fuel target1 agg_size =
        some (Function.update agg_size k (agg_size k + (rest.length : Int))) := by
  intro rest
  induction rest with
  | nil =>
    intro fuel target1 agg_size hc _
    have h : link_list target1 = -1 := hc
    unfold count_walk
    simp [h]
  | cons m r ih =>
    intro fuel target1 agg_size hc hlen
    obtain ⟨e, ne, htail⟩ := hc
    cases fuel with
    | zero => simp at hlen
    | succ fuel =>
      unfold count_walk
      rw [if_pos (by rw [e]; exact ne)]
      simp only
      rw [e, ih fuel m _ htail (by simpa using hlen)]
      simp only [Function.update_same, Function.update_idem, List.length_cons]
      have hsum : agg_size k + 1 + (r.length : Int) =
          agg_size k + ((r.length + 1 : Nat) : Int) := by
        push_cast
        ring
      rw [hsum]

/-- The chain of a representative has as many entries as its cluster has molecules. -/
theorem chain_length_eq_cluster_size (s f : Int) (agg_id_list : Int → Int) (h : Int)
    (c : List Int) (hnd : c.Nodup)
    (hmem : ∀ m, m ∈ c ↔ (s ≤ m ∧ m ≤ f ∧ agg_id_list m = h)) :
    c.length = cluster_size s f agg_id_list h := by
  unfold cluster_size
  apply List.Perm.length_eq
  rw [List.perm_ext_iff_of_nodup hnd ((mol_range_nodup s f).filter _)]
  intro m
  rw [hmem m, List.mem_filter, mem_mol_range]
  simp only [decide_eq_true_eq]
  tauto

/-- One round of the counting loop on a state with the partition invariant. -/
theorem agg_count_step_spec (s f : Int) (fuel : Nat) (hfuel : (f - s + 1).toNat ≤ fuel)
    (st : AggState) (hinv : PartInv s f st) (i : Int) (hi : s ≤ i ∧ i ≤ f) :
    ∃ st1, agg_count_step fuel st i = some st1 ∧
      st1.head_list = st.head_list ∧ st1.link_list = st.link_list ∧
      st1.agg_id_list = st.agg_id_list ∧ st1.agg_avg = st.agg_avg ∧
      ((st.head_list i = -2 ∧ st1.agg_num = st.agg_num ∧ st1.agg_size = st.agg_size) ∨
       (st.head_list i ≠ -2 ∧ st1.agg_num = st.agg_num + 1 ∧
        st1.agg_size = Function.update st.agg_size st.agg_num
          (st.agg_size st.agg_num + (cluster_size s f st.agg_id_list i : Int)))) := by
  unfold agg_count_step
  by_cases hh : st.head_list i ≠ -2
  · rw [if_pos hh]
    obtain ⟨_, c, hc, hnd, hmem⟩ := hinv.2 i hi.1 hi.2 hh
    have hic : i ∈ c := by
      rw [hmem i]
      exact ⟨hi.1, hi.2, (hinv.2 i hi.1 hi.2 hh).1⟩
    have hlen := nodup_length_le_range s f c hnd
      (fun m hm => ⟨((hmem m).mp hm).1, ((hmem m).mp hm).2.1⟩)
    have hcs := chain_length_eq_cluster_size s f st.agg_id_list i c hnd hmem
    cases c with
    | nil => simp at hic
    | cons hd rest =>
      obtain ⟨e, ne, htail⟩ := hc
      have hrest : rest.length ≤ fuel := by
        simp only [List.length_cons] at hlen
        omega
      simp only [add_sub_cancel_right]
      rw [e, count_walk_chain st.link_list st.agg_num rest fuel hd _ htail hrest]
      refine ⟨_, rfl, rfl, rfl, rfl, rfl, Or.inr ⟨e ▸ hh, rfl, ?_⟩⟩
      simp only [Function.update_same, Function.update_idem]
      rw [← hcs]
      have hsum : st.agg_size st.agg_num + 1 + (rest.length : Int) =
          st.agg_size st.agg_num + (((hd :: rest).length : Nat) : Int) := by
        simp only [List.length_cons]
        push_cast
        ring
      rw [hsum]
  · rw [if_neg hh]
    exact ⟨st, rfl, rfl, rfl, rfl, rfl, Or.inl ⟨not_not.mp hh, rfl, rfl⟩⟩

/-- The counting loop over a list of molecules of the range: it returns, adds the number
of surviving heads to `agg_num`, writes only the size slots `agg_num .. agg_num + R - 1`
and adds the cluster sizes of the surviving heads to them. -/
theorem agg_count_spec (s f : Int) (fuel : Nat) (hfuel : (f - s + 1).toNat ≤ fuel) :
    ∀ (l : List Int) (st : AggState), PartInv s f st → (∀ i ∈ l, s ≤ i ∧ i ≤ f) →
      ∃ st1, agg_count fuel st l = some st1 ∧
        st1.head_list = st.head_list ∧ st1.link_list = st.link_list ∧
        st1.agg_id_list = st.agg_id_list ∧ st1.agg_avg = st.agg_avg ∧
        st1.agg_num = st.agg_num + ((surviving_heads st.head_list l).length : Int) ∧
        (∀ j, j < st.agg_num ∨
            st.agg_num + ((surviving_heads st.head_list l).length : Int) ≤ j →
          st1.agg_size j = st.agg_size j) ∧
        Finset.sum (Finset.range (surviving_heads st.head_list l).length)
            (fun k => st1.agg_size (st.agg_num + (k : Int))) =
          Finset.sum (Finset.range (surviving_heads st.head_list l).length)
            (fun k => st.agg_size (st.agg_num + (k : Int))) +
          (((surviving_heads st.head_list l).map
            (cluster_size s f st.agg_id_list)).sum : Nat) := by
  intro l
  induction l with
  | nil =>
    intro st _ _
    refine ⟨st, rfl, rfl, rfl, rfl, rfl, ?_, ?_, ?_⟩
    · simp [surviving_heads]
    · intro j _; rfl
    · simp [surviving_heads]
  | cons i t ih =>
    intro st hinv hl
    have hi := hl i (List.mem_cons_self _ _)
    have ht : ∀ j ∈ t, s ≤ j ∧ j ≤ f := fun j hj => hl j (List.mem_cons_of_mem _ hj)
    obtain ⟨st1, hstep, e1, e2, e3, e4, hcase⟩ :=
      agg_count_step_spec s f fuel hfuel st hinv i hi
    obtain ⟨st2, hrest, g1, g2, g3, g4, g5, g6, g7⟩ :=
      ih st1 (partInv_congr s f st st1 e1 e2 e3 hinv) ht
    have hrun : agg_count fuel st (i :: t) = some st2 := by
      unfold agg_count
      rw [hstep]
      exact hrest
    rw [e1] at g5 g6 g7
    rw [e3] at g7
    refine ⟨st2, hrun, g1.trans e1, g2.trans e2, g3.trans e3, g4.trans e4, ?_⟩
    rcases hcase with ⟨hh, hn, hsz⟩ | ⟨hh, hn, hsz⟩
    · have hsurv : surviving_heads st.head_list (i :: t) = surviving_heads st.head_list t := by
        unfold surviving_heads
        rw [List.filter_cons_of_neg]
        simp [hh]
      rw [hsurv]
      rw [hn] at g5 g6 g7
      refine ⟨g5, ?_, ?_⟩
      · intro j hj
        rw [g6 j hj, hsz]
      · rw [g7, hsz]
    · have hsurv : surviving_heads st.head_list (i :: t) =
          i :: surviving_heads st.head_list t := by
        unfold surviving_heads
        rw [List.filter_cons_of_pos]
        simp [hh]
      rw [hsurv]
      rw [hn] at g5 g6 g7
      simp only [List.length_cons, List.map_cons, List.sum_cons]
      refine ⟨?_, ?_, ?_⟩
      · rw [g5]; push_cast; ring
      · intro j hj
        have hj1 : j < st.agg_num + 1 ∨
            st.agg_num + 1 + ((surviving_heads st.head_list t).length : Int) ≤ j := by
          rcases hj with h | h
          · left; omega
          · right; push_cast at h; omega
        have hjn : j ≠ st.agg_num := by
          rcases hj with h | h
          · omega
          · push_cast at h; omega
        rw [g6 j hj1, hsz, Function.update_noteq hjn]
      · rw [Finset.sum_range_succ', Finset.sum_range_succ']
        have hshift : ∀ (g : Int → Int),
            Finset.sum (Finset.range (surviving_heads st.head_list t).length)
              (fun k => g (st.agg_num + ((k + 1 : Nat) : Int))) =
            Finset.sum (Finset.range (surviving_heads st.head_list t).length)
              (fun k => g (st.agg_num + 1 + (k : Int))) := by
          intro g
          apply Finset.sum_congr rfl
          intro k _
          congr 1
          push_cast
          ring
        rw [hshift st2.agg_size, hshift st.agg_size, g7]
        have h0 : st2.agg_size (st.agg_num + ((0 : Nat) : Int)) =
            st.agg_size st.agg_num + (cluster_size s f st.agg_id_list i : Int) := by
          have : st.agg_num + ((0 : Nat) : Int) = st.agg_num := by simp
          rw [this, g6 st.agg_num (Or.inl (by omega)), hsz, Function.update_same]
        rw [h0]
        have hsame : Finset.sum (Finset.range (surviving_heads st.head_list t).length)
              (fun k => st1.agg_size (st.agg_num + 1 + (k : Int))) =
            Finset.sum (Finset.range (surviving_heads st.head_list t).length)
              (fun k => st.agg_size (st.agg_num + 1 + (k : Int))) := by
          apply Finset.sum_congr rfl
          intro k _
          have : st.agg_num + 1 + (k : Int) ≠ st.agg_num := by omega
          rw [hsz, Function.update_noteq this]
        rw [hsame]
        have : st.agg_num + ((0 : Nat) : Int) = st.agg_num := by simp
        rw [this]
        push_cast
        ring

end CountLemmas

section SizeClaims

variable {K : Type} [LinearOrderedField K]

theorem mol_range_length (s f : Int) : (mol_range s f).length = (f - s + 1).toNat := by
  simp [mol_range]

theorem surviving_heads_nodup (head_list : Int → Int) (s f : Int) :
    (surviving_heads head_list (mol_range s f)).Nodup :=
  (mol_range_nodup s f).filter _

theorem surviving_heads_length_le (head_list : Int → Int) (s f : Int) :
    (surviving_heads head_list (mol_range s f)).length ≤ (f - s + 1).toNat := by
  rw [← mol_range_length]
  exact List.length_filter_le _ _

/-- The clusters of the surviving heads partition the range: their sizes add up to the
number of molecules of the range. -/
theorem total_cluster_sizes (s f : Int) (st : AggState) (hinv : PartInv s f st) :
    ((surviving_heads st.head_list (mol_range s f)).map
      (cluster_size s f st.agg_id_list)).sum = (f - s + 1).toNat := by
  rw [← List.sum_toFinset _ (surviving_heads_nodup st.head_list s f)]
  have hfib : ∀ h, cluster_size s f st.agg_id_list h =
      ((mol_range s f).toFinset.filter (fun m => st.agg_id_list m = h)).card := by
    intro h
    unfold cluster_size
    rw [← List.toFinset_card_of_nodup ((mol_range_nodup s f).filter _), List.toFinset_filter]
    congr 1
    ext m
    simp
  simp only [hfib]
  rw [← Finset.card_eq_sum_card_fiberwise, List.toFinset_card_of_nodup (mol_range_nodup s f),
    mol_range_length]
  intro m hm
  rw [List.mem_toFinset, mem_mol_range] at hm
  obtain ⟨l1, l2, l3⟩ := hinv.1 m hm.1 hm.2
  rw [List.mem_toFinset]
  unfold surviving_heads
  rw [List.mem_filter, mem_mol_range]
  exact ⟨⟨l1, l2⟩, by simpa using l3⟩

/-- The statistics loop adds the size slots `0 .. agg_num - 1` to `agg_avg` and leaves the
arrays and `agg_num` alone. -/
theorem agg_stats_fold (n : Nat) (st : AggState) :
    ((List.range n).foldl agg_stats_step st).agg_avg =
        st.agg_avg + Finset.sum (Finset.range n) (fun i => st.agg_size (i : Int)) ∧
      ((List.range n).foldl agg_stats_step st).agg_size = st.agg_size ∧
      ((List.range n).foldl agg_stats_step st).agg_num = st.agg_num ∧
      ((List.range n).foldl agg_stats_step st).head_list = st.head_list ∧
      ((List.range n).foldl agg_stats_step st).link_list = st.link_list ∧
      ((List.range n).foldl agg_stats_step st).agg_id_list = st.agg_id_list := by
  induction n with
  | zero => simp
  | succ n ih =>
    obtain ⟨e1, e2, e3, e4, e5, e6⟩ := ih
    rw [List.range_succ, List.foldl_append, List.foldl_cons, List.foldl_nil]
    have hstep : ∀ (t : AggState) (i : Nat),
        (agg_stats_step t i).agg_avg = t.agg_avg + t.agg_size (i : Int) ∧
        (agg_stats_step t i).agg_size = t.agg_size ∧
        (agg_stats_step t i).agg_num = t.agg_num ∧
        (agg_stats_step t i).head_list = t.head_list ∧
        (agg_stats_step t i).link_list = t.link_list ∧
        (agg_stats_step t i).agg_id_list = t.agg_id_list := by
      intro t i
      unfold agg_stats_step
      dsimp only
      split_ifs <;> exact ⟨rfl, rfl, rfl, rfl, rfl, rfl⟩
    obtain ⟨g1, g2, g3, g4, g5, g6⟩ := hstep ((List.range n).foldl agg_stats_step st) n
    refine ⟨?_, g2.trans e2, g3.trans e3, g4.trans e4, g5.trans e5, g6.trans e6⟩
    rw [g1, e1, e2, Finset.sum_range_succ]
    ring

/-- For a molecule range with `0 ≤ s ≤ f`, when `agg_num`, `agg_avg` and the size slots
below `s` (which the initialisation loop does not clear) are zero at entry, `aggregation`
returns, the cluster sizes `agg_size[0 .. agg_num-1]` add up to exactly `f - s + 1`, this
sum is what `agg_avg` holds, and the walk along `link_list` from every surviving head
reaches the END sentinel -1 (within `f - s + 1` entries). -/
theorem aggregation_sizes_sum (distance2vec : Vec3 K → Vec3 K → K) (n_molecules : Int)
    (pairs : List (Particle K × Particle K)) (fuel : Nat) (dist_criteria2 : K)
    (min_contact s f : Int) (st : AggState) (hs : 0 ≤ s) (hsf : s ≤ f)
    (hfuel : (f - s + 1).toNat ≤ fuel) (hnum : st.agg_num = 0) (havg : st.agg_avg = 0)
    (hsize : ∀ i, 0 ≤ i → i < s → st.agg_size i = 0) :
    ∃ r, aggregation distance2vec n_molecules pairs fuel dist_criteria2 min_contact s f st =
        some r ∧
      Finset.sum (Finset.range r.agg_num.toNat) (fun i => r.agg_size (i : Int)) = f - s + 1 ∧
      r.agg_avg = f - s + 1 ∧
      ∀ h, s ≤ h → h ≤ f → r.head_list h ≠ -2 →
        ∃ c, Chain r.link_list (r.head_list h) c ∧ c.length ≤ (f - s + 1).toNat ∧
          chain_list r.link_list fuel (r.head_list h) = some c := by
  obtain ⟨_, _, _, i4, _, i6, i7⟩ := agg_init_spec s f (agg_alloc_contact n_molecules st)
  obtain ⟨st1, hpairs, hinv1, p1, p2, p3⟩ := agg_pairs_inv distance2vec dist_criteria2
    min_contact n_molecules s f hs fuel hfuel pairs _
    (agg_init_inv s f hs (agg_alloc_contact n_molecules st))
  obtain ⟨st2, hcount, c1, c2, c3, c4, c5, c6, c7⟩ := agg_count_spec s f fuel hfuel
    (mol_range s f) st1 hinv1 (fun i hi => (mem_mol_range s f i).mp hi)
  obtain ⟨t1, t2, t3, t4, t5, t6⟩ := agg_stats_fold st2.agg_num.toNat st2
  have hn1 : st1.agg_num = 0 := by
    rw [p2, i6]
    exact hnum
  have ha1 : st1.agg_avg = 0 := by
    rw [p3, i7]
    exact havg
  have hz : ∀ i, 0 ≤ i → i ≤ f → st1.agg_size i = 0 := by
    intro i h0 hf
    rw [p1, i4 i]
    split_ifs with hr
    · rfl
    · exact hsize i h0 (by
        by_contra hcon
        exact hr ⟨by omega, hf⟩)
  have hR := surviving_heads_length_le st1.head_list s f
  have hnum2 : st2.agg_num.toNat = (surviving_heads st1.head_list (mol_range s f)).length := by
    rw [c5, hn1]
    simp
  have hsum : Finset.sum (Finset.range st2.agg_num.toNat)
      (fun i => st2.agg_size (i : Int)) = f - s + 1 := by
    rw [hnum2]
    rw [hn1] at c7
    simp only [zero_add] at c7
    rw [c7, total_cluster_sizes s f st1 hinv1]
    have hzero : Finset.sum
        (Finset.range (surviving_heads st1.head_list (mol_range s f)).length)
        (fun k => st1.agg_size (k : Int)) = 0 := by
      apply Finset.sum_eq_zero
      intro k hk
      rw [Finset.mem_range] at hk
      exact hz k (by omega) (by omega)
    rw [hzero]
    omega
  refine ⟨agg_stats st2, ?_, ?_, ?_, ?_⟩
  · unfold aggregation
    simp only [hpairs, hcount]
  · unfold agg_stats
    rw [t3, t2]
    exact hsum
  · unfold agg_stats
    rw [t1, hsum, c4, ha1]
    ring
  · intro h h1 h2 h3
    have hinvr : PartInv s f (agg_stats st2) := by
      apply partInv_congr s f st1
      · unfold agg_stats; rw [t4, c1]
      · unfold agg_stats; rw [t5, c2]
      · unfold agg_stats; rw [t6, c3]
      · exact hinv1
    obtain ⟨_, c, hc, hnd, hmem⟩ := hinvr.2 h h1 h2 h3
    have hlen := nodup_length_le_range s f c hnd
      (fun m hm => ⟨((hmem m).mp hm).1, ((hmem m).mp hm).2.1⟩)
    exact ⟨c, hc, hlen, chain_list_of_chain _ c fuel _ hc (le_trans hlen hfuel)⟩

theorem aggregation_sizes_sum_witness :
    (0 : Int) ≤ 1 ∧ (1 : Int) ≤ 3 ∧ ((3 : Int) - 1 + 1).toNat ≤ 3 ∧
    (caller_state 4 0).agg_num = 0 ∧ (caller_state 4 0).agg_avg = 0 ∧
    (∀ i : Int, 0 ≤ i → i < 1 → (caller_state 4 0).agg_size i = 0) ∧
    ∃ r, aggregation (distance2vec_plain : Vec3 ℚ → Vec3 ℚ → ℚ) 4
        [(mol_particle 0 0, mol_particle 1 1), (mol_particle 2 5, mol_particle 3 6),
          (mol_particle 1 1, mol_particle 2 (3 / 2))] 3 2 1 1 3 (caller_state 4 0) =
        some r ∧
      Finset.sum (Finset.range r.agg_num.toNat) (fun i => r.agg_size (i : Int)) =
        3 - 1 + 1 ∧
      r.agg_avg = 3 - 1 + 1 ∧
      ∀ h, (1 : Int) ≤ h → h ≤ 3 → r.head_list h ≠ -2 →
        ∃ c, Chain r.link_list (r.head_list h) c ∧ c.length ≤ ((3 : Int) - 1 + 1).toNat ∧
          chain_list r.link_list 3 (r.head_list h) = some c :=
  ⟨by decide, by decide, by decide, rfl, rfl, fun _ _ _ => rfl,
    aggregation_sizes_sum distance2vec_plain 4 _ 3 2 1 1 3 (caller_state 4 0) (by decide)
      (by decide) (by decide) rfl rfl (fun _ _ _ => rfl)⟩

/-- C5 (the code differs): `analyze aggregation 1.5 1 3` with `n_molecules = 4`, the three
molecules 1, 2, 3 joined into one cluster and the fresh blocks holding 77: the
initialisation loop clears `agg_size` on `[1, 3]` only, the size of the one cluster is
counted in `agg_size[0]`, which still holds 77, so `agg_size[0] = 80` and
`agg_avg = 80`, not `f - s + 1 = 3` (`agg_max = 80` as well).  With zeros in the
blocks the same call gives 3. -/
theorem aggregation_sizes_include_stale_slot :
    (parse_aggregation (distance2vec_plain : Vec3 ℚ → Vec3 ℚ → ℚ) 4 1 true 100
        [(mol_particle 0 0, mol_particle 1 1), (mol_particle 2 5, mol_particle 3 6),
          (mol_particle 1 1, mol_particle 2 (3 / 2))] 3 77
        [double_arg (3 / 2), int_arg 1, int_arg 3]).1 = TCL_OK ∧
    ((parse_aggregation (distance2vec_plain : Vec3 ℚ → Vec3 ℚ → ℚ) 4 1 true 100
        [(mol_particle 0 0, mol_particle 1 1), (mol_particle 2 5, mol_particle 3 6),
          (mol_particle 1 1, mol_particle 2 (3 / 2))] 3 77
        [double_arg (3 / 2), int_arg 1, int_arg 3]).2.bind (fun r => r.state)).map
      (fun st => (st.agg_num, st.agg_size 0, st.agg_avg, st.agg_max)) =
        some (1, 80, 80, 80) ∧
    (aggregation (distance2vec_plain : Vec3 ℚ → Vec3 ℚ → ℚ) 4
        [(mol_particle 0 0, mol_particle 1 1), (mol_particle 2 5, mol_particle 3 6),
          (mol_particle 1 1, mol_particle 2 (3 / 2))] 3 (9 / 4) 1 1 3 (caller_state 4 77)).map
      (fun st => (st.agg_num, st.agg_size 0, st.agg_avg)) = some (1, 80, 80) ∧
    (caller_state 4 77).agg_num = 0 ∧ (caller_state 4 77).agg_avg = 0 ∧
    (3 : Int) - 1 + 1 = 3 ∧
    (aggregation (distance2vec_plain : Vec3 ℚ → Vec3 ℚ → ℚ) 4
        [(mol_particle 0 0, mol_particle 1 1), (mol_particle 2 5, mol_particle 3 6),
          (mol_particle 1 1, mol_particle 2 (3 / 2))] 3 (9 / 4) 1 1 3 (caller_state 4 0)).map
      (fun st => (st.agg_num, st.agg_size 0, st.agg_avg)) = some (1, 3, 3) := by
  refine ⟨by decide!, by decide!, by decide!, rfl, rfl, by decide, by decide!⟩

end SizeClaims

section ContactLemmas

variable {K : Type} [LinearOrderedField K]

theorem mul_add_unique (n hi1 lo1 hi2 lo2 : Int) (h1 : 0 ≤ lo1 ∧ lo1 < n)
    (h2 : 0 ≤ lo2 ∧ lo2 < n) (h : hi1 * n + lo1 = hi2 * n + lo2) :
    hi1 = hi2 ∧ lo1 = lo2 := by
  have hn : 0 < n := by omega
  have hhi : hi1 = hi2 := by
    by_contra hne
    rcases lt_or_gt_of_ne hne with hlt | hgt
    · have : (hi1 + 1) * n ≤ hi2 * n := mul_le_mul_of_nonneg_right (by omega) (le_of_lt hn)
      nlinarith
    · have : (hi2 + 1) * n ≤ hi1 * n := mul_le_mul_of_nonneg_right (by omega) (le_of_lt hn)
      nlinarith
  subst hhi
  exact ⟨rfl, by omega⟩

theorem contact_index_comm (n a b : Int) : contact_index n a b = contact_index n b a := by
  unfold contact_index
  split_ifs with h1 h2 h2
  · omega
  · rfl
  · rfl
  · have : a = b := by omega
    subst this
    rfl

/-- On molecule ids of `[0, n_molecules)` the slot of `contact_num` determines the
unordered pair. -/
theorem contact_index_inj (n a b c d : Int) (ha : 0 ≤ a ∧ a < n) (hb : 0 ≤ b ∧ b < n)
    (hc : 0 ≤ c ∧ c < n) (hd : 0 ≤ d ∧ d < n) (hab : a ≠ b) (hcd : c ≠ d)
    (h : contact_index n a b = contact_index n c d) :
    (a = c ∧ b = d) ∨ (a = d ∧ b = c) := by
  unfold contact_index at h
  split_ifs at h with h1 h2 h2
  · exact Or.inl (mul_add_unique n a b c d hb hd h)
  · obtain ⟨e1, e2⟩ := mul_add_unique n a b d c hb hc h
    exact Or.inr ⟨e1, e2⟩
  · obtain ⟨e1, e2⟩ := mul_add_unique n b a c d ha hd h
    exact Or.inr ⟨e2, e1⟩
  · obtain ⟨e1, e2⟩ := mul_add_unique n b a d c ha hc h
    exact Or.inl ⟨e2, e1⟩

/-- The slot of two molecule ids of `[0, n_molecules)` lies in the allocated block. -/
theorem contact_index_in_block (n a b : Int) (ha : 0 ≤ a ∧ a < n) (hb : 0 ≤ b ∧ b < n) :
    0 ≤ contact_index n a b ∧ contact_index n a b < n * n := by
  unfold contact_index
  split_ifs
  · constructor
    · nlinarith
    · nlinarith
  · constructor
    · nlinarith
    · nlinarith

theorem joins_iff (m1 m2 : Int) (pr : Particle K × Particle K) :
    joins m1 m2 pr = true ↔
      (pr.1.mol_id = m1 ∧ pr.2.mol_id = m2) ∨ (pr.1.mol_id = m2 ∧ pr.2.mol_id = m1) := by
  unfold joins
  simp

theorem contact_count_append (distance2vec : Vec3 K → Vec3 K → K) (dist_criteria2 : K)
    (done : List (Particle K × Particle K)) (pr : Particle K × Particle K) (m1 m2 : Int) :
    contact_count distance2vec dist_criteria2 (done ++ [pr]) m1 m2 =
      contact_count distance2vec dist_criteria2 done m1 m2 +
        (if joins m1 m2 pr = true ∧ distance2vec pr.1.p pr.2.p < dist_criteria2 then 1
          else 0) := by
  unfold contact_count
  rw [List.filter_append, List.length_append]
  congr 1
  by_cases h : joins m1 m2 pr = true ∧ distance2vec pr.1.p pr.2.p < dist_criteria2
  · rw [if_pos h, List.filter_cons_of_pos]
    · rfl
    · simp [h.1, h.2]
  · rw [if_neg h, List.filter_cons_of_neg]
    · rfl
    · simpa using h

theorem contact_count_le_append (distance2vec : Vec3 K → Vec3 K → K) (dist_criteria2 : K)
    (done : List (Particle K × Particle K)) (pr : Particle K × Particle K) (m1 m2 : Int) :
    contact_count distance2vec dist_criteria2 done m1 m2 ≤
      contact_count distance2vec dist_criteria2 (done ++ [pr]) m1 m2 := by
  rw [contact_count_append]
  omega

theorem contact_connected_append (distance2vec : Vec3 K → Vec3 K → K) (dist_criteria2 : K)
    (min_contact s f : Int) (done : List (Particle K × Particle K))
    (pr : Particle K × Particle K) (m1 m2 : Int)
    (h : contact_connected distance2vec dist_criteria2 min_contact s f done m1 m2) :
    contact_connected distance2vec dist_criteria2 min_contact s f (done ++ [pr]) m1 m2 := by
  unfold contact_connected at *
  apply Relation.ReflTransGen.mono _ h
  intro a b hab
  obtain ⟨h1, h2, h3, h4⟩ := hab
  refine ⟨h1, h2, h3, le_trans h4 ?_⟩
  exact_mod_cast contact_count_le_append distance2vec dist_criteria2 done pr a b

theorem contact_count_comm (distance2vec : Vec3 K → Vec3 K → K) (dist_criteria2 : K)
    (pairs : List (Particle K × Particle K)) (m1 m2 : Int) :
    contact_count distance2vec dist_criteria2 pairs m1 m2 =
      contact_count distance2vec dist_criteria2 pairs m2 m1 := by
  unfold contact_count
  congr 2
  funext pr
  unfold joins
  rw [Bool.or_comm]

theorem contact_edge_symm (distance2vec : Vec3 K → Vec3 K → K) (dist_criteria2 : K)
    (min_contact s f : Int) (pairs : List (Particle K × Particle K)) (m1 m2 : Int)
    (h : contact_edge distance2vec dist_criteria2 min_contact s f pairs m1 m2) :
    contact_edge distance2vec dist_criteria2 min_contact s f pairs m2 m1 := by
  obtain ⟨h1, h2, h3, h4⟩ := h
  refine ⟨h2, h1, Ne.symm h3, ?_⟩
  rw [contact_count_comm]
  exact h4

theorem contact_connected_symm (distance2vec : Vec3 K → Vec3 K → K) (dist_criteria2 : K)
    (min_contact s f : Int) (pairs : List (Particle K × Particle K)) (m1 m2 : Int)
    (h : contact_connected distance2vec dist_criteria2 min_contact s f pairs m1 m2) :
    contact_connected distance2vec dist_criteria2 min_contact s f pairs m2 m1 := by
  unfold contact_connected at *
  induction h with
  | refl => exact Relation.ReflTransGen.refl
  | tail _ hbc ih =>
    exact Relation.ReflTransGen.head
      (contact_edge_symm distance2vec dist_criteria2 min_contact s f pairs _ _ hbc) ih

end ContactLemmas

section ContactStep

variable {K : Type} [LinearOrderedField K]

theorem contact_index_of_joins (n m1 m2 : Int) (p1 p2 : Particle K)
    (hj : joins m1 m2 (p1, p2) = true) :
    contact_index n m1 m2 = contact_index n p1.mol_id p2.mol_id := by
  rcases (joins_iff m1 m2 (p1, p2)).mp hj with ⟨e1, e2⟩ | ⟨e1, e2⟩
  · simp only at e1 e2
    rw [e1, e2]
  · simp only at e1 e2
    rw [e1, e2, contact_index_comm]

/-- For two molecules with different representatives, the slot of `contact_num` after
counting the pair `(p1, p2)` holds their contact count including that pair. -/
theorem contact_after_count (distance2vec : Vec3 K → Vec3 K → K) (dist_criteria2 : K)
    (min_contact n_molecules s f : Int) (hs : 0 ≤ s) (hf : f < n_molecules)
    (done : List (Particle K × Particle K)) (st : AggState)
    (hinv : ContactInv distance2vec dist_criteria2 min_contact n_molecules s f done st)
    (p1 p2 : Particle K) (hp1 : s ≤ p1.mol_id ∧ p1.mol_id ≤ f)
    (hp2 : s ≤ p2.mol_id ∧ p2.mol_id ≤ f)
    (hne : st.agg_id_list p1.mol_id ≠ st.agg_id_list p2.mol_id)
    (m1 m2 : Int) (h1 : s ≤ m1 ∧ m1 ≤ f) (h2 : s ≤ m2 ∧ m2 ≤ f)
    (hm : st.agg_id_list m1 ≠ st.agg_id_list m2) :
    contact_after distance2vec dist_criteria2 n_molecules st p1 p2
        (contact_index n_molecules m1 m2) =
      (contact_count distance2vec dist_criteria2 (done ++ [(p1, p2)]) m1 m2 : Int) := by
  have hold := (hinv.2.2 m1 m2 h1.1 h1.2 h2.1 h2.2 hm).1
  have hm12 : m1 ≠ m2 := fun e => hm (by rw [e])
  have hp12 : p1.mol_id ≠ p2.mol_id := fun e => hne (by rw [e])
  rw [contact_count_append]
  unfold contact_after
  by_cases hc : distance2vec p1.p p2.p < dist_criteria2
  · rw [if_pos hc]
    by_cases hj : joins m1 m2 (p1, p2) = true
    · have hidx := contact_index_of_joins n_molecules m1 m2 p1 p2 hj
      rw [if_pos ⟨hj, hc⟩, ← hidx, Function.update_same, hold]
      push_cast
      rfl
    · have hidx : contact_index n_molecules m1 m2 ≠
          contact_index n_molecules p1.mol_id p2.mol_id := by
        intro e
        apply hj
        rw [joins_iff]
        rcases contact_index_inj n_molecules m1 m2 p1.mol_id p2.mol_id
            ⟨by omega, by omega⟩ ⟨by omega, by omega⟩ ⟨by omega, by omega⟩
            ⟨by omega, by omega⟩ hm12 hp12 e with ⟨e1, e2⟩ | ⟨e1, e2⟩
        · exact Or.inl ⟨e1.symm, e2.symm⟩
        · exact Or.inr ⟨e2.symm, e1.symm⟩
      rw [if_neg (fun h => hj h.1), Function.update_noteq hidx, hold]
      simp
  · rw [if_neg hc, if_neg (fun h => hc h.2), hold]
    simp

/-- One candidate pair keeps the contact-graph invariant, for the list of processed pairs
extended by that pair. -/
theorem contactInv_step (distance2vec : Vec3 K → Vec3 K → K) (dist_criteria2 : K)
    (min_contact n_molecules s f : Int) (hs : 0 ≤ s) (hf : f < n_molecules) (fuel : Nat)
    (hfuel : (f - s + 1).toNat ≤ fuel) (done : List (Particle K × Particle K))
    (st : AggState)
    (hinv : ContactInv distance2vec dist_criteria2 min_contact n_molecules s f done st)
    (p1 p2 : Particle K) :
    ∃ st1, agg_pair_step distance2vec dist_criteria2 min_contact n_molecules s f fuel
        st p1 p2 = some st1 ∧
      ContactInv distance2vec dist_criteria2 min_contact n_molecules s f
        (done ++ [(p1, p2)]) st1 ∧
      st1.agg_size = st.agg_size ∧ st1.agg_num = st.agg_num ∧ st1.agg_avg = st.agg_avg := by
  obtain ⟨st1, hstep, hP1, e1, e2, e3, hcase⟩ :=
    agg_pair_step_spec distance2vec dist_criteria2 min_contact n_molecules s f hs fuel hfuel
      st hinv.1 p1 p2
  refine ⟨st1, hstep, ?_, e1, e2, e3⟩
  have hmono : ∀ m1 m2, contact_connected distance2vec dist_criteria2 min_contact s f done
      m1 m2 → contact_connected distance2vec dist_criteria2 min_contact s f
        (done ++ [(p1, p2)]) m1 m2 :=
    fun m1 m2 h => contact_connected_append distance2vec dist_criteria2 min_contact s f done
      (p1, p2) m1 m2 h
  rcases hcase with ⟨hskip, hst⟩ | ⟨hcond, hcn, hsub⟩
  · subst hst
    refine ⟨hinv.1, ?_, ?_⟩
    · intro m1 m2 a1 a2 b1 b2 hm
      exact hmono m1 m2 (hinv.2.1 m1 m2 a1 a2 b1 b2 hm)
    · intro m1 m2 a1 a2 b1 b2 hm
      obtain ⟨q1, q2⟩ := hinv.2.2 m1 m2 a1 a2 b1 b2 hm
      have hnj : ¬ joins m1 m2 (p1, p2) = true := by
        intro hj
        apply hskip
        rcases (joins_iff m1 m2 (p1, p2)).mp hj with ⟨g1, g2⟩ | ⟨g1, g2⟩
        · simp only at g1 g2
          rw [g1, g2]
          exact ⟨⟨a1, a2⟩, ⟨b1, b2⟩, hm⟩
        · simp only at g1 g2
          rw [g1, g2]
          exact ⟨⟨b1, b2⟩, ⟨a1, a2⟩, Ne.symm hm⟩
      rw [contact_count_append, if_neg (fun h => hnj h.1), Nat.add_zero]
      exact ⟨q1, q2⟩
  · rcases hsub with ⟨hnt, f1, _, _⟩ | ⟨htrig, hmerge⟩
    · refine ⟨hP1, ?_, ?_⟩
      · intro m1 m2 a1 a2 b1 b2 hm
        rw [f1] at hm
        exact hmono m1 m2 (hinv.2.1 m1 m2 a1 a2 b1 b2 hm)
      · intro m1 m2 a1 a2 b1 b2 hm
        rw [f1] at hm
        have hG := contact_after_count distance2vec dist_criteria2 min_contact n_molecules
          s f hs hf done st hinv p1 p2 hcond.1 hcond.2.1 hcond.2.2 m1 m2 ⟨a1, a2⟩ ⟨b1, b2⟩ hm
        rw [hcn]
        refine ⟨hG, ?_⟩
        by_cases hj : joins m1 m2 (p1, p2) = true
        · have hidx := contact_index_of_joins n_molecules m1 m2 p1 p2 hj
          rw [← hG, hidx]
          by_contra hcon
          exact hnt ⟨hcond.1, hcond.2.1, hcond.2.2, not_lt.mp hcon⟩
        · rw [contact_count_append, if_neg (fun h => hj h.1), Nat.add_zero]
          exact (hinv.2.2 m1 m2 a1 a2 b1 b2 hm).2
    · obtain ⟨ca, cb, st2, hca, hcb, hcam, hcbm, hmerge2, _, _, hagg, _, _, _, _, _, _⟩ :=
        agg_merge_spec s f hs fuel hfuel
          { st with contact_num :=
              (contact_after distance2vec dist_criteria2 n_molecules st p1 p2) }
          (partInv_contact s f st _ hinv.1) p1.mol_id p2.mol_id hcond.1 hcond.2.1 hcond.2.2
      have hst : st1 = st2 := Option.some.inj (hmerge.symm.trans hmerge2)
      subst hst
      have hagg1 : ∀ m, st1.agg_id_list m =
          if m ∈ cb then st.agg_id_list p1.mol_id else st.agg_id_list m := hagg
      have hcb1 : ∀ m, m ∈ cb ↔
          (s ≤ m ∧ m ≤ f ∧ st.agg_id_list m = st.agg_id_list p2.mol_id) := hcbm
      have hp1cb : p1.mol_id ∉ cb := fun h => hcond.2.2 ((hcb1 _).mp h).2.2
      have hp2cb : p2.mol_id ∈ cb := (hcb1 _).mpr ⟨hcond.2.1.1, hcond.2.1.2, rfl⟩
      have hGp := contact_after_count distance2vec dist_criteria2 min_contact n_molecules
        s f hs hf done st hinv p1 p2 hcond.1 hcond.2.1 hcond.2.2 p1.mol_id p2.mol_id
        hcond.1 hcond.2.1 hcond.2.2
      have hedge : contact_edge distance2vec dist_criteria2 min_contact s f
          (done ++ [(p1, p2)]) p1.mol_id p2.mol_id := by
        refine ⟨hcond.1, hcond.2.1, fun e => hcond.2.2 (by rw [e]), ?_⟩
        rw [← hGp]
        exact htrig.2.2.2
      have h12 : contact_connected distance2vec dist_criteria2 min_contact s f
          (done ++ [(p1, p2)]) p1.mol_id p2.mol_id := Relation.ReflTransGen.single hedge
      have h21 := contact_connected_symm distance2vec dist_criteria2 min_contact s f
        (done ++ [(p1, p2)]) _ _ h12
      refine ⟨hP1, ?_, ?_⟩
      · intro m1 m2 a1 a2 b1 b2 hm
        rw [hagg1 m1, hagg1 m2] at hm
        by_cases c1 : m1 ∈ cb
        · by_cases c2 : m2 ∈ cb
          · apply hmono
            apply hinv.2.1 m1 m2 a1 a2 b1 b2
            rw [((hcb1 m1).mp c1).2.2, ((hcb1 m2).mp c2).2.2]
          · rw [if_pos c1, if_neg c2] at hm
            have s1 := hmono _ _ (hinv.2.1 m1 p2.mol_id a1 a2 hcond.2.1.1 hcond.2.1.2
              ((hcb1 m1).mp c1).2.2)
            have s3 := hmono _ _ (hinv.2.1 p1.mol_id m2 hcond.1.1 hcond.1.2 b1 b2 hm)
            exact Relation.ReflTransGen.trans s1 (Relation.ReflTransGen.trans h21 s3)
        · by_cases c2 : m2 ∈ cb
          · rw [if_neg c1, if_pos c2] at hm
            have s1 := hmono _ _ (hinv.2.1 m1 p1.mol_id a1 a2 hcond.1.1 hcond.1.2 hm)
            have s3 := hmono _ _ (hinv.2.1 p2.mol_id m2 hcond.2.1.1 hcond.2.1.2 b1 b2
              ((hcb1 m2).mp c2).2.2.symm)
            exact Relation.ReflTransGen.trans s1 (Relation.ReflTransGen.trans h12 s3)
          · rw [if_neg c1, if_neg c2] at hm
            exact hmono m1 m2 (hinv.2.1 m1 m2 a1 a2 b1 b2 hm)
      · intro m1 m2 a1 a2 b1 b2 hm
        have hm0 : st.agg_id_list m1 ≠ st.agg_id_list m2 := by
          intro e
          apply hm
          rw [hagg1 m1, hagg1 m2]
          by_cases c1 : m1 ∈ cb
          · have c2 : m2 ∈ cb := (hcb1 m2).mpr ⟨b1, b2, e ▸ ((hcb1 m1).mp c1).2.2⟩
            rw [if_pos c1, if_pos c2]
          · have c2 : m2 ∉ cb := fun h =>
              c1 ((hcb1 m1).mpr ⟨a1, a2, e.trans ((hcb1 m2).mp h).2.2⟩)
            rw [if_neg c1, if_neg c2]
            exact e
        have hG := contact_after_count distance2vec dist_criteria2 min_contact n_molecules
          s f hs hf done st hinv p1 p2 hcond.1 hcond.2.1 hcond.2.2 m1 m2 ⟨a1, a2⟩ ⟨b1, b2⟩
          hm0
        rw [hcn]
        refine ⟨hG, ?_⟩
        have hnj : ¬ joins m1 m2 (p1, p2) = true := by
          intro hj
          apply hm
          have q1 : st1.agg_id_list p1.mol_id = st.agg_id_list p1.mol_id := by
            rw [hagg1, if_neg hp1cb]
          have q2 : st1.agg_id_list p2.mol_id = st.agg_id_list p1.mol_id := by
            rw [hagg1, if_pos hp2cb]
          rcases (joins_iff m1 m2 (p1, p2)).mp hj with ⟨g1, g2⟩ | ⟨g1, g2⟩
          · simp only at g1 g2
            rw [← g1, ← g2, q1, q2]
          · simp only at g1 g2
            rw [← g1, ← g2, q1, q2]
        rw [contact_count_append, if_neg (fun h => hnj h.1), Nat.add_zero]
        exact (hinv.2.2 m1 m2 a1 a2 b1 b2 hm0).2

end ContactStep

section ComponentClaims

variable {K : Type} [LinearOrderedField K]

/-- The contact-graph invariant holds after the initialisation, with no pair processed. -/
theorem contactInv_init (distance2vec : Vec3 K → Vec3 K → K) (dist_criteria2 : K)
    (min_contact n_molecules s f : Int) (hs : 0 ≤ s) (hf : f < n_molecules)
    (hmin : 1 ≤ min_contact) (st : AggState) :
    ContactInv distance2vec dist_criteria2 min_contact n_molecules s f []
      (agg_init s f (agg_alloc_contact n_molecules st)) := by
  obtain ⟨_, _, i3, _, i5, _, _⟩ := agg_init_spec s f (agg_alloc_contact n_molecules st)
  refine ⟨agg_init_inv s f hs _, ?_, ?_⟩
  · intro m1 m2 a1 a2 b1 b2 hm
    rw [i3 m1, i3 m2, if_pos ⟨a1, a2⟩, if_pos ⟨b1, b2⟩] at hm
    subst hm
    exact Relation.ReflTransGen.refl
  · intro m1 m2 a1 a2 b1 b2 _
    have hblock := contact_index_in_block n_molecules m1 m2 ⟨by omega, by omega⟩
      ⟨by omega, by omega⟩
    rw [i5]
    unfold agg_alloc_contact
    simp only
    rw [if_pos hblock]
    unfold contact_count
    simp only [List.filter_nil, List.length_nil, Nat.cast_zero]
    exact ⟨trivial, by omega⟩

/-- The pair loop returns and keeps the contact-graph invariant. -/
theorem contactInv_pairs (distance2vec : Vec3 K → Vec3 K → K) (dist_criteria2 : K)
    (min_contact n_molecules s f : Int) (hs : 0 ≤ s) (hf : f < n_molecules) (fuel : Nat)
    (hfuel : (f - s + 1).toNat ≤ fuel) (rest : List (Particle K × Particle K)) :
    ∀ (done : List (Particle K × Particle K)) (st : AggState),
      ContactInv distance2vec dist_criteria2 min_contact n_molecules s f done st →
      ∃ st1, agg_pairs distance2vec dist_criteria2 min_contact n_molecules s f fuel
          st rest = some st1 ∧
        ContactInv distance2vec dist_criteria2 min_contact n_molecules s f (done ++ rest)
          st1 ∧
        st1.agg_size = st.agg_size ∧ st1.agg_num = st.agg_num ∧
        st1.agg_avg = st.agg_avg := by
  induction rest with
  | nil =>
    intro done st hinv
    rw [List.append_nil]
    exact ⟨st, rfl, hinv, rfl, rfl, rfl⟩
  | cons pr rest ih =>
    intro done st hinv
    obtain ⟨p1, p2⟩ := pr
    obtain ⟨st1, hstep, hinv1, e1, e2, e3⟩ := contactInv_step distance2vec dist_criteria2
      min_contact n_molecules s f hs hf fuel hfuel done st hinv p1 p2
    obtain ⟨st2, hrest, hinv2, g1, g2, g3⟩ := ih (done ++ [(p1, p2)]) st1 hinv1
    rw [List.append_assoc, List.singleton_append] at hinv2
    refine ⟨st2, ?_, hinv2, g1.trans e1, g2.trans e2, g3.trans e3⟩
    unfold agg_pairs
    rw [hstep]
    exact hrest

/-- The result of `aggregation`: the partition invariant holds, two molecules of the
range share their representative exactly when they are connected in the contact graph,
and `agg_num` has grown by the number of surviving heads. -/
theorem aggregation_core (distance2vec : Vec3 K → Vec3 K → K) (n_molecules : Int)
    (pairs : List (Particle K × Particle K)) (fuel : Nat) (dist_criteria2 : K)
    (min_contact s f : Int) (st : AggState) (hs : 0 ≤ s) (hf : f < n_molecules)
    (hmin : 1 ≤ min_contact) (hfuel : (f - s + 1).toNat ≤ fuel) :
    ∃ r, aggregation distance2vec n_molecules pairs fuel dist_criteria2 min_contact s f st =
        some r ∧
      PartInv s f r ∧
      (∀ m1 m2, s ≤ m1 → m1 ≤ f → s ≤ m2 → m2 ≤ f →
        (r.agg_id_list m1 = r.agg_id_list m2 ↔
          contact_connected distance2vec dist_criteria2 min_contact s f pairs m1 m2)) ∧
      r.agg_num = st.agg_num + ((surviving_heads r.head_list (mol_range s f)).length : Int) := by
  obtain ⟨_, _, _, _, _, i6, _⟩ := agg_init_spec s f (agg_alloc_contact n_molecules st)
  obtain ⟨st1, hpairs, hinv1, _, p2, _⟩ := contactInv_pairs distance2vec dist_criteria2
    min_contact n_molecules s f hs hf fuel hfuel pairs [] _
    (contactInv_init distance2vec dist_criteria2 min_contact n_molecules s f hs hf hmin st)
  rw [List.nil_append] at hinv1
  obtain ⟨st2, hcount, c1, c2, c3, _, c5, _, _⟩ := agg_count_spec s f fuel hfuel
    (mol_range s f) st1 hinv1.1 (fun i hi => (mem_mol_range s f i).mp hi)
  obtain ⟨_, _, t3, t4, t5, t6⟩ := agg_stats_fold st2.agg_num.toNat st2
  have hhead : (agg_stats st2).head_list = st1.head_list := by
    unfold agg_stats; rw [t4, c1]
  have hlink : (agg_stats st2).link_list = st1.link_list := by
    unfold agg_stats; rw [t5, c2]
  have hagg : (agg_stats st2).agg_id_list = st1.agg_id_list := by
    unfold agg_stats; rw [t6, c3]
  refine ⟨agg_stats st2, ?_, partInv_congr s f st1 _ hhead hlink hagg hinv1.1, ?_, ?_⟩
  · unfold aggregation
    simp only [hpairs, hcount]
  · intro m1 m2 a1 a2 b1 b2
    rw [hagg]
    constructor
    · exact hinv1.2.1 m1 m2 a1 a2 b1 b2
    · intro hconn
      unfold contact_connected at hconn
      induction hconn with
      | refl => rfl
      | tail _ hbc ih =>
        obtain ⟨q1, q2, _, q4⟩ := hbc
        rw [ih q1.1 q1.2]
        by_contra hne
        have := (hinv1.2.2 _ _ q1.1 q1.2 q2.1 q2.2 hne).2
        omega
  · rw [hhead]
    have : (agg_stats st2).agg_num = st2.agg_num := by
      unfold agg_stats; rw [t3]
    rw [this, c5, p2, i6]
    rfl

theorem contact_count_eq_zero (distance2vec : Vec3 K → Vec3 K → K) (dist_criteria2 : K)
    (pairs : List (Particle K × Particle K))
    (hfar : ∀ pr ∈ pairs, ¬ distance2vec pr.1.p pr.2.p < dist_criteria2) (m1 m2 : Int) :
    contact_count distance2vec dist_criteria2 pairs m1 m2 = 0 := by
  unfold contact_count
  rw [List.length_eq_zero, List.filter_eq_nil_iff]
  intro pr hpr
  simp [hfar pr hpr]

/-- C4: for a molecule range `[s, f]` within `[0, n_molecules)` and `min_contact ≥ 1`,
`aggregation` returns, and two molecules of the range have the same representative
`agg_id_list` exactly when they are connected in the contact graph (edge between
`m1 ≠ m2` iff at least `min_contact` candidate pairs joining them are below
`dist_criteria2`); `agg_num` grows by the number of connected components, that is by the
size of a set of molecules that meets every component exactly once.  Consequently a
connected contact graph yields exactly one cluster, and if no candidate pair is below the
criterion every molecule is a cluster of its own. -/
theorem aggregation_clusters_are_components (distance2vec : Vec3 K → Vec3 K → K)
    (n_molecules : Int) (pairs : List (Particle K × Particle K)) (fuel : Nat)
    (dist_criteria2 : K) (min_contact s f : Int) (st : AggState) (hs : 0 ≤ s)
    (hf : f < n_molecules) (hmin : 1 ≤ min_contact) (hfuel : (f - s + 1).toNat ≤ fuel) :
    ∃ r, aggregation distance2vec n_molecules pairs fuel dist_criteria2 min_contact s f st =
        some r ∧
      (∀ m1 m2, s ≤ m1 → m1 ≤ f → s ≤ m2 → m2 ≤ f →
        (r.agg_id_list m1 = r.agg_id_list m2 ↔
          contact_connected distance2vec dist_criteria2 min_contact s f pairs m1 m2)) ∧
      (∃ reps : Finset Int, (∀ h ∈ reps, s ≤ h ∧ h ≤ f) ∧
        (∀ m, s ≤ m → m ≤ f → ∃! h, h ∈ reps ∧
          contact_connected distance2vec dist_criteria2 min_contact s f pairs m h) ∧
        r.agg_num = st.agg_num + (reps.card : Int)) ∧
      (s ≤ f →
        (∀ m1 m2, s ≤ m1 → m1 ≤ f → s ≤ m2 → m2 ≤ f →
          contact_connected distance2vec dist_criteria2 min_contact s f pairs m1 m2) →
        r.agg_num = st.agg_num + 1 ∧
        ∀ m1 m2, s ≤ m1 → m1 ≤ f → s ≤ m2 → m2 ≤ f →
          r.agg_id_list m1 = r.agg_id_list m2) ∧
      ((∀ pr ∈ pairs, ¬ distance2vec pr.1.p pr.2.p < dist_criteria2) →
        r.agg_num = st.agg_num + ((f - s + 1).toNat : Int) ∧
        ∀ m1 m2, s ≤ m1 → m1 ≤ f → s ≤ m2 → m2 ≤ f →
          r.agg_id_list m1 = r.agg_id_list m2 → m1 = m2) := by
  obtain ⟨r, hrun, hP, hiff, hnum⟩ := aggregation_core distance2vec n_molecules pairs fuel
    dist_criteria2 min_contact s f st hs hf hmin hfuel
  have hreps_mem : ∀ h, h ∈ (surviving_heads r.head_list (mol_range s f)).toFinset ↔
      (s ≤ h ∧ h ≤ f) ∧ r.head_list h ≠ -2 := by
    intro h
    rw [List.mem_toFinset]
    unfold surviving_heads
    rw [List.mem_filter, mem_mol_range]
    simp
  have htrans : ∀ m, s ≤ m → m ≤ f →
      ∃! h, h ∈ (surviving_heads r.head_list (mol_range s f)).toFinset ∧
        contact_connected distance2vec dist_criteria2 min_contact s f pairs m h := by
    intro m a1 a2
    obtain ⟨l1, l2, l3⟩ := hP.1 m a1 a2
    have hself := (hP.2 _ l1 l2 l3).1
    refine ⟨r.agg_id_list m, ⟨(hreps_mem _).mpr ⟨⟨l1, l2⟩, l3⟩, ?_⟩, ?_⟩
    · exact (hiff m _ a1 a2 l1 l2).mp hself.symm
    · rintro h ⟨hmem, hconn⟩
      obtain ⟨⟨g1, g2⟩, g3⟩ := (hreps_mem h).mp hmem
      have := (hiff m h a1 a2 g1 g2).mpr hconn
      rw [this]
      exact (hP.2 h g1 g2 g3).1.symm
  have hcard : r.agg_num = st.agg_num +
      (((surviving_heads r.head_list (mol_range s f)).toFinset.card : Nat) : Int) := by
    rw [List.toFinset_card_of_nodup (surviving_heads_nodup r.head_list s f)]
    exact hnum
  refine ⟨r, hrun, hiff, ⟨_, fun h hh => ((hreps_mem h).mp hh).1, htrans, hcard⟩, ?_, ?_⟩
  · intro hsf hall
    constructor
    · rw [hcard]
      obtain ⟨h0, ⟨hmem0, _⟩, _⟩ := htrans s (le_refl s) hsf
      have hone : (surviving_heads r.head_list (mol_range s f)).toFinset = {h0} := by
        ext h
        rw [Finset.mem_singleton]
        constructor
        · intro hh
          obtain ⟨g1, g2⟩ := ((hreps_mem h).mp hh).1
          obtain ⟨k1, k2⟩ := ((hreps_mem h0).mp hmem0).1
          exact (htrans s (le_refl s) hsf).unique ⟨hh, hall s h (le_refl s) hsf g1 g2⟩
            ⟨hmem0, hall s h0 (le_refl s) hsf k1 k2⟩
        · intro e
          rw [e]
          exact hmem0
      rw [hone, Finset.card_singleton]
      rfl
    · intro m1 m2 a1 a2 b1 b2
      exact (hiff m1 m2 a1 a2 b1 b2).mpr (hall m1 m2 a1 a2 b1 b2)
  · intro hfar
    have hnoedge : ∀ m1 m2,
        contact_connected distance2vec dist_criteria2 min_contact s f pairs m1 m2 →
        m1 = m2 := by
      intro m1 m2 hconn
      unfold contact_connected at hconn
      induction hconn with
      | refl => rfl
      | tail _ hbc _ =>
        obtain ⟨_, _, _, q4⟩ := hbc
        rw [contact_count_eq_zero distance2vec dist_criteria2 pairs hfar] at q4
        simp only [Nat.cast_zero] at q4
        omega
    constructor
    · rw [hcard]
      have hall : (surviving_heads r.head_list (mol_range s f)).toFinset =
          Finset.Icc s f := by
        ext h
        rw [Finset.mem_Icc]
        constructor
        · intro hh
          exact ((hreps_mem h).mp hh).1
        · rintro ⟨g1, g2⟩
          obtain ⟨h0, ⟨hmem0, hconn0⟩, _⟩ := htrans h g1 g2
          rw [hnoedge h h0 hconn0]
          exact hmem0
      rw [hall, Int.card_Icc]
      have : f + 1 - s = f - s + 1 := by ring
      rw [this]
    · intro m1 m2 a1 a2 b1 b2 hm
      exact hnoedge m1 m2 ((hiff m1 m2 a1 a2 b1 b2).mp hm)

theorem aggregation_clusters_are_components_witness :
    (0 : Int) ≤ 0 ∧ (3 : Int) < 4 ∧ (1 : Int) ≤ 1 ∧ ((3 : Int) - 0 + 1).toNat ≤ 4 ∧
    ∃ r, aggregation (distance2vec_plain : Vec3 ℚ → Vec3 ℚ → ℚ) 4
        [(mol_particle 0 0, mol_particle 1 1), (mol_particle 2 5, mol_particle 3 6),
          (mol_particle 1 1, mol_particle 2 (3 / 2))] 4 2 1 0 3 (caller_state 4 77) =
        some r ∧
      (∀ m1 m2, (0 : Int) ≤ m1 → m1 ≤ 3 → (0 : Int) ≤ m2 → m2 ≤ 3 →
        (r.agg_id_list m1 = r.agg_id_list m2 ↔
          contact_connected (distance2vec_plain : Vec3 ℚ → Vec3 ℚ → ℚ) 2 1 0 3
            [(mol_particle 0 0, mol_particle 1 1), (mol_particle 2 5, mol_particle 3 6),
              (mol_particle 1 1, mol_particle 2 (3 / 2))] m1 m2)) ∧
      (∃ reps : Finset Int, (∀ h ∈ reps, (0 : Int) ≤ h ∧ h ≤ 3) ∧
        (∀ m, (0 : Int) ≤ m → m ≤ 3 → ∃! h, h ∈ reps ∧
          contact_connected (distance2vec_plain : Vec3 ℚ → Vec3 ℚ → ℚ) 2 1 0 3
            [(mol_particle 0 0, mol_particle 1 1), (mol_particle 2 5, mol_particle 3 6),
              (mol_particle 1 1, mol_particle 2 (3 / 2))] m h) ∧
        r.agg_num = (caller_state 4 77).agg_num + (reps.card : Int)) := by
  obtain ⟨r, h1, h2, h3, _⟩ := aggregation_clusters_are_components
    (distance2vec_plain : Vec3 ℚ → Vec3 ℚ → ℚ) 4
    [(mol_particle 0 0, mol_particle 1 1), (mol_particle 2 5, mol_particle 3 6),
      (mol_particle 1 1, mol_particle 2 (3 / 2))] 4 2 1 0 3 (caller_state 4 77)
    (by decide) (by decide) (by decide) (by decide)
  exact ⟨by decide, by decide, by decide, by decide, r, h1, h2, h3⟩

end ComponentClaims

/-! ## Proofs: the rdf functions -/

section RdfLoops

variable {K : Type} [LinearOrderedField K] [FloorRing K]

theorem foldl_flatMap_eq {α β γ : Type} (l : List α) (f : α → List β) (g : γ → β → γ)
    (init : γ) :
    (l.flatMap f).foldl g init = l.foldl (fun acc a => (f a).foldl g acc) init := by
  induction l generalizing init with
  | nil => rfl
  | cons a t ih =>
    rw [List.flatMap_cons, List.foldl_append, List.foldl_cons, ih]

/-- The nested loops run the innermost block once for every examined pair, in order. -/
theorem rdf_pair_loops_eq_fold {A : Type} (partCfg : List (Particle K))
    (p1_types p2_types : List Int) (mixed_flag : Int)
    (body : Nat → Particle K → Nat → Particle K → A → A) (acc : A) :
    rdf_pair_loops partCfg p1_types p2_types mixed_flag body acc =
      (rdf_examined partCfg p1_types p2_types mixed_flag).foldl
        (fun acc e => body e.1.1 e.1.2 e.2.1 e.2.2 acc) acc := by
  unfold rdf_pair_loops rdf_examined
  rw [foldl_flatMap_eq]
  congr 1
  funext acc i
  cases partCfg[i]? with
  | none => rfl
  | some pi =>
    dsimp only
    rw [foldl_flatMap_eq]
    congr 1
    funext acc ty1
    by_cases h1 : pi.type = ty1
    · rw [if_pos h1, if_pos h1, foldl_flatMap_eq]
      congr 1
      funext acc j
      cases partCfg[j]? with
      | none => rfl
      | some pj =>
        dsimp only
        rw [foldl_flatMap_eq]
        congr 1
        funext acc ty2
        by_cases h2 : pj.type = ty2
        · rw [if_pos h2, if_pos h2]
          rfl
        · rw [if_neg h2, if_neg h2]
          rfl
    · rw [if_neg h1, if_neg h1]
      rfl

/-- Folding the histogram block over a list of pairs: `cnt` grows by the number of pairs,
and entry `b` by the number of pairs in `(r_min, r_max)` whose index is `b`. -/
theorem hist_fold (r_min r_max inv_bin_width : K) (dist_of : RdfPair K → K) :
    ∀ (pairs : List (RdfPair K)) (acc : RdfAcc K),
      (pairs.foldl (fun acc e => calc_rdf_pair r_min r_max inv_bin_width (dist_of e) acc)
          acc).cnt = acc.cnt + (pairs.length : Int) ∧
      ∀ b, (pairs.foldl (fun acc e => calc_rdf_pair r_min r_max inv_bin_width (dist_of e) acc)
          acc).rdf b = acc.rdf b +
        ((pairs.filter (fun e => decide (dist_of e > r_min ∧ dist_of e < r_max ∧
          c_int_cast ((dist_of e - r_min) * inv_bin_width) = b))).length : K) := by
  intro pairs
  induction pairs with
  | nil =>
    intro acc
    simp
  | cons e t ih =>
    intro acc
    obtain ⟨h1, h2⟩ := ih (calc_rdf_pair r_min r_max inv_bin_width (dist_of e) acc)
    rw [List.foldl_cons]
    constructor
    · rw [h1]
      simp only [calc_rdf_pair, List.length_cons]
      push_cast
      ring
    · intro b
      rw [h2 b]
      by_cases hin : dist_of e > r_min ∧ dist_of e < r_max
      · by_cases hb : c_int_cast ((dist_of e - r_min) * inv_bin_width) = b
        · rw [List.filter_cons_of_pos (by simp [hin.1, hin.2, hb])]
          simp only [calc_rdf_pair, if_pos hin, List.length_cons]
          rw [hb, Function.update_same]
          push_cast
          ring
        · rw [List.filter_cons_of_neg (by simp [hb])]
          simp only [calc_rdf_pair, if_pos hin]
          rw [Function.update_noteq (Ne.symm hb)]
      · rw [List.filter_cons_of_neg (by
          simp only [decide_eq_true_eq]
          exact fun h => hin ⟨h.1, h.2.1⟩)]
        simp only [calc_rdf_pair, if_neg hin]

/-- For a distance above `r_min` and a positive bin width the index computed by the code
is the floor of `(d - r_min) / bin_width`. -/
theorem c_int_cast_bin (r_min bin_width d : K) (hbw : 0 < bin_width) (hd : r_min < d) :
    c_int_cast ((d - r_min) * (1 / bin_width)) = ⌊(d - r_min) / bin_width⌋ := by
  have heq : (d - r_min) * (1 / bin_width) = (d - r_min) / bin_width := by
    rw [mul_one_div]
  rw [heq]
  unfold c_int_cast
  rw [if_pos (div_nonneg (by linarith) (le_of_lt hbw))]

end RdfLoops

section RdfClaims

variable {K : Type} [LinearOrderedField K] [FloorRing K]

theorem rdf_flag_fold (p1_types p2_types : List Int) (l : List Nat) (init : Int)
    (hinit : init = 0 ∨ init = 1) :
    ((l.foldl (fun mixed_flag i => if p1_types[i]? ≠ p2_types[i]? then 1 else mixed_flag)
        init = 0 ∨
      l.foldl (fun mixed_flag i => if p1_types[i]? ≠ p2_types[i]? then 1 else mixed_flag)
        init = 1)) ∧
    (l.foldl (fun mixed_flag i => if p1_types[i]? ≠ p2_types[i]? then 1 else mixed_flag)
        init = 0 ↔ init = 0 ∧ ∀ i ∈ l, p1_types[i]? = p2_types[i]?) := by
  induction l generalizing init with
  | nil => simp [hinit]
  | cons a t ih =>
    rw [List.foldl_cons]
    by_cases h : p1_types[a]? ≠ p2_types[a]?
    · rw [if_pos h]
      obtain ⟨g1, g2⟩ := ih 1 (Or.inr rfl)
      refine ⟨g1, ?_⟩
      rw [g2]
      constructor
      · rintro ⟨h1, _⟩
        exact absurd h1 (by decide)
      · rintro ⟨_, h2⟩
        exact absurd (h2 a (List.mem_cons_self _ _)) h
    · rw [if_neg h]
      obtain ⟨g1, g2⟩ := ih init hinit
      refine ⟨g1, ?_⟩
      rw [g2]
      constructor
      · rintro ⟨h1, h2⟩
        refine ⟨h1, ?_⟩
        intro i hi
        rcases List.mem_cons.mp hi with e | e
        · rw [e]
          exact not_not.mp h
        · exact h2 i e
      · rintro ⟨h1, h2⟩
        exact ⟨h1, fun i hi => h2 i (List.mem_cons_of_mem _ hi)⟩

/-- The flag is 0 or 1, and it is 0 exactly for equal lists. -/
theorem rdf_mixed_flag_spec (p1_types p2_types : List Int) :
    (rdf_mixed_flag p1_types p2_types = 0 ∨ rdf_mixed_flag p1_types p2_types = 1) ∧
    (rdf_mixed_flag p1_types p2_types = 0 ↔
      (p1_types.length = p2_types.length ∧
        ∀ i, i < p1_types.length → p1_types[i]? = p2_types[i]?)) ∧
    (rdf_mixed_flag p1_types p2_types = 0 ↔ p1_types = p2_types) := by
  have hfold := rdf_flag_fold p1_types p2_types (List.range p1_types.length) 0 (Or.inl rfl)
  have hmain : rdf_mixed_flag p1_types p2_types = 0 ↔
      (p1_types.length = p2_types.length ∧
        ∀ i, i < p1_types.length → p1_types[i]? = p2_types[i]?) := by
    unfold rdf_mixed_flag
    by_cases hlen : p1_types.length = p2_types.length
    · rw [if_pos hlen, hfold.2]
      simp only [true_and, List.mem_range, hlen]
    · rw [if_neg hlen]
      constructor
      · intro h
        exact absurd h (by decide)
      · rintro ⟨h, _⟩
        exact absurd h hlen
  refine ⟨?_, hmain, ?_⟩
  · unfold rdf_mixed_flag
    split_ifs
    · exact hfold.1
    · exact Or.inr rfl
  · rw [hmain]
    constructor
    · rintro ⟨hlen, hel⟩
      apply List.ext_getElem?
      intro i
      by_cases hi : i < p1_types.length
      · exact hel i hi
      · rw [List.getElem?_eq_none (by omega), List.getElem?_eq_none (by omega)]
    · intro e
      subst e
      exact ⟨rfl, fun _ _ => rfl⟩

/-- The examined pairs are exactly the pairs of a particle whose type is in `p1_types` and
a particle whose type is in `p2_types` with the second index at least `rdf_start`. -/
theorem mem_rdf_examined (partCfg : List (Particle K)) (p1_types p2_types : List Int)
    (mixed_flag : Int) (e : RdfPair K) :
    e ∈ rdf_examined partCfg p1_types p2_types mixed_flag ↔
      partCfg[e.1.1]? = some e.1.2 ∧ partCfg[e.2.1]? = some e.2.2 ∧
      e.1.2.type ∈ p1_types ∧ e.2.2.type ∈ p2_types ∧
      rdf_start mixed_flag e.1.1 ≤ e.2.1 := by
  obtain ⟨⟨i, pi⟩, ⟨j, pj⟩⟩ := e
  unfold rdf_examined
  simp only [List.mem_flatMap, List.mem_range]
  constructor
  · rintro ⟨i2, hi2, hmem⟩
    cases hpi : partCfg[i2]? with
    | none => rw [hpi] at hmem; simp at hmem
    | some pi2 =>
      rw [hpi] at hmem
      simp only [List.mem_flatMap] at hmem
      obtain ⟨ty1, hty1, hmem⟩ := hmem
      by_cases h1 : pi2.type = ty1
      · rw [if_pos h1] at hmem
        simp only [List.mem_flatMap, List.mem_range'_1] at hmem
        obtain ⟨j2, hj2, hmem⟩ := hmem
        cases hpj : partCfg[j2]? with
        | none => rw [hpj] at hmem; simp at hmem
        | some pj2 =>
          rw [hpj] at hmem
          simp only [List.mem_flatMap] at hmem
          obtain ⟨ty2, hty2, hmem⟩ := hmem
          by_cases h2 : pj2.type = ty2
          · rw [if_pos h2] at hmem
            simp only [List.mem_singleton, Prod.mk.injEq] at hmem
            obtain ⟨⟨e1, e2⟩, e3, e4⟩ := hmem
            subst e1 e2 e3 e4
            exact ⟨hpi, hpj, h1 ▸ hty1, h2 ▸ hty2, hj2.1⟩
          · rw [if_neg h2] at hmem
            simp at hmem
      · rw [if_neg h1] at hmem
        simp at hmem
  · rintro ⟨hpi, hpj, hty1, hty2, hstart⟩
    have hi : i < partCfg.length := (List.getElem?_eq_some.mp hpi).1
    have hj : j < partCfg.length := (List.getElem?_eq_some.mp hpj).1
    refine ⟨i, hi, ?_⟩
    rw [hpi]
    simp only [List.mem_flatMap]
    refine ⟨pi.type, hty1, ?_⟩
    rw [if_pos rfl]
    simp only [List.mem_flatMap, List.mem_range'_1]
    refine ⟨j, ⟨hstart, by omega⟩, ?_⟩
    rw [hpj]
    simp only [List.mem_flatMap]
    refine ⟨pj.type, hty2, ?_⟩
    rw [if_pos rfl]
    exact List.mem_singleton.mpr rfl

/-- C9: `calc_rdf` uses non-mixed mode exactly when the two type lists have the same
length and are equal element by element in the given order (`mixed_flag` is 0 or 1, and
0 iff the lists are equal); then it examines exactly the qualifying pairs with second
index `j > i`.  In every other case, including lists with the same members in a different
order such as `[0, 1]` and `[1, 0]`, it examines every qualifying ordered pair with `j`
ranging over all particles; `cnt` is the number of examined pairs. -/
theorem calc_rdf_mixed_mode_iff_lists_differ (sqrt : K → K) (box_l : Vec3 K)
    (partCfg : List (Particle K)) (p1_types p2_types : List Int) (r_min r_max : K)
    (r_bins : Int) (rdf0 : Int → K) :
    (rdf_mixed_flag p1_types p2_types = 0 ∨ rdf_mixed_flag p1_types p2_types = 1) ∧
    (rdf_mixed_flag p1_types p2_types = 0 ↔
      (p1_types.length = p2_types.length ∧
        ∀ i, i < p1_types.length → p1_types[i]? = p2_types[i]?)) ∧
    ((p1_types.length = p2_types.length ∧
        ∀ i, i < p1_types.length → p1_types[i]? = p2_types[i]?) →
      ∀ e : RdfPair K,
        e ∈ rdf_examined partCfg p1_types p2_types (rdf_mixed_flag p1_types p2_types) ↔
          partCfg[e.1.1]? = some e.1.2 ∧ partCfg[e.2.1]? = some e.2.2 ∧
          e.1.2.type ∈ p1_types ∧ e.2.2.type ∈ p2_types ∧ e.1.1 < e.2.1) ∧
    (¬ (p1_types.length = p2_types.length ∧
        ∀ i, i < p1_types.length → p1_types[i]? = p2_types[i]?) →
      ∀ e : RdfPair K,
        e ∈ rdf_examined partCfg p1_types p2_types (rdf_mixed_flag p1_types p2_types) ↔
          partCfg[e.1.1]? = some e.1.2 ∧ partCfg[e.2.1]? = some e.2.2 ∧
          e.1.2.type ∈ p1_types ∧ e.2.2.type ∈ p2_types) ∧
    (calc_rdf_raw sqrt box_l partCfg p1_types p2_types r_min r_max r_bins rdf0).cnt =
      ((rdf_examined partCfg p1_types p2_types
        (rdf_mixed_flag p1_types p2_types)).length : Int) ∧
    rdf_mixed_flag [0, 1] [1, 0] = 1 := by
  obtain ⟨h01, hiff, _⟩ := rdf_mixed_flag_spec p1_types p2_types
  refine ⟨h01, hiff, ?_, ?_, ?_, by decide⟩
  · intro heq e
    rw [mem_rdf_examined]
    have h0 := hiff.mpr heq
    unfold rdf_start
    rw [h0, if_neg (by decide)]
    constructor
    · rintro ⟨a1, a2, a3, a4, a5⟩
      exact ⟨a1, a2, a3, a4, by omega⟩
    · rintro ⟨a1, a2, a3, a4, a5⟩
      exact ⟨a1, a2, a3, a4, by omega⟩
  · intro hne e
    rw [mem_rdf_examined]
    have h1 : rdf_mixed_flag p1_types p2_types = 1 := by
      rcases h01 with h | h
      · exact absurd (hiff.mp h) hne
      · exact h
    unfold rdf_start
    rw [h1, if_pos rfl]
    constructor
    · rintro ⟨a1, a2, a3, a4, _⟩
      exact ⟨a1, a2, a3, a4⟩
    · rintro ⟨a1, a2, a3, a4⟩
      exact ⟨a1, a2, a3, a4, Nat.zero_le _⟩
  · unfold calc_rdf_raw
    dsimp only
    rw [rdf_pair_loops_eq_fold]
    have := (hist_fold r_min r_max (1 / ((r_max - r_min) / (r_bins : K)))
      (live_dist sqrt box_l)
      (rdf_examined partCfg p1_types p2_types (rdf_mixed_flag p1_types p2_types))
      { rdf := rdf_clear r_bins rdf0, cnt := 0 }).1
    simp only [zero_add] at this
    exact this

end RdfClaims

section RdfAverage

variable {K : Type} [LinearOrderedField K] [FloorRing K]

theorem foldl_if_eq_filter {α β : Type} (p : α → Bool) (g : β → α → β) (l : List α)
    (init : β) :
    l.foldl (fun acc a => if p a = true then g acc a else acc) init =
      (l.filter p).foldl g init := by
  induction l generalizing init with
  | nil => rfl
  | cons a t ih =>
    rw [List.foldl_cons]
    by_cases h : p a = true
    · rw [if_pos h, List.filter_cons_of_pos h, List.foldl_cons]
      exact ih _
    · rw [if_neg h, List.filter_cons_of_neg h]
      exact ih _

/-- The particle loops of `calc_rdf_intermol_av` are those of `calc_rdf_av` restricted to
the examined pairs with different molecule ids. -/
theorem calc_rdf_intermol_av_frame_eq_fold (sqrt : K → K) (box_l : Vec3 K)
    (partCfg : List (Particle K)) (p1_types p2_types : List Int)
    (r_min r_max inv_bin_width : K) (mixed_flag r_bins : Int) (frame : Snapshot K)
    (rdf_tmp : Int → K) :
    calc_rdf_intermol_av_frame sqrt box_l partCfg p1_types p2_types r_min r_max
        inv_bin_width mixed_flag r_bins frame rdf_tmp =
      ((rdf_examined partCfg p1_types p2_types mixed_flag).filter
          (fun e => decide (e.1.2.mol_id ≠ e.2.2.mol_id))).foldl
        (fun acc e => calc_rdf_pair r_min r_max inv_bin_width
          (frame_dist sqrt box_l frame e) acc)
        { rdf := rdf_clear r_bins rdf_tmp, cnt := 0 } := by
  unfold calc_rdf_intermol_av_frame
  rw [rdf_pair_loops_eq_fold, ← foldl_if_eq_filter]
  congr 1
  funext acc e
  by_cases h : e.1.2.mol_id ≠ e.2.2.mol_id
  · rw [if_pos h, if_pos (by simpa using h)]
    rfl
  · rw [if_neg h, if_neg (by simpa using h)]

end RdfAverage

/-! ## Proofs: `calc_part_distribution` -/

section PartDistLemmas

variable {K : Type} [LinearOrderedField K] [FloorRing K]

end PartDistLemmas

section PartDistNearest

variable {K : Type} [LinearOrderedField K] [FloorRing K]

end PartDistNearest

section PartDistClaims

variable {K : Type} [LinearOrderedField K] [FloorRing K]

end PartDistClaims

section PartDistExample

variable {K : Type} [LinearOrderedField K] [FloorRing K]

end PartDistExample

/-! ## Proofs: the configuration history -/

section ShiftLemmas

variable {K : Type} [LinearOrderedField K] [FloorRing K]

/-- After `t` rounds of the shift loop from `ind` the blocks `ind, ..., ind + t - 1` hold
what was one place higher, the others are untouched. -/
theorem shift_rounds (cs : List (Snapshot K)) (ind : Nat) :
    ∀ t : Nat, ind + t < cs.length →
      ((List.range' ind t).foldl
        (fun cs (i : Nat) =>
          match cs[i + 1]? with
          | some s => cs.set i s
          | none => cs) cs).length = cs.length ∧
      ∀ p : Nat, ((List.range' ind t).foldl
        (fun cs (i : Nat) =>
          match cs[i + 1]? with
          | some s => cs.set i s
          | none => cs) cs)[p]? =
        if ind ≤ p ∧ p < ind + t then cs[p + 1]? else cs[p]? := by
  intro t
  induction t with
  | zero =>
    intro _
    refine ⟨rfl, ?_⟩
    intro p
    rw [if_neg (by omega)]
    rfl
  | succ t ih =>
    intro ht
    obtain ⟨hlen, hget⟩ := ih (by omega)
    rw [List.range'_1_concat, List.foldl_append, List.foldl_cons, List.foldl_nil]
    have ht1 : ind + t + 1 < cs.length := by omega
    have hnext := hget (ind + t + 1)
    rw [if_neg (by omega), List.getElem?_eq_getElem ht1] at hnext
    rw [hnext]
    dsimp only
    refine ⟨by rw [List.length_set, hlen], ?_⟩
    intro p
    rw [List.getElem?_set, hlen]
    by_cases hp : ind + t = p
    · subst hp
      rw [if_pos rfl, if_pos (by omega), if_pos (by omega), List.getElem?_eq_getElem ht1]
    · rw [if_neg hp, hget p]
      by_cases hr : ind ≤ p ∧ p < ind + t
      · rw [if_pos hr, if_pos (by omega)]
      · rw [if_neg hr, if_neg (by omega)]

theorem shift_down_length (cs : List (Snapshot K)) (ind : Nat) (h : ind < cs.length) :
    (shift_down cs ind).length = cs.length :=
  (shift_rounds cs ind (cs.length - 1 - ind) (by omega)).1

theorem shift_down_getElem? (cs : List (Snapshot K)) (ind : Nat) (h : ind < cs.length)
    (p : Nat) :
    (shift_down cs ind)[p]? = if ind ≤ p ∧ p < cs.length - 1 then cs[p + 1]? else cs[p]? := by
  unfold shift_down
  rw [(shift_rounds cs ind (cs.length - 1 - ind) (by omega)).2 p]
  by_cases hr : ind ≤ p ∧ p < cs.length - 1
  · rw [if_pos hr, if_pos (by omega)]
  · rw [if_neg hr, if_neg (by omega)]

/-- The shift loop followed by dropping the last block removes block `ind`. -/
theorem shift_down_take (cs : List (Snapshot K)) (ind : Nat) (h : ind < cs.length) :
    (shift_down cs ind).take (cs.length - 1) = cs.eraseIdx ind := by
  apply List.ext_getElem?
  intro p
  rw [List.getElem?_eraseIdx]
  by_cases hp : p < cs.length - 1
  · rw [List.getElem?_take_of_lt hp, shift_down_getElem? cs ind h]
    by_cases hi : p < ind
    · rw [if_neg (by omega), if_pos hi]
    · rw [if_pos (by omega), if_neg hi]
  · rw [List.getElem?_eq_none (by rw [List.length_take, shift_down_length cs ind h]; omega)]
    by_cases hi : p < ind
    · omega
    · rw [if_neg hi, List.getElem?_eq_none (by omega)]

/-- The shift loop from 0 followed by the write of the last block drops the oldest block
and puts the new one at the end. -/
theorem shift_down_set_last (cs : List (Snapshot K)) (x : Snapshot K) (h : 0 < cs.length) :
    (shift_down cs 0).set (cs.length - 1) x = cs.tail ++ [x] := by
  apply List.ext_getElem?
  intro p
  rw [List.getElem?_set, shift_down_length cs 0 h, shift_down_getElem? cs 0 h,
    List.getElem?_append, List.length_tail]
  by_cases hp : cs.length - 1 = p
  · rw [if_pos hp, if_pos (by omega), if_neg (by omega), ← hp, Nat.sub_self]
    rfl
  · rw [if_neg hp]
    by_cases hlt : p < cs.length - 1
    · rw [if_pos ⟨Nat.zero_le _, hlt⟩, if_pos hlt, List.getElem?_tail]
    · rw [if_neg (by omega), if_neg hlt, List.getElem?_eq_none (by omega),
        List.getElem?_eq_none (by simp; omega)]

end ShiftLemmas

section RemoveClaims

variable {K : Type} [LinearOrderedField K] [FloorRing K]

theorem analyze_remove_eq (h : History K) (ind : Int) (h0 : 0 ≤ ind)
    (h1 : ind < h.n_configs) :
    analyze_remove h ind =
      some { configs := h.configs.eraseIdx ind.toNat,
             n_part_conf := if h.n_configs - 1 = 0 then 0 else h.n_part_conf } := by
  unfold analyze_remove
  rw [if_pos ⟨h0, h1⟩]
  have hlt : ind.toNat < h.configs.length := by
    unfold History.n_configs at h1
    omega
  rw [shift_down_take h.configs ind.toNat hlt]

theorem analyze_push_eq (live : LiveStore K) (h : History K) (hn : h.configs.length ≠ 0) :
    analyze_push live h =
      some { configs := h.configs.tail ++ [live_snapshot live],
             n_part_conf := n_total_particles live } := by
  unfold analyze_push
  rw [if_neg hn, shift_down_set_last h.configs _ (by omega)]

/-- C18: for a history with `n ≥ 1` stored configurations and `0 ≤ ind < n`,
`analyze_remove(ind)` leaves `n - 1` configurations, the entries before `ind` unchanged,
each entry formerly at a position `p > ind` now at `p - 1`, and `n_part_conf` is 0 when
the history became empty and unchanged otherwise. -/
theorem analyze_remove_shifts_entries_down (h : History K) (ind : Int) (h0 : 0 ≤ ind)
    (h1 : ind < h.n_configs) :
    ∃ r : History K, analyze_remove h ind = some r ∧
      r.n_configs = h.n_configs - 1 ∧
      r.configs = h.configs.eraseIdx ind.toNat ∧
      (∀ p : Nat, (p : Int) < ind → r.configs[p]? = h.configs[p]?) ∧
      (∀ p : Nat, ind < (p : Int) → (p : Int) < h.n_configs →
        r.configs[p - 1]? = h.configs[p]?) ∧
      (r.n_configs = 0 → r.n_part_conf = 0) ∧
      (r.n_configs ≠ 0 → r.n_part_conf = h.n_part_conf) := by
  refine ⟨_, analyze_remove_eq h ind h0 h1, ?_, rfl, ?_, ?_, ?_, ?_⟩
  · unfold History.n_configs at *
    dsimp only
    rw [List.length_eraseIdx, if_pos (by omega)]
    omega
  · intro p hp
    dsimp only
    rw [List.getElem?_eraseIdx, if_pos (by omega)]
  · intro p hp _
    dsimp only
    rw [List.getElem?_eraseIdx, if_neg (by omega)]
    congr 1
    omega
  · intro hr
    unfold History.n_configs at *
    dsimp only at hr ⊢
    rw [List.length_eraseIdx, if_pos (by omega)] at hr
    rw [if_pos (by omega)]
  · intro hr
    unfold History.n_configs at *
    dsimp only at hr ⊢
    rw [List.length_eraseIdx, if_pos (by omega)] at hr
    rw [if_neg (by omega)]

theorem analyze_remove_shifts_entries_down_witness :
    (0 : Int) ≤ 2 ∧
      (2 : Int) < (⟨[[⟨1, 0, 0⟩], [⟨2, 0, 0⟩], [⟨3, 0, 0⟩], [⟨4, 0, 0⟩], [⟨5, 0, 0⟩]], 1⟩ :
        History ℚ).n_configs ∧
      ∃ r : History ℚ,
        analyze_remove (⟨[[⟨1, 0, 0⟩], [⟨2, 0, 0⟩], [⟨3, 0, 0⟩], [⟨4, 0, 0⟩], [⟨5, 0, 0⟩]],
          1⟩ : History ℚ) 2 = some r ∧
        r.configs = [[⟨1, 0, 0⟩], [⟨2, 0, 0⟩], [⟨4, 0, 0⟩], [⟨5, 0, 0⟩]] ∧
        r.n_part_conf = 1 := by
  refine ⟨by decide, by decide, ?_⟩
  obtain ⟨r, hr, _, hc, _, _, _, hn⟩ := analyze_remove_shifts_entries_down
    (⟨[[⟨1, 0, 0⟩], [⟨2, 0, 0⟩], [⟨3, 0, 0⟩], [⟨4, 0, 0⟩], [⟨5, 0, 0⟩]], 1⟩ : History ℚ) 2
    (by decide) (by decide)
  refine ⟨r, hr, ?_, ?_⟩
  · rw [hc]
    rfl
  · rw [hn (by unfold History.n_configs; rw [hc]; decide)]

end RemoveClaims

section ActivateClaims

variable {K : Type} [LinearOrderedField K] [FloorRing K] {σ : Type}

/-- The state of `analyze_activate` after the first `n` rounds of its loop. -/
theorem analyze_activate_rounds (place_particle : σ → Int → Vec3 K → Int × σ)
    (n_total : Int) (h : History K) (ind : Int) (store : σ) (n : Nat) :
    ((List.range n).foldl
      (fun (acc : Activation σ K) (i : Nat) =>
        { acc with
          store := (place_particle acc.store (i : Int)
            (snapshot_pos (config_at h.configs ind) i)).2
          writes := acc.writes ++ [((i : Int), snapshot_pos (config_at h.configs ind) i,
            (place_particle acc.store (i : Int)
              (snapshot_pos (config_at h.configs ind) i)).1)]
          errors :=
            if (place_particle acc.store (i : Int)
                (snapshot_pos (config_at h.configs ind) i)).1 = TCL_ERROR
            then acc.errors ++ [(i : Int)] else acc.errors })
      { store := store, writes := [], errors := [], n_part_conf := n_total }) =
    { store := store_after place_particle h ind store n,
      writes := (List.range n).map (fun (i : Nat) =>
        ((i : Int), snapshot_pos (config_at h.configs ind) i,
          (place_particle (store_after place_particle h ind store i) (i : Int)
            (snapshot_pos (config_at h.configs ind) i)).1)),
      errors := ((List.range n).filter (fun (i : Nat) =>
        decide ((place_particle (store_after place_particle h ind store i) (i : Int)
          (snapshot_pos (config_at h.configs ind) i)).1 = TCL_ERROR))).map
          (fun (i : Nat) => (i : Int)),
      n_part_conf := n_total } := by
  induction n with
  | zero => rfl
  | succ n ih =>
    rw [List.range_succ, List.foldl_append, List.foldl_cons, List.foldl_nil, ih]
    dsimp only
    rw [List.map_append, List.filter_append, List.map_append]
    by_cases hf : (place_particle (store_after place_particle h ind store n) (n : Int)
        (snapshot_pos (config_at h.configs ind) n)).1 = TCL_ERROR
    · rw [if_pos hf, List.filter_cons_of_pos (by simpa using hf)]
      rfl
    · rw [if_neg hf, List.filter_cons_of_neg (by simpa using hf)]
      simp only [List.filter_nil, List.map_nil, List.append_nil]
      rfl

/-- C19: `analyze_activate(ind)` calls `place_particle` once for every particle
`0, ..., n_part_conf - 1`, in increasing order, each with the position stored for that
particle in configuration `ind`, whatever the earlier calls returned; it records a runtime
error exactly for the calls that returned `TCL_ERROR`, so the number of recorded errors is
the number of failed writes. -/
theorem analyze_activate_attempts_every_write
    (place_particle : σ → Int → Vec3 K → Int × σ) (n_total : Int) (h : History K)
    (ind : Int) (store : σ) :
    (analyze_activate place_particle n_total h ind store).n_part_conf = n_total ∧
    (analyze_activate place_particle n_total h ind store).writes.map
        (fun w => (w.1, w.2.1)) =
      (List.range n_total.toNat).map (fun (i : Nat) =>
        ((i : Int), snapshot_pos (config_at h.configs ind) i)) ∧
    (analyze_activate place_particle n_total h ind store).writes =
      (List.range n_total.toNat).map (fun (i : Nat) =>
        ((i : Int), snapshot_pos (config_at h.configs ind) i,
          (place_particle (store_after place_particle h ind store i) (i : Int)
            (snapshot_pos (config_at h.configs ind) i)).1)) ∧
    (analyze_activate place_particle n_total h ind store).store =
      store_after place_particle h ind store n_total.toNat ∧
    (analyze_activate place_particle n_total h ind store).errors =
      ((analyze_activate place_particle n_total h ind store).writes.filter
        (fun w => decide (w.2.2 = TCL_ERROR))).map (fun w => w.1) ∧
    (analyze_activate place_particle n_total h ind store).errors.length =
      ((analyze_activate place_particle n_total h ind store).writes.filter
        (fun w => decide (w.2.2 = TCL_ERROR))).length ∧
    (∀ (frame : Snapshot K) (i : Nat) (v : Vec3 K), 0 ≤ ind →
      h.configs[ind.toNat]? = some frame → frame[i]? = some v →
      snapshot_pos (config_at h.configs ind) i = v) := by
  have hfold := analyze_activate_rounds place_particle n_total h ind store n_total.toNat
  have hval : analyze_activate place_particle n_total h ind store = _ := hfold
  have herr : (analyze_activate place_particle n_total h ind store).errors =
      ((analyze_activate place_particle n_total h ind store).writes.filter
        (fun w => decide (w.2.2 = TCL_ERROR))).map (fun w => w.1) := by
    rw [hval]
    dsimp only
    rw [List.filter_map, List.map_map]
    rfl
  refine ⟨by rw [hval], ?_, by rw [hval], by rw [hval], herr, ?_, ?_⟩
  · rw [hval]
    dsimp only
    rw [List.map_map]
    rfl
  · rw [herr, List.length_map]
  · intro frame i v h0 hframe hv
    unfold snapshot_pos config_at
    rw [if_pos h0]
    simp only [List.getD_eq_getElem?_getD, hframe, Option.getD_some, hv]

theorem analyze_activate_attempts_every_write_witness :
    (analyze_activate (place_failing 1) 3
        (⟨[[⟨1, 0, 0⟩, ⟨2, 0, 0⟩, ⟨3, 0, 0⟩]], 3⟩ : History ℚ) 0 []).writes.map
        (fun w => (w.1, w.2.1)) =
      [(0, ⟨1, 0, 0⟩), (1, ⟨2, 0, 0⟩), (2, ⟨3, 0, 0⟩)] ∧
    (analyze_activate (place_failing 1) 3
        (⟨[[⟨1, 0, 0⟩, ⟨2, 0, 0⟩, ⟨3, 0, 0⟩]], 3⟩ : History ℚ) 0 []).errors = [1] ∧
    (analyze_activate (place_failing 1) 3
        (⟨[[⟨1, 0, 0⟩, ⟨2, 0, 0⟩, ⟨3, 0, 0⟩]], 3⟩ : History ℚ) 0 []).store = [0, 1, 2] := by
  obtain ⟨_, hw, _, _, _, _, _⟩ := analyze_activate_attempts_every_write (place_failing 1) 3
    (⟨[[⟨1, 0, 0⟩, ⟨2, 0, 0⟩, ⟨3, 0, 0⟩]], 3⟩ : History ℚ) 0 []
  refine ⟨?_, ?_, ?_⟩
  · rw [hw]
    rfl
  · rfl
  · rfl

end ActivateClaims

section WindowLemmas

variable {K : Type} [LinearOrderedField K] [FloorRing K]

/-- The call `analyze push <k>` on a history that holds at most `k ≥ 1` configurations:
an error that leaves the history as it is, or the new configuration is stored and the
oldest one dropped when there were already `k`. -/
theorem maintain_window_eq (k : Int) (live : LiveStore K) (h : History K) (hk : 1 ≤ k)
    (hlen : h.n_configs ≤ k) :
    maintain_window k live h =
      if n_total_particles live = 0 ∨
          (h.n_configs > 0 ∧ h.n_part_conf ≠ n_total_particles live) ∨ live.sorted = false
      then some (TCL_ERROR, h)
      else some (TCL_OK,
        { configs := (h.configs ++ [live_snapshot live]).drop
            (h.configs.length + 1 - k.toNat),
          n_part_conf := n_total_particles live }) := by
  unfold maintain_window parse_push
  by_cases h1 : n_total_particles live = 0
  · rw [if_pos h1, if_pos (Or.inl h1)]
  rw [if_neg h1]
  by_cases h2 : h.n_configs > 0 ∧ h.n_part_conf ≠ n_total_particles live
  · rw [if_pos h2, if_pos (Or.inr (Or.inl h2))]
  rw [if_neg h2]
  by_cases h3 : live.sorted = false
  · rw [if_pos h3, if_pos (Or.inr (Or.inr h3))]
  have hg : ¬ (n_total_particles live = 0 ∨
      (h.n_configs > 0 ∧ h.n_part_conf ≠ n_total_particles live) ∨ live.sorted = false) := by
    rintro (a | a | a)
    · exact h1 a
    · exact h2 a
    · exact h3 a
  rw [if_neg h3, if_pos (show ([int_arg k] : List (TclArg K)).length = 1 from rfl), if_neg hg]
  have harg : ([int_arg k] : List (TclArg K)).head?.bind (fun a => a.as_int) = some k := rfl
  rw [harg]
  dsimp only
  unfold History.n_configs at hlen ⊢
  by_cases hlt : (h.configs.length : Int) < k
  · rw [if_pos hlt]
    dsimp only
    unfold analyze_append
    dsimp only
    rw [if_neg (by rw [List.length_append, List.length_singleton]; push_cast; omega)]
    have hz : h.configs.length + 1 - k.toNat = 0 := by omega
    rw [hz, List.drop_zero]
  · rw [if_neg hlt]
    have hne : h.configs.length ≠ 0 := by omega
    rw [analyze_push_eq live h hne]
    dsimp only
    rw [if_neg (by
      rw [List.length_append, List.length_singleton, List.length_tail]
      push_cast
      omega)]
    have hz : h.configs.length + 1 - k.toNat = 1 := by omega
    rw [hz, List.drop_one, List.tail_append_of_ne_nil]
    exact fun hnil => hne (by rw [hnil]; rfl)

/-- Successful calls `analyze push <k>` keep the last `k` of the configurations seen so
far. -/
theorem push_sequence_keeps_last (k : Int) (hk : 1 ≤ k) :
    ∀ (lives : List (LiveStore K)) (seen : List (Snapshot K)) (h r : History K),
      h.configs = last_configs seen k.toNat →
      push_sequence k lives h = some r →
      r.configs = last_configs (seen ++ lives.map live_snapshot) k.toNat := by
  intro lives
  induction lives with
  | nil =>
    intro seen h r hc hr
    unfold push_sequence at hr
    rw [List.map_nil, List.append_nil, ← hc]
    exact ((Option.some.inj hr) ▸ rfl)
  | cons live rest ih =>
    intro seen h r hc hr
    have hlen : h.n_configs ≤ k := by
      unfold History.n_configs
      rw [hc]
      unfold last_configs
      rw [List.length_drop]
      omega
    unfold push_sequence at hr
    rw [maintain_window_eq k live h hk hlen] at hr
    by_cases hg : n_total_particles live = 0 ∨
        (h.n_configs > 0 ∧ h.n_part_conf ≠ n_total_particles live) ∨ live.sorted = false
    · rw [if_pos hg] at hr
      dsimp only at hr
      rw [if_neg (by decide)] at hr
      cases hr
    · rw [if_neg hg] at hr
      dsimp only at hr
      rw [if_pos rfl] at hr
      have hnext := ih (seen ++ [live_snapshot live]) _ r ?_ hr
      · rw [hnext, List.map_cons, List.append_assoc]
        rfl
      · dsimp only
        rw [hc]
        unfold last_configs
        rw [List.length_drop, List.length_append, List.length_singleton]
        by_cases hs : seen.length < k.toNat
        · have e1 : seen.length - k.toNat = 0 := by omega
          have e2 : seen.length - (seen.length - k.toNat) + 1 - k.toNat = 0 := by omega
          have e3 : seen.length + 1 - k.toNat = 0 := by omega
          rw [e2, e3, e1, List.drop_zero, List.drop_zero, List.drop_zero]
        · have e2 : seen.length - (seen.length - k.toNat) + 1 - k.toNat = 1 := by omega
          have e3 : seen.length + 1 - k.toNat = (seen.length - k.toNat) + 1 := by omega
          rw [e2, e3, List.drop_append_of_le_length (by rw [List.length_drop]; omega),
            List.drop_append_of_le_length (by omega), List.drop_drop]

/-- Calls `analyze push <k>` with sorted live stores of one and the same particle number
`c ≥ 1` all succeed. -/
theorem push_sequence_succeeds (k : Int) (hk : 1 ≤ k) (c : Nat) (hc : 1 ≤ c) :
    ∀ (lives : List (LiveStore K)) (h : History K),
      (∀ live ∈ lives, live.sorted = true ∧ live.partCfg.length = c) →
      h.n_configs ≤ k → (0 < h.n_configs → h.n_part_conf = (c : Int)) →
      ∃ r : History K, push_sequence k lives h = some r := by
  intro lives
  induction lives with
  | nil =>
    intro h _ _ _
    exact ⟨h, rfl⟩
  | cons live rest ih =>
    intro h hv hlen hn
    obtain ⟨hs, hl⟩ := hv live (List.mem_cons_self _ _)
    have hnt : n_total_particles live = (c : Int) := by
      unfold n_total_particles
      rw [hl]
    unfold push_sequence
    rw [maintain_window_eq k live h hk hlen, if_neg (by
      rw [hnt, hs]
      rintro (h1 | h2 | h3)
      · omega
      · exact h2.2 (hn h2.1)
      · cases h3)]
    dsimp only
    rw [if_pos rfl]
    apply ih _ (fun l hl2 => hv l (List.mem_cons_of_mem _ hl2))
    · unfold History.n_configs at hlen ⊢
      dsimp only
      rw [List.length_drop, List.length_append, List.length_singleton]
      omega
    · intro _
      exact hnt

end WindowLemmas

section EvictLemmas

variable {K : Type} [LinearOrderedField K] [FloorRing K]

/-- The eviction loop of `parse_push` for a target `i ≥ 1`, with enough fuel: from round
`j` on it drops the `⌈(n_configs - i - j) / 2⌉` oldest configurations, not
`n_configs - i - j`. -/
theorem push_evict_drops_half (i : Int) (hi : 1 ≤ i) :
    ∀ (fuel : Nat) (j : Int) (h : History K), 0 ≤ j → h.configs.length ≤ fuel →
      push_evict i fuel j h =
        some { configs := h.configs.drop ((h.n_configs - i - j + 1) / 2).toNat,
               n_part_conf := h.n_part_conf } := by
  intro fuel
  induction fuel with
  | zero =>
    intro j h hj hlen
    have hz : h.configs.length = 0 := by omega
    unfold push_evict History.n_configs
    rw [hz, if_neg (by push_cast; omega)]
    have hnil : h.configs = [] := List.length_eq_zero.mp hz
    rw [List.drop_eq_nil_of_le (by rw [hz]; exact Nat.zero_le _), ← hnil]
  | succ fuel ih =>
    intro j h hj hlen
    unfold push_evict
    by_cases hc : j < h.n_configs - i
    · rw [if_pos hc]
      have hn : (2 : Int) ≤ h.n_configs := by omega
      rw [analyze_remove_eq h 0 (le_refl _) (by omega)]
      dsimp only
      rw [ih (j + 1) _ (by omega) (by
        dsimp only
        rw [List.length_eraseIdx]
        split <;> omega)]
      unfold History.n_configs at hn hc ⊢
      dsimp only
      rw [if_neg (by omega)]
      have hl : (h.configs.eraseIdx (0 : Int).toNat).length = h.configs.length - 1 := by
        rw [List.length_eraseIdx, if_pos (by rw [Int.toNat_zero]; omega)]
      rw [hl]
      have e : (((h.configs.length : Int) - i - j + 1) / 2).toNat =
          1 + ((((h.configs.length - 1 : Nat) : Int) - i - (j + 1) + 1) / 2).toNat := by
        omega
      rw [e, Int.toNat_zero, List.eraseIdx_zero, ← List.drop_drop, List.drop_one]
    · rw [if_neg hc]
      have e : ((h.n_configs - i - j + 1) / 2).toNat = 0 := by omega
      rw [e, List.drop_zero]

/-- What `analyze push <k>` does on a history with `n ≥ k ≥ 1` configurations when it
succeeds: the oldest configuration is replaced by the new one at the end, and then
`⌈(n - k) / 2⌉` configurations are dropped from the front, so `k + ⌊(n - k) / 2⌋` stay. -/
theorem maintain_window_evicts_half (k : Int) (live : LiveStore K) (h : History K)
    (hk : 1 ≤ k) (hn : k ≤ h.n_configs) (hnt : n_total_particles live ≠ 0)
    (hpc : h.n_part_conf = n_total_particles live) (hs : live.sorted = true) :
    maintain_window k live h =
      some (TCL_OK,
        { configs := (h.configs.tail ++ [live_snapshot live]).drop
            ((h.n_configs - k + 1) / 2).toNat,
          n_part_conf := n_total_particles live }) := by
  unfold maintain_window parse_push
  rw [if_neg hnt, if_neg (fun a => a.2 hpc), if_neg (by rw [hs]; exact Bool.noConfusion),
    if_pos (show ([int_arg k] : List (TclArg K)).length = 1 from rfl)]
  have harg : ([int_arg k] : List (TclArg K)).head?.bind (fun a => a.as_int) = some k := rfl
  rw [harg]
  dsimp only
  rw [if_neg (by omega)]
  have hne : h.configs.length ≠ 0 := by
    unfold History.n_configs at hn
    omega
  rw [analyze_push_eq live h hne]
  dsimp only
  have hlen : (h.configs.tail ++ [live_snapshot live]).length = h.configs.length := by
    rw [List.length_append, List.length_singleton, List.length_tail]
    omega
  have hnc : (⟨h.configs.tail ++ [live_snapshot live], n_total_particles live⟩ :
      History K).n_configs = h.n_configs := by
    unfold History.n_configs
    dsimp only
    rw [hlen]
  rw [hnc]
  by_cases hgt : h.n_configs > k
  · rw [if_pos hgt, push_evict_drops_half k hk (h.configs.tail ++ [live_snapshot live]).length
      0 ⟨h.configs.tail ++ [live_snapshot live], n_total_particles live⟩ (le_refl _)
      (le_refl _), hnc]
    dsimp only
    rw [sub_zero]
  · rw [if_neg hgt]
    have e : ((h.n_configs - k + 1) / 2).toNat = 0 := by omega
    rw [e, List.drop_zero]

end EvictLemmas

section ErrorPaths

variable {K : Type} [LinearOrderedField K] [FloorRing K] {σ : Type}

theorem tcl_ok_ne_error : TCL_OK ≠ TCL_ERROR := by decide

theorem parse_append_error_unchanged (live : LiveStore K) (argv : List (TclArg K))
    (h : History K) (r : Int × History K) (hr : parse_append live argv h = some r)
    (he : r.1 = TCL_ERROR) : r.2 = h := by
  unfold parse_append at hr
  repeat' split at hr
  all_goals first
    | (cases hr; rfl)
    | (cases hr; exact absurd he tcl_ok_ne_error)

theorem parse_push_error_unchanged (live : LiveStore K) (argv : List (TclArg K))
    (h : History K) (r : Int × History K) (hr : parse_push live argv h = some r)
    (he : r.1 = TCL_ERROR) : r.2 = h := by
  unfold parse_push at hr
  repeat' split at hr
  all_goals first
    | (cases hr; rfl)
    | (cases hr; exact absurd he tcl_ok_ne_error)
    | cases hr

theorem parse_replace_error_unchanged (live : LiveStore K) (argv : List (TclArg K))
    (h : History K) (r : Int × History K) (hr : parse_replace live argv h = some r)
    (he : r.1 = TCL_ERROR) : r.2 = h := by
  unfold parse_replace at hr
  repeat' split at hr
  all_goals first
    | (cases hr; rfl)
    | (cases hr; exact absurd he tcl_ok_ne_error)
    | cases hr

theorem parse_remove_error_unchanged (live : LiveStore K) (argv : List (TclArg K))
    (h : History K) (r : Int × History K) (hr : parse_remove live argv h = some r)
    (he : r.1 = TCL_ERROR) : r.2 = h := by
  unfold parse_remove at hr
  repeat' split at hr
  all_goals first
    | (cases hr; rfl)
    | (cases hr; exact absurd he tcl_ok_ne_error)
    | cases hr

theorem parse_activate_error_unchanged (place_particle : σ → Int → Vec3 K → Int × σ)
    (live : LiveStore K) (argv : List (TclArg K)) (h : History K) (store : σ)
    (r : Int × History K × σ × List Int)
    (hr : parse_activate place_particle live argv h store = some r)
    (he : r.1 = TCL_ERROR) : r.2.1 = h ∧ r.2.2.1 = store := by
  unfold parse_activate at hr
  repeat' split at hr
  all_goals first
    | (cases hr; exact ⟨rfl, rfl⟩)
    | (cases hr; exact absurd he tcl_ok_ne_error)

theorem parse_configs_error_state (argv : List (TclArg K)) (h : History K)
    (r : Int × History K) (hr : parse_configs argv h = some r) (he : r.1 = TCL_ERROR) :
    r.2.configs = h.configs ∧
      (r.2.n_part_conf = h.n_part_conf ∨
        (h.n_part_conf = 0 ∧ (argv.length : Int) % 3 = 0 ∧ 2 ≤ argv.length ∧
          parse_doubles argv = none ∧ r.2.n_part_conf = (argv.length : Int) / 3)) := by
  unfold parse_configs at hr
  repeat' split at hr
  all_goals first
    | (cases hr; exact ⟨rfl, Or.inl rfl⟩)
    | (cases hr; exact absurd he tcl_ok_ne_error)
    | (cases hr; refine ⟨rfl, Or.inr ⟨?_, ?_, ?_, ?_, rfl⟩⟩ <;> first | tauto | omega)

end ErrorPaths

section InvariantLemmas

variable {K : Type} [LinearOrderedField K] [FloorRing K] {σ : Type}

theorem same_length_empty : SameLength (empty_history : History K) := by
  intro h
  unfold History.n_configs empty_history at h
  simp at h

theorem analyze_append_same (live : LiveStore K) (h : History K) (hs : SameLength h)
    (hg : ¬ (h.n_configs > 0 ∧ h.n_part_conf ≠ n_total_particles live))
    (hnt : n_total_particles live ≠ 0) : SameLength (analyze_append live h) := by
  intro _
  unfold analyze_append
  dsimp only
  constructor
  · unfold n_total_particles at hnt ⊢
    omega
  · intro sn hsn
    rcases List.mem_append.mp hsn with hm | hm
    · have hpos : 0 < h.n_configs := by
        unfold History.n_configs
        have := List.length_pos_of_mem hm
        omega
      have hpc : h.n_part_conf = n_total_particles live := by
        by_contra hne
        exact hg ⟨hpos, hne⟩
      rw [← hpc]
      exact (hs hpos).2 sn hm
    · rw [List.mem_singleton.mp hm]
      unfold live_snapshot n_total_particles
      rw [List.length_map]

theorem analyze_remove_same (h r : History K) (ind : Int) (hs : SameLength h)
    (hr : analyze_remove h ind = some r) : SameLength r := by
  by_cases hin : 0 ≤ ind ∧ ind < h.n_configs
  · rw [analyze_remove_eq h ind hin.1 hin.2] at hr
    have hr2 := Option.some.inj hr
    subst hr2
    intro hpos
    unfold History.n_configs at hpos hin
    dsimp only at hpos ⊢
    rw [List.length_eraseIdx, if_pos (by omega)] at hpos
    have hp : 0 < h.n_configs := by
      unfold History.n_configs
      omega
    have hne : ¬ (h.n_configs - 1 = 0) := by
      unfold History.n_configs
      omega
    rw [if_neg hne]
    exact ⟨(hs hp).1, fun sn hsn => (hs hp).2 sn (List.mem_of_mem_eraseIdx hsn)⟩
  · unfold analyze_remove at hr
    rw [if_neg hin] at hr
    cases hr

theorem analyze_push_same (live : LiveStore K) (h r : History K) (hs : SameLength h)
    (hg : ¬ (h.n_configs > 0 ∧ h.n_part_conf ≠ n_total_particles live))
    (hr : analyze_push live h = some r) : SameLength r := by
  by_cases hne : h.configs.length = 0
  · unfold analyze_push at hr
    rw [if_pos hne] at hr
    cases hr
  · rw [analyze_push_eq live h hne] at hr
    have hr2 := Option.some.inj hr
    subst hr2
    have hpos : 0 < h.n_configs := by
      unfold History.n_configs
      omega
    have hpc : h.n_part_conf = n_total_particles live := by
      by_contra hcon
      exact hg ⟨hpos, hcon⟩
    intro _
    dsimp only
    rw [← hpc]
    refine ⟨(hs hpos).1, ?_⟩
    intro sn hsn
    rcases List.mem_append.mp hsn with hm | hm
    · exact (hs hpos).2 sn (List.mem_of_mem_tail hm)
    · rw [List.mem_singleton.mp hm, hpc]
      unfold live_snapshot n_total_particles
      rw [List.length_map]

theorem analyze_replace_same (live : LiveStore K) (h r : History K) (ind : Int)
    (hs : SameLength h)
    (hg : ¬ (h.n_configs > 0 ∧ h.n_part_conf ≠ n_total_particles live))
    (hr : analyze_replace live h ind = some r) : SameLength r := by
  unfold analyze_replace at hr
  by_cases h0 : 0 ≤ ind
  · rw [if_pos h0] at hr
    cases hold : h.configs[ind.toNat]? with
    | none =>
      rw [hold] at hr
      cases hr
    | some old =>
      rw [hold] at hr
      dsimp only at hr
      by_cases hfit : live.partCfg.length ≤ old.length
      · rw [if_pos hfit] at hr
        have hr2 := Option.some.inj hr
        subst hr2
        have hmem : old ∈ h.configs := List.getElem?_mem hold
        have hpos : 0 < h.n_configs := by
          unfold History.n_configs
          have := List.length_pos_of_mem hmem
          omega
        have hpc : h.n_part_conf = n_total_particles live := by
          by_contra hcon
          exact hg ⟨hpos, hcon⟩
        intro _
        dsimp only
        rw [← hpc]
        refine ⟨(hs hpos).1, ?_⟩
        intro sn hsn
        rcases List.mem_or_eq_of_mem_set hsn with hm | hm
        · exact (hs hpos).2 sn hm
        · have hlo := (hs hpos).2 old hmem
          rw [hm, List.length_append, List.length_drop]
          unfold live_snapshot
          rw [List.length_map]
          rw [hpc] at hlo ⊢
          unfold n_total_particles at hlo ⊢
          omega
      · rw [if_neg hfit] at hr
        cases hr
  · rw [if_neg h0] at hr
    cases hr

theorem push_evict_same (i : Int) :
    ∀ (fuel : Nat) (j : Int) (h r : History K), SameLength h →
      push_evict i fuel j h = some r → SameLength r := by
  intro fuel
  induction fuel with
  | zero =>
    intro j h r hs hr
    unfold push_evict at hr
    split at hr
    · cases hr
    · exact (Option.some.inj hr) ▸ hs
  | succ fuel ih =>
    intro j h r hs hr
    unfold push_evict at hr
    split at hr
    · cases hrem : analyze_remove h 0 with
      | none =>
        rw [hrem] at hr
        cases hr
      | some h1 =>
        rw [hrem] at hr
        exact ih (j + 1) h1 r (analyze_remove_same h h1 0 hs hrem) hr
    · exact (Option.some.inj hr) ▸ hs

theorem remove_fold_same (l : List Nat) :
    ∀ (acc : Option (History K)) (r : History K),
      (∀ h1, acc = some h1 → SameLength h1) →
      l.foldl
        (fun (acc : Option (History K)) (i : Nat) =>
          match acc with
          | none => none
          | some h1 => analyze_remove h1 (i : Int))
        acc = some r → SameLength r := by
  induction l with
  | nil =>
    intro acc r hacc hr
    exact hacc r hr
  | cons i rest ih =>
    intro acc r hacc hr
    rw [List.foldl_cons] at hr
    apply ih _ r _ hr
    intro h1 hh1
    cases acc with
    | none => cases hh1
    | some h0 => exact analyze_remove_same h0 h1 i (hacc h0 rfl) hh1

theorem analyze_configs_same (tmp_config : List K) (count : Int) (h : History K)
    (hc : 1 ≤ count)
    (hs : 0 < h.n_configs → ∀ sn ∈ h.configs, (sn.length : Int) = count) :
    SameLength (analyze_configs tmp_config count h) := by
  intro _
  unfold analyze_configs
  dsimp only
  refine ⟨hc, ?_⟩
  intro sn hsn
  rcases List.mem_append.mp hsn with hm | hm
  · have hpos : 0 < h.n_configs := by
      unfold History.n_configs
      have := List.length_pos_of_mem hm
      omega
    exact hs hpos sn hm
  · rw [List.mem_singleton.mp hm, List.length_map, List.length_range]
    omega

end InvariantLemmas

section InvariantCommands

variable {K : Type} [LinearOrderedField K] [FloorRing K] {σ : Type}

theorem parse_append_same (live : LiveStore K) (argv : List (TclArg K)) (h : History K)
    (r : Int × History K) (hs : SameLength h) (hr : parse_append live argv h = some r) :
    SameLength r.2 := by
  unfold parse_append at hr
  split_ifs at hr with g1 g2 g3 g4
  · cases hr; exact hs
  · cases hr; exact hs
  · cases hr; exact hs
  · cases hr; exact hs
  · cases hr
    exact analyze_append_same live h hs g3 g2

theorem parse_push_same (live : LiveStore K) (argv : List (TclArg K)) (h : History K)
    (r : Int × History K) (hs : SameLength h) (hr : parse_push live argv h = some r) :
    SameLength r.2 := by
  unfold parse_push at hr
  by_cases g1 : n_total_particles live = 0
  · rw [if_pos g1] at hr
    cases hr
    exact hs
  rw [if_neg g1] at hr
  by_cases g2 : h.n_configs > 0 ∧ h.n_part_conf ≠ n_total_particles live
  · rw [if_pos g2] at hr
    cases hr
    exact hs
  rw [if_neg g2] at hr
  by_cases g3 : live.sorted = false
  · rw [if_pos g3] at hr
    cases hr
    exact hs
  rw [if_neg g3] at hr
  by_cases g4 : argv.length = 1
  · rw [if_pos g4] at hr
    split at hr
    · cases hr
      exact hs
    · rename_i i _
      split at hr
      · cases hr
      · rename_i h1 hfirst
        have h1s : SameLength h1 := by
          split at hfirst
          · cases hfirst
            exact analyze_append_same live h hs g2 g1
          · exact analyze_push_same live h h1 hs g2 hfirst
        split at hr
        · split at hr
          · cases hr
          · rename_i h2 hev
            cases hr
            exact push_evict_same i _ 0 h1 h2 h1s hev
        · cases hr
          exact h1s
  · rw [if_neg g4] at hr
    by_cases g5 : argv.length ≠ 0
    · rw [if_pos g5] at hr
      cases hr
      exact hs
    rw [if_neg g5] at hr
    split at hr
    · split at hr
      · cases hr
      · rename_i h1 hp
        cases hr
        exact analyze_push_same live h h1 hs g2 hp
    · cases hr
      exact analyze_append_same live h hs g2 g1

theorem parse_replace_same (live : LiveStore K) (argv : List (TclArg K)) (h : History K)
    (r : Int × History K) (hs : SameLength h) (hr : parse_replace live argv h = some r) :
    SameLength r.2 := by
  unfold parse_replace at hr
  by_cases g0 : argv.length ≠ 1
  · rw [if_pos g0] at hr
    cases hr
    exact hs
  rw [if_neg g0] at hr
  by_cases g1 : n_total_particles live = 0
  · rw [if_pos g1] at hr
    cases hr
    exact hs
  rw [if_neg g1] at hr
  by_cases g2 : h.n_configs > 0 ∧ h.n_part_conf ≠ n_total_particles live
  · rw [if_pos g2] at hr
    cases hr
    exact hs
  rw [if_neg g2] at hr
  by_cases g3 : live.sorted = false
  · rw [if_pos g3] at hr
    cases hr
    exact hs
  rw [if_neg g3] at hr
  split at hr
  · cases hr
    exact hs
  · rename_i i _
    split_ifs at hr with g5 g6 g7
    · cases hr
      exact analyze_append_same live h hs g2 g1
    · cases hr
      exact hs
    · cases hr
      exact hs
    · split at hr
      · cases hr
      · rename_i h1 hrep
        cases hr
        exact analyze_replace_same live h h1 i hs g2 hrep

theorem parse_remove_same (live : LiveStore K) (argv : List (TclArg K)) (h : History K)
    (r : Int × History K) (hs : SameLength h) (hr : parse_remove live argv h = some r) :
    SameLength r.2 := by
  unfold parse_remove at hr
  by_cases g3 : live.sorted = false
  · rw [if_pos g3] at hr
    cases hr
    exact hs
  rw [if_neg g3] at hr
  by_cases g4 : argv.length = 0
  · rw [if_pos g4] at hr
    split at hr
    · cases hr
    · rename_i h1 hall
      cases hr
      unfold remove_all at hall
      exact remove_fold_same _ (some h) h1 (fun h0 e => (Option.some.inj e) ▸ hs) hall
  rw [if_neg g4] at hr
  by_cases g5 : argv.length = 1
  · rw [if_pos g5] at hr
    split at hr
    · cases hr
      exact hs
    · rename_i i _
      split_ifs at hr with g6 g7
      · cases hr
        exact hs
      · cases hr
        exact hs
      · split at hr
        · cases hr
        · rename_i h1 hrem
          cases hr
          exact analyze_remove_same h h1 i hs hrem
  · rw [if_neg g5] at hr
    cases hr
    exact hs

theorem parse_configs_same (argv : List (TclArg K)) (h : History K)
    (r : Int × History K) (hs : SameLength h) (hr : parse_configs argv h = some r) :
    SameLength r.2 := by
  unfold parse_configs at hr
  by_cases a0 : argv.length = 0
  · rw [if_pos a0] at hr
    cases hr
    exact hs
  rw [if_neg a0] at hr
  by_cases a1 : argv.length = 1
  · rw [if_pos a1] at hr
    split at hr
    · cases hr
      exact hs
    · split_ifs at hr
      · cases hr
        exact hs
      · cases hr
        exact hs
  rw [if_neg a1] at hr
  have hempty : h.n_part_conf = 0 → ¬ 0 < h.n_configs := by
    intro hz hpos
    have := (hs hpos).1
    omega
  by_cases g : (argv.length : Int) = 3 * h.n_part_conf ∨ h.n_part_conf = 0
  · rw [if_pos g] at hr
    by_cases g2 : h.n_part_conf = 0 ∧ (argv.length : Int) % 3 = 0
    · rw [if_pos g2] at hr
      split at hr
      · cases hr
        intro hpos
        exact absurd hpos (hempty g2.1)
      · rename_i tmp_config _
        cases hr
        apply analyze_configs_same
        · omega
        · intro hpos
          exact absurd hpos (hempty g2.1)
    · rw [if_neg g2] at hr
      by_cases g3 : (argv.length : Int) ≠ 3 * h.n_part_conf
      · rw [if_pos g3] at hr
        cases hr
        exact hs
      · rw [if_neg g3] at hr
        split at hr
        · cases hr
          exact hs
        · rename_i tmp_config _
          cases hr
          apply analyze_configs_same
          · omega
          · intro hpos
            exact (hs hpos).2
  · rw [if_neg g] at hr
    cases hr
    exact hs

theorem analyze_activate_n_part_conf (place_particle : σ → Int → Vec3 K → Int × σ)
    (n_total : Int) (h : History K) (ind : Int) (store : σ) :
    (analyze_activate place_particle n_total h ind store).n_part_conf = n_total := by
  have hval : analyze_activate place_particle n_total h ind store = _ :=
    analyze_activate_rounds place_particle n_total h ind store n_total.toNat
  rw [hval]

theorem parse_activate_same (place_particle : σ → Int → Vec3 K → Int × σ)
    (live : LiveStore K) (argv : List (TclArg K)) (h : History K) (store : σ)
    (r : Int × History K × σ × List Int) (hs : SameLength h)
    (hr : parse_activate place_particle live argv h store = some r) :
    SameLength r.2.1 := by
  unfold parse_activate at hr
  by_cases g0 : argv.length ≠ 1
  · rw [if_pos g0] at hr
    cases hr
    exact hs
  rw [if_neg g0] at hr
  by_cases g1 : n_total_particles live = 0
  · rw [if_pos g1] at hr
    cases hr
    exact hs
  rw [if_neg g1] at hr
  by_cases g2 : h.n_configs > 0 ∧ h.n_part_conf ≠ n_total_particles live
  · rw [if_pos g2] at hr
    cases hr
    exact hs
  rw [if_neg g2] at hr
  by_cases g3 : live.sorted = false
  · rw [if_pos g3] at hr
    cases hr
    exact hs
  rw [if_neg g3] at hr
  split at hr
  · cases hr
    exact hs
  · rename_i i _
    split_ifs at hr with g5 g6 g7
    · cases hr
      exact analyze_append_same live h hs g2 g1
    · cases hr
      exact hs
    · cases hr
      exact hs
    · cases hr
      dsimp only
      rw [analyze_activate_n_part_conf]
      intro hpos
      have hpos2 : 0 < h.n_configs := hpos
      have hpc : h.n_part_conf = n_total_particles live := by
        by_contra hcon
        exact g2 ⟨hpos2, hcon⟩
      dsimp only
      rw [← hpc]
      exact hs hpos2

theorem history_step_same (place_particle : σ → Int → Vec3 K → Int × σ)
    (call : HistoryCall σ K) (h : History K) (r : Int × History K) (hs : SameLength h)
    (hr : history_step place_particle call h = some r) : SameLength r.2 := by
  unfold history_step at hr
  split at hr
  · exact parse_append_same _ _ h r hs hr
  · exact parse_push_same _ _ h r hs hr
  · exact parse_replace_same _ _ h r hs hr
  · exact parse_remove_same _ _ h r hs hr
  · exact parse_configs_same _ h r hs hr
  · split at hr
    · cases hr
    · rename_i r1 hact
      cases hr
      exact parse_activate_same place_particle _ _ h _ r1 hs hact

theorem history_run_same (place_particle : σ → Int → Vec3 K → Int × σ) :
    ∀ (calls : List (HistoryCall σ K)) (h r : History K), SameLength h →
      history_run place_particle calls h = some r → SameLength r := by
  intro calls
  induction calls with
  | nil =>
    intro h r hs hr
    unfold history_run at hr
    exact (Option.some.inj hr) ▸ hs
  | cons call rest ih =>
    intro h r hs hr
    unfold history_run at hr
    split at hr
    · cases hr
    · rename_i r1 hstep
      exact ih r1.2 r (history_step_same place_particle call h r1 hs hstep) hr

end InvariantCommands

section WindowClaims

variable {K : Type} [LinearOrderedField K] [FloorRing K]

/-- C14: starting from the empty history, for a target size `k ≥ 1`, after `m` successful
calls `analyze push <k>` with the snapshots `x_1, ..., x_m` the history holds exactly the
last `min(m, k)` of them in insertion order; such calls succeed whenever the live stores
are sorted and all hold the same number `c ≥ 1` of particles. -/
theorem maintain_window_from_empty_keeps_last (k : Int) (hk : 1 ≤ k)
    (lives : List (LiveStore K)) :
    (∀ r : History K, push_sequence k lives empty_history = some r →
      r.configs = last_configs (lives.map live_snapshot) k.toNat ∧
      r.configs.length = min lives.length k.toNat) ∧
    (∀ c : Nat, 1 ≤ c → (∀ live ∈ lives, live.sorted = true ∧ live.partCfg.length = c) →
      ∃ r : History K, push_sequence k lives empty_history = some r) := by
  constructor
  · intro r hr
    have hc := push_sequence_keeps_last k hk lives [] empty_history r
      (by unfold last_configs empty_history; simp) hr
    rw [List.nil_append] at hc
    refine ⟨hc, ?_⟩
    rw [hc]
    unfold last_configs
    rw [List.length_drop, List.length_map]
    omega
  · intro c hc hv
    exact push_sequence_succeeds k hk c hc lives empty_history hv
      (by unfold History.n_configs empty_history; simp; omega)
      (by unfold History.n_configs empty_history; simp)

theorem maintain_window_from_empty_keeps_last_witness :
    (1 : Int) ≤ 3 ∧
      ∃ r : History ℚ,
        push_sequence 3 [one_particle_store 1, one_particle_store 2, one_particle_store 3,
          one_particle_store 4, one_particle_store 5, one_particle_store 6]
          (empty_history : History ℚ) = some r ∧
        r.configs = [[⟨4, 0, 0⟩], [⟨5, 0, 0⟩], [⟨6, 0, 0⟩]] := by
  have hrun : push_sequence 3 [one_particle_store 1, one_particle_store 2,
      one_particle_store 3, one_particle_store 4, one_particle_store 5, one_particle_store 6]
      (empty_history : History ℚ) =
      some ⟨[[⟨4, 0, 0⟩], [⟨5, 0, 0⟩], [⟨6, 0, 0⟩]], 1⟩ := by
    decide!
  refine ⟨by decide, _, hrun, ?_⟩
  rw [((maintain_window_from_empty_keeps_last 3 (by decide)
    [one_particle_store (1 : ℚ), one_particle_store 2, one_particle_store 3,
      one_particle_store 4, one_particle_store 5, one_particle_store 6]).1 _ hrun).1]
  rfl

/-- C15: a history with 3 stored configurations and the call `analyze push 1`: the call
returns `TCL_OK` and leaves 2 configurations, not 1.  The eviction loop
`for(j=0; j < n_configs-i; j++) analyze_remove(0)` compares `j` with a bound that shrinks
with every removal, so it stops after one of the two removals. -/
theorem maintain_window_leaves_more_than_target :
    maintain_window 1 (one_particle_store (4 : ℚ))
        ⟨[[⟨1, 0, 0⟩], [⟨2, 0, 0⟩], [⟨3, 0, 0⟩]], 1⟩ =
      some (TCL_OK, ⟨[[⟨3, 0, 0⟩], [⟨4, 0, 0⟩]], 1⟩) := by
  decide!

/-- C16: on the empty history the call `analyze configs` with three words of which the
first is no double returns `TCL_ERROR` and leaves `n_part_conf = 1`, not 0. -/
theorem parse_configs_error_changes_n_part_conf :
    parse_configs [bad_arg, double_arg 1, double_arg 2] (empty_history : History ℚ) =
      some (TCL_ERROR, ⟨[], 1⟩) := by
  decide!

end WindowClaims

section InvariantClaims

variable {K : Type} [LinearOrderedField K] [FloorRing K] {σ : Type}

/-- C17: in every history reached from the empty history by a sequence of history
commands (append, push, replace, remove, configs, activate, with any words and any live
stores), whenever `n_configs > 0` every stored configuration holds exactly `n_part_conf`
positions; and in such a history a command that would store a configuration of another
particle number is rejected with `TCL_ERROR` and changes nothing: `append`, `push`,
`replace` and `activate` when the live store holds a number of particles other than
`n_part_conf`, and `configs` when the number of coordinates is not `3 * n_part_conf`. -/
theorem history_same_length_invariant (place_particle : σ → Int → Vec3 K → Int × σ)
    (calls : List (HistoryCall σ K)) (h : History K)
    (hrun : history_run place_particle calls empty_history = some h) :
    (0 < h.n_configs → ∀ sn ∈ h.configs, (sn.length : Int) = h.n_part_conf) ∧
    (∀ (live : LiveStore K) (argv : List (TclArg K)) (store : σ),
      0 < h.n_configs → h.n_part_conf ≠ n_total_particles live →
      parse_append live argv h = some (TCL_ERROR, h) ∧
      parse_push live argv h = some (TCL_ERROR, h) ∧
      parse_replace live argv h = some (TCL_ERROR, h) ∧
      parse_activate place_particle live argv h store = some (TCL_ERROR, h, store, [])) ∧
    (∀ argv : List (TclArg K), 0 < h.n_configs → 2 ≤ argv.length →
      (argv.length : Int) ≠ 3 * h.n_part_conf →
      parse_configs argv h = some (TCL_ERROR, h)) := by
  have hs : SameLength h :=
    history_run_same place_particle calls empty_history h same_length_empty hrun
  refine ⟨fun hpos => (hs hpos).2, ?_, ?_⟩
  · intro live argv store hpos hne
    have g2 : h.n_configs > 0 ∧ h.n_part_conf ≠ n_total_particles live := ⟨hpos, hne⟩
    refine ⟨?_, ?_, ?_, ?_⟩
    · unfold parse_append
      split_ifs <;> rfl
    · unfold parse_push
      by_cases g1 : n_total_particles live = 0
      · rw [if_pos g1]
      · rw [if_neg g1, if_pos g2]
    · unfold parse_replace
      split_ifs <;> rfl
    · unfold parse_activate
      split_ifs <;> rfl
  · intro argv hpos h2 hne
    have hpc := (hs hpos).1
    unfold parse_configs
    rw [if_neg (by omega), if_neg (by omega), if_neg (by
      rintro (a | a)
      · exact hne a
      · omega)]

theorem history_same_length_invariant_witness :
    history_run (place_failing 1)
        [⟨HistoryCmd.configs, [double_arg 1, double_arg 2, double_arg 3],
            one_particle_store 0, []⟩,
          ⟨HistoryCmd.append, [], one_particle_store 5, []⟩,
          ⟨HistoryCmd.append, [],
            ⟨[particle_on_x_axis 0 0 1, particle_on_x_axis 1 0 2], true⟩, []⟩,
          ⟨HistoryCmd.activate, [int_arg 0], one_particle_store 7, []⟩]
        (empty_history : History ℚ) =
      some ⟨[[⟨1, 2, 3⟩], [⟨5, 0, 0⟩]], 1⟩ ∧
    (0 < (⟨[[⟨1, 2, 3⟩], [⟨5, 0, 0⟩]], 1⟩ : History ℚ).n_configs →
      ∀ sn ∈ (⟨[[⟨1, 2, 3⟩], [⟨5, 0, 0⟩]], 1⟩ : History ℚ).configs,
        (sn.length : Int) = (⟨[[⟨1, 2, 3⟩], [⟨5, 0, 0⟩]], 1⟩ : History ℚ).n_part_conf) ∧
    parse_append (⟨[particle_on_x_axis 0 0 1, particle_on_x_axis 1 0 2], true⟩ : LiveStore ℚ)
        [] ⟨[[⟨1, 2, 3⟩], [⟨5, 0, 0⟩]], 1⟩ =
      some (TCL_ERROR, ⟨[[⟨1, 2, 3⟩], [⟨5, 0, 0⟩]], 1⟩) := by
  have hrun : history_run (place_failing 1)
      [⟨HistoryCmd.configs, [double_arg 1, double_arg 2, double_arg 3],
          one_particle_store 0, []⟩,
        ⟨HistoryCmd.append, [], one_particle_store 5, []⟩,
        ⟨HistoryCmd.append, [],
          ⟨[particle_on_x_axis 0 0 1, particle_on_x_axis 1 0 2], true⟩, []⟩,
        ⟨HistoryCmd.activate, [int_arg 0], one_particle_store 7, []⟩]
      (empty_history : History ℚ) =
      some ⟨[[⟨1, 2, 3⟩], [⟨5, 0, 0⟩]], 1⟩ := by
    decide!
  exact ⟨hrun, (history_same_length_invariant _ _ _ hrun).1,
    ((history_same_length_invariant _ _ _ hrun).2.1 _ [] [] (by decide) (by decide)).1⟩

end InvariantClaims

/-! ## Proofs: `calc_cell_gpb` -/

section CellGpbClaims

variable {K : Type} [LinearOrderedField K] [FloorRing K]

/-- For `Rc > ro > 0` the real logarithm of `Rc / ro` is positive. -/
theorem real_log_ratio_pos (Rc ro : ℝ) (hro : 0 < ro) (hRc : ro < Rc) :
    0 < Real.log (Rc / ro) :=
  Real.log_pos ((one_lt_div hro).mpr hRc)

/-- C20: when `L = log(Rc/ro)` is positive (as it is for `Rc > ro > 0`), so that
`0 < xi_min < 1` for `xi_min = L/(1+L)`, `calc_cell_gpb` returns its closed forms without
executing a bisection round, whatever `gacc`, `maxtry` and the former content of `result`:
for `xi_m = xi_min` the result is `(0, 0, 1)` and for `xi_m = 0` it is `(1, -1, -1)`. -/
theorem calc_cell_gpb_closed_forms (m : Libm K) (PI Rc ro gacc : K) (maxtry : Int)
    (result : Vec3 K) (hL : 0 < m.log (Rc / ro)) :
    (0 < m.log (Rc / ro) / (1 + m.log (Rc / ro)) ∧
      m.log (Rc / ro) / (1 + m.log (Rc / ro)) < 1) ∧
    calc_cell_gpb m PI (m.log (Rc / ro) / (1 + m.log (Rc / ro))) Rc ro gacc maxtry result =
      (⟨0, 0, 1⟩, 0) ∧
    calc_cell_gpb m PI 0 Rc ro gacc maxtry result = (⟨1, -1, -1⟩, 0) := by
  have h1 : 0 < 1 + m.log (Rc / ro) := by linarith
  have hpos : 0 < m.log (Rc / ro) / (1 + m.log (Rc / ro)) := div_pos hL h1
  have hlt : m.log (Rc / ro) / (1 + m.log (Rc / ro)) < 1 := by
    rw [div_lt_one h1]
    linarith
  refine ⟨⟨hpos, hlt⟩, ?_, ?_⟩
  · have hreg : gpb_regime m PI (m.log (Rc / ro) / (1 + m.log (Rc / ro)))
        (m.log (Rc / ro)) (m.log (Rc / ro) / (1 + m.log (Rc / ro))) = some (1, 0, 0) := by
      unfold gpb_regime
      rw [if_neg (not_lt.mpr (le_of_lt hlt)), if_neg (ne_of_lt hlt), if_pos rfl]
    unfold calc_cell_gpb
    dsimp only
    rw [hreg]
    dsimp only
    rw [if_pos rfl]
  · have hreg : gpb_regime m PI 0 (m.log (Rc / ro))
        (m.log (Rc / ro) / (1 + m.log (Rc / ro))) = some (-1, 1 - 0, 1 - 0) := by
      unfold gpb_regime
      rw [if_neg (by norm_num), if_neg (by norm_num), if_neg (ne_of_lt hpos),
        if_neg (not_lt.mpr (le_of_lt hpos)), if_neg (lt_irrefl 0), if_pos rfl]
    unfold calc_cell_gpb
    dsimp only
    rw [hreg]
    dsimp only
    rw [if_neg (ne_of_lt hpos), if_pos rfl, sub_zero]

theorem calc_cell_gpb_closed_forms_witness :
    (0 : ℝ) < Real.log (2 / 1) ∧
      calc_cell_gpb
          (⟨Real.log, Real.sqrt, Real.arctan, fun x => 1 / 2 * Real.log ((1 + x) / (1 - x)),
            Real.exp, fun x y => x ^ y⟩ : Libm ℝ)
          Real.pi (Real.log (2 / 1) / (1 + Real.log (2 / 1))) 2 1 (1 / 1000) 100 ⟨7, 7, 7⟩ =
        (⟨0, 0, 1⟩, 0) ∧
      calc_cell_gpb
          (⟨Real.log, Real.sqrt, Real.arctan, fun x => 1 / 2 * Real.log ((1 + x) / (1 - x)),
            Real.exp, fun x y => x ^ y⟩ : Libm ℝ)
          Real.pi 0 2 1 (1 / 1000) 100 ⟨7, 7, 7⟩ = (⟨1, -1, -1⟩, 0) :=
  ⟨real_log_ratio_pos 2 1 (by norm_num) (by norm_num),
    (calc_cell_gpb_closed_forms
      (⟨Real.log, Real.sqrt, Real.arctan, fun x => 1 / 2 * Real.log ((1 + x) / (1 - x)),
        Real.exp, fun x y => x ^ y⟩ : Libm ℝ)
      Real.pi 2 1 (1 / 1000) 100 ⟨7, 7, 7⟩
      (real_log_ratio_pos 2 1 (by norm_num) (by norm_num))).2⟩

end CellGpbClaims

/-! ## Proofs: `centermass` and `momentofinertiamatrix` -/

section MomentProofs

variable {K : Type} [LinearOrderedField K] [FloorRing K]

theorem centermass_sums_fold (type : Int) :
    ∀ (l : List (Particle K)) (acc : Vec3 K × K),
      l.foldl
        (fun (acc : Vec3 K × K) pt =>
          if type = pt.type then
            (⟨acc.1.x + pt.p.x * pt.mass, acc.1.y + pt.p.y * pt.mass,
                acc.1.z + pt.p.z * pt.mass⟩,
              acc.2 + pt.mass)
          else acc) acc =
      (⟨acc.1.x + ((of_type type l).map (fun pt => pt.mass * pt.p.x)).sum,
          acc.1.y + ((of_type type l).map (fun pt => pt.mass * pt.p.y)).sum,
          acc.1.z + ((of_type type l).map (fun pt => pt.mass * pt.p.z)).sum⟩,
        acc.2 + ((of_type type l).map (fun pt => pt.mass)).sum) := by
  intro l
  induction l with
  | nil =>
    intro acc
    simp [of_type]
  | cons pt rest ih =>
    intro acc
    rw [List.foldl_cons, ih]
    unfold of_type
    by_cases ht : type = pt.type
    · rw [if_pos ht, List.filter_cons_of_pos (by simp [ht])]
      simp only [List.map_cons, List.sum_cons]
      congr 1
      · congr 1 <;> ring
      · ring
    · rw [if_neg ht, List.filter_cons_of_neg (by simpa using fun h => ht h.symm)]

theorem centermass_sums_eq (type : Int) (partCfg : List (Particle K)) :
    centermass_sums type partCfg =
      (⟨((of_type type partCfg).map (fun pt => pt.mass * pt.p.x)).sum,
          ((of_type type partCfg).map (fun pt => pt.mass * pt.p.y)).sum,
          ((of_type type partCfg).map (fun pt => pt.mass * pt.p.z)).sum⟩,
        total_mass type partCfg) := by
  unfold centermass_sums total_mass
  rw [centermass_sums_fold]
  simp

/-- C28: when the particles of the given type have non-zero total mass `M`, `centermass`
returns on each axis the sum of `mass * position` over the particles of that type divided
by `M`, on the positions as stored (no unwrapping); for a single particle of that type it
returns that particle's position. -/
theorem centermass_is_mass_weighted_mean (type : Int) (partCfg : List (Particle K))
    (hM : total_mass type partCfg ≠ 0) :
    (centermass type partCfg).x =
        ((of_type type partCfg).map (fun pt => pt.mass * pt.p.x)).sum /
          total_mass type partCfg ∧
      (centermass type partCfg).y =
        ((of_type type partCfg).map (fun pt => pt.mass * pt.p.y)).sum /
          total_mass type partCfg ∧
      (centermass type partCfg).z =
        ((of_type type partCfg).map (fun pt => pt.mass * pt.p.z)).sum /
          total_mass type partCfg ∧
      (∀ pt : Particle K, of_type type partCfg = [pt] → centermass type partCfg = pt.p) := by
  unfold centermass
  rw [centermass_sums_eq]
  refine ⟨rfl, rfl, rfl, ?_⟩
  intro pt hpt
  have hm : total_mass type partCfg = pt.mass := by
    unfold total_mass
    rw [hpt]
    simp
  rw [hm] at hM
  dsimp only
  rw [hpt, hm]
  simp only [List.map_cons, List.map_nil, List.sum_cons, List.sum_nil, add_zero]
  rw [mul_div_cancel_left₀ _ hM, mul_div_cancel_left₀ _ hM, mul_div_cancel_left₀ _ hM]

theorem centermass_is_mass_weighted_mean_witness :
    total_mass 0 ([⟨0, 0, 0, 1, ⟨1, 2, 3⟩⟩, ⟨1, 1, 0, 5, ⟨9, 9, 9⟩⟩,
        ⟨2, 0, 0, 3, ⟨5, 6, 7⟩⟩] : List (Particle ℚ)) ≠ 0 ∧
      (centermass 0 ([⟨0, 0, 0, 1, ⟨1, 2, 3⟩⟩, ⟨1, 1, 0, 5, ⟨9, 9, 9⟩⟩,
        ⟨2, 0, 0, 3, ⟨5, 6, 7⟩⟩] : List (Particle ℚ))).x = 4 := by
  have hM : total_mass 0 ([⟨0, 0, 0, 1, ⟨1, 2, 3⟩⟩, ⟨1, 1, 0, 5, ⟨9, 9, 9⟩⟩,
      ⟨2, 0, 0, 3, ⟨5, 6, 7⟩⟩] : List (Particle ℚ)) ≠ 0 := by
    decide!
  refine ⟨hM, ?_⟩
  rw [(centermass_is_mass_weighted_mean 0 _ hM).1]
  decide!

end MomentProofs

section InertiaProofs

variable {K : Type} [LinearOrderedField K] [FloorRing K]

theorem moi_step_apply (type : Int) (com : Vec3 K) (M : Int → K) (pt : Particle K) (i : Int) :
    moi_step type com M pt i = M i + (if type = pt.type then moi_term com pt i else 0) := by
  unfold moi_step moi_term
  by_cases ht : type = pt.type
  · rw [if_pos ht, if_pos ht]
    dsimp only
    by_cases h0 : i = 0
    · subst h0
      simp [Function.update_apply]
    by_cases h4 : i = 4
    · subst h4
      simp [Function.update_apply]
    by_cases h8 : i = 8
    · subst h8
      simp [Function.update_apply]
    by_cases h1 : i = 1
    · subst h1
      simp [Function.update_apply]
      ring
    by_cases h2 : i = 2
    · subst h2
      simp [Function.update_apply]
      ring
    by_cases h5 : i = 5
    · subst h5
      simp [Function.update_apply]
      ring
    simp [Function.update_apply, h0, h4, h8, h1, h2, h5]
  · rw [if_neg ht, if_neg ht, add_zero]

theorem moi_fold (type : Int) (com : Vec3 K) (i : Int) :
    ∀ (l : List (Particle K)) (M : Int → K),
      l.foldl (moi_step type com) M i =
        M i + ((of_type type l).map (fun pt => moi_term com pt i)).sum := by
  intro l
  induction l with
  | nil =>
    intro M
    simp [of_type]
  | cons pt rest ih =>
    intro M
    rw [List.foldl_cons, ih, moi_step_apply]
    unfold of_type
    by_cases ht : type = pt.type
    · rw [if_pos ht, List.filter_cons_of_pos (by simp [ht]), List.map_cons, List.sum_cons]
      ring
    · rw [if_neg ht, List.filter_cons_of_neg (by simpa using fun h => ht h.symm), add_zero]

/-- The entries of the matrix returned by `momentofinertiamatrix`. -/
theorem momentofinertiamatrix_entry (type : Int) (partCfg : List (Particle K))
    (M0 : Int → K) (i : Int) :
    momentofinertiamatrix type partCfg M0 i =
      if i = 7 then
        ((of_type type partCfg).map (fun pt => moi_term (centermass type partCfg) pt 5)).sum
      else if i = 6 then
        ((of_type type partCfg).map (fun pt => moi_term (centermass type partCfg) pt 2)).sum
      else if i = 3 then
        ((of_type type partCfg).map (fun pt => moi_term (centermass type partCfg) pt 1)).sum
      else
        (if 0 ≤ i ∧ i < 9 then 0 else M0 i) +
          ((of_type type partCfg).map (fun pt => moi_term (centermass type partCfg) pt i)).sum := by
  unfold momentofinertiamatrix
  simp only [Function.update_apply, moi_fold]
  norm_num

theorem centermass_single (type : Int) (partCfg : List (Particle K)) (pt : Particle K)
    (hM : total_mass type partCfg ≠ 0) (hpt : of_type type partCfg = [pt]) :
    centermass type partCfg = pt.p := by
  have hm : total_mass type partCfg = pt.mass := by
    unfold total_mass
    rw [hpt]
    simp
  rw [hm] at hM
  unfold centermass
  rw [centermass_sums_eq]
  dsimp only
  rw [hpt, hm]
  simp only [List.map_cons, List.map_nil, List.sum_cons, List.sum_nil, add_zero]
  rw [mul_div_cancel_left₀ _ hM, mul_div_cancel_left₀ _ hM, mul_div_cancel_left₀ _ hM]

/-- Entry `[3a+b]` is the sum accumulated in the entry of the upper triangle. -/
theorem momentofinertiamatrix_upper (type : Int) (partCfg : List (Particle K))
    (M0 : Int → K) (a b : Nat) (ha : a < 3) (hb : b < 3) :
    momentofinertiamatrix type partCfg M0 ((3 * a + b : Nat) : Int) =
      ((of_type type partCfg).map (fun pt => moi_term (centermass type partCfg) pt
        (((if a ≤ b then 3 * a + b else 3 * b + a : Nat)) : Int))).sum := by
  rw [momentofinertiamatrix_entry]
  interval_cases a <;> interval_cases b <;> norm_num

theorem moi_term_eq (com : Vec3 K) (pt : Particle K) (a b : Nat) (ha : a < 3) (hb : b < 3) :
    moi_term com pt (((if a ≤ b then 3 * a + b else 3 * b + a : Nat)) : Int) =
      pt.mass *
        ((if a = b then
            (pt.p.x - com.x) * (pt.p.x - com.x) + (pt.p.y - com.y) * (pt.p.y - com.y) +
              (pt.p.z - com.z) * (pt.p.z - com.z)
          else 0) -
          (Vec3.component ⟨pt.p.x - com.x, pt.p.y - com.y, pt.p.z - com.z⟩ a) *
            (Vec3.component ⟨pt.p.x - com.x, pt.p.y - com.y, pt.p.z - com.z⟩ b)) := by
  interval_cases a <;> interval_cases b <;> norm_num [moi_term, Vec3.component] <;>
    first | ring1 | (left; ring1)

/-- C29: when the particles of the given type have non-zero total mass,
`momentofinertiamatrix` returns a symmetric 3x3 matrix (entries [1]=[3], [2]=[6],
[5]=[7]) whose entry `[3a+b]` is the inertia tensor about the centre of mass,
`sum of m * (|d|² δ_ab - d_a d_b)` with `d = position - centermass(type)` over the
particles of the type; for a single particle of the type all nine entries are 0. -/
theorem momentofinertiamatrix_is_inertia_tensor (type : Int) (partCfg : List (Particle K))
    (M0 : Int → K) (hM : total_mass type partCfg ≠ 0) :
    (∀ a b : Nat, a < 3 → b < 3 →
      momentofinertiamatrix type partCfg M0 ((3 * a + b : Nat) : Int) =
        inertia_tensor type partCfg (centermass type partCfg) a b) ∧
    momentofinertiamatrix type partCfg M0 1 = momentofinertiamatrix type partCfg M0 3 ∧
    momentofinertiamatrix type partCfg M0 2 = momentofinertiamatrix type partCfg M0 6 ∧
    momentofinertiamatrix type partCfg M0 5 = momentofinertiamatrix type partCfg M0 7 ∧
    (∀ pt : Particle K, of_type type partCfg = [pt] →
      ∀ i : Int, 0 ≤ i → i < 9 → momentofinertiamatrix type partCfg M0 i = 0) := by
  refine ⟨?_, ?_, ?_, ?_, ?_⟩
  · intro a b ha hb
    rw [momentofinertiamatrix_upper type partCfg M0 a b ha hb]
    unfold inertia_tensor
    congr 1
    apply List.map_congr_left
    intro pt _
    exact moi_term_eq _ pt a b ha hb
  · rw [momentofinertiamatrix_entry, momentofinertiamatrix_entry]
    norm_num
  · rw [momentofinertiamatrix_entry, momentofinertiamatrix_entry]
    norm_num
  · rw [momentofinertiamatrix_entry, momentofinertiamatrix_entry]
    norm_num
  · intro pt hpt i hi0 hi9
    have hself : ∀ j : Int, moi_term pt.p pt j = 0 := by
      intro j
      simp [moi_term]
    rw [momentofinertiamatrix_entry, centermass_single type partCfg pt hM hpt, hpt]
    simp only [List.map_cons, List.map_nil, List.sum_cons, List.sum_nil, add_zero, hself]
    simp [hi0, hi9]

theorem momentofinertiamatrix_is_inertia_tensor_witness :
    total_mass 0 ([⟨0, 0, 0, 1, ⟨1, 2, 3⟩⟩, ⟨1, 1, 0, 5, ⟨9, 9, 9⟩⟩,
        ⟨2, 0, 0, 3, ⟨5, 6, 7⟩⟩] : List (Particle ℚ)) ≠ 0 ∧
      momentofinertiamatrix 0 ([⟨0, 0, 0, 1, ⟨1, 2, 3⟩⟩, ⟨1, 1, 0, 5, ⟨9, 9, 9⟩⟩,
        ⟨2, 0, 0, 3, ⟨5, 6, 7⟩⟩] : List (Particle ℚ)) (fun _ => 77) 1 =
      momentofinertiamatrix 0 ([⟨0, 0, 0, 1, ⟨1, 2, 3⟩⟩, ⟨1, 1, 0, 5, ⟨9, 9, 9⟩⟩,
        ⟨2, 0, 0, 3, ⟨5, 6, 7⟩⟩] : List (Particle ℚ)) (fun _ => 77) 3 ∧
      (List.range 9).map (fun (i : Nat) =>
        momentofinertiamatrix 0 ([⟨0, 0, 0, 1, ⟨1, 2, 3⟩⟩, ⟨1, 1, 0, 5, ⟨9, 9, 9⟩⟩,
          ⟨2, 0, 0, 3, ⟨5, 6, 7⟩⟩] : List (Particle ℚ)) (fun _ => 77) (i : Int)) =
        [24, -12, -12, -12, 24, -12, -12, -12, 24] := by
  have hM : total_mass 0 ([⟨0, 0, 0, 1, ⟨1, 2, 3⟩⟩, ⟨1, 1, 0, 5, ⟨9, 9, 9⟩⟩,
      ⟨2, 0, 0, 3, ⟨5, 6, 7⟩⟩] : List (Particle ℚ)) ≠ 0 := by
    decide!
  exact ⟨hM, (momentofinertiamatrix_is_inertia_tensor 0 _ (fun _ => 77) hM).2.1, by decide!⟩

end InertiaProofs

/-! ## Proofs: the regimes of `calc_cell_gpb` -/

section GpbLoops

variable {K : Type} [LinearOrderedField K] [FloorRing K]

theorem gpb_loop_pos_spec (m : Libm K) (xi_m LOG gacc : K) :
    ∀ (n : Nat) (st : Bisection K),
      ∃ (r : Nat) (rtb : K), 1 ≤ r ∧ r ≤ n + 1 ∧
        (gpb_loop_pos m xi_m LOG gacc (n + 1) st).rounds = st.rounds + r ∧
        (gpb_loop_pos m xi_m LOG gacc (n + 1) st).dg = st.dg * (1 / 2) ^ r ∧
        (gpb_loop_pos m xi_m LOG gacc (n + 1) st).gmid =
          rtb + (gpb_loop_pos m xi_m LOG gacc (n + 1) st).dg ∧
        (gpb_loop_pos m xi_m LOG gacc (n + 1) st).fmid =
          gpb_f_pos m xi_m LOG (gpb_loop_pos m xi_m LOG gacc (n + 1) st).gmid := by
  intro n
  induction n with
  | zero =>
    intro st
    refine ⟨1, st.rtb, le_refl _, le_refl _, ?_⟩
    unfold gpb_loop_pos
    dsimp only
    by_cases hbreak : |st.dg * (1 / 2)| < gacc ∨
        gpb_f_pos m xi_m LOG (st.rtb + st.dg * (1 / 2)) = 0
    · rw [if_pos hbreak]
      simp
    · rw [if_neg hbreak]
      unfold gpb_loop_pos
      simp
  | succ n ih =>
    intro st
    unfold gpb_loop_pos
    dsimp only
    by_cases hbreak : |st.dg * (1 / 2)| < gacc ∨
        gpb_f_pos m xi_m LOG (st.rtb + st.dg * (1 / 2)) = 0
    · rw [if_pos hbreak]
      exact ⟨1, st.rtb, le_refl _, by omega, rfl, by simp, rfl, rfl⟩
    · rw [if_neg hbreak]
      obtain ⟨r, rtb, h1, h2, h3, h4, h5, h6⟩ := ih
        ⟨if gpb_f_pos m xi_m LOG (st.rtb + st.dg * (1 / 2)) ≤ 0 then st.rtb + st.dg * (1 / 2)
          else st.rtb, st.dg * (1 / 2), st.rtb + st.dg * (1 / 2),
          gpb_f_pos m xi_m LOG (st.rtb + st.dg * (1 / 2)), st.rounds + 1⟩
      refine ⟨r + 1, rtb, by omega, by omega, ?_, ?_, h5, h6⟩
      · rw [h3]
        dsimp only
        omega
      · rw [h4]
        dsimp only
        rw [pow_succ]
        ring

theorem gpb_max_rounds_pos (maxtry : Int) : ∃ n : Nat, gpb_max_rounds maxtry = n + 1 := by
  unfold gpb_max_rounds
  split_ifs with h
  · exact ⟨0, rfl⟩
  · exact ⟨maxtry.toNat - 1, by omega⟩

end GpbLoops

section GpbRegimes

variable {K : Type} [LinearOrderedField K] [FloorRing K]

/-- For a negative `xi_m` and `xi_min ≥ 0` no regime is selected. -/
theorem gpb_regime_none (m : Libm K) (PI xi_m LOG xi_min : K) (hx : xi_m < 0)
    (hmin : 0 ≤ xi_min) : gpb_regime m PI xi_m LOG xi_min = none := by
  unfold gpb_regime
  rw [if_neg (by linarith), if_neg (by linarith), if_neg (by linarith),
    if_neg (by linarith), if_neg (by linarith), if_neg (by linarith)]

/-- At `xi_m = xi_min < 1` the closed form `(0, 0, 1)` is returned. -/
theorem calc_cell_gpb_at_xi_min (m : Libm K) (PI Rc ro gacc : K) (maxtry : Int)
    (result : Vec3 K) (hlt : m.log (Rc / ro) / (1 + m.log (Rc / ro)) < 1) :
    calc_cell_gpb m PI (m.log (Rc / ro) / (1 + m.log (Rc / ro))) Rc ro gacc maxtry result =
      (⟨0, 0, 1⟩, 0) := by
  have hreg : gpb_regime m PI (m.log (Rc / ro) / (1 + m.log (Rc / ro)))
      (m.log (Rc / ro)) (m.log (Rc / ro) / (1 + m.log (Rc / ro))) = some (1, 0, 0) := by
    unfold gpb_regime
    rw [if_neg (not_lt.mpr (le_of_lt hlt)), if_neg (ne_of_lt hlt), if_pos rfl]
  unfold calc_cell_gpb
  dsimp only
  rw [hreg]
  dsimp only
  rw [if_pos rfl]

/-- C21 (as amended): for every `xi_m < 0` and radii with `log(Rc/ro) ≥ 0` (as for
`Rc ≥ ro > 0`), `calc_cell_gpb` sets `result[2] = -5`, leaves `result[0]` and `result[1]`
as they were and runs no bisection round. -/
theorem calc_cell_gpb_rejects_negative_xi (m : Libm K) (PI xi_m Rc ro gacc : K)
    (maxtry : Int) (result : Vec3 K) (hx : xi_m < 0) (hL : 0 ≤ m.log (Rc / ro)) :
    calc_cell_gpb m PI xi_m Rc ro gacc maxtry result = (⟨result.x, result.y, -5⟩, 0) := by
  have hmin : 0 ≤ m.log (Rc / ro) / (1 + m.log (Rc / ro)) :=
    div_nonneg hL (by linarith)
  unfold calc_cell_gpb
  dsimp only
  rw [gpb_regime_none m PI xi_m _ _ hx hmin]

theorem calc_cell_gpb_rejects_negative_xi_witness :
    (-1 : ℝ) < 0 ∧ (0 : ℝ) ≤ Real.log (2 / 1) ∧
      calc_cell_gpb
          (⟨Real.log, Real.sqrt, Real.arctan, fun x => 1 / 2 * Real.log ((1 + x) / (1 - x)),
            Real.exp, fun x y => x ^ y⟩ : Libm ℝ)
          Real.pi (-1) 2 1 (1 / 1000000) 30000 ⟨7, 8, 9⟩ = (⟨7, 8, -5⟩, 0) :=
  ⟨by norm_num, Real.log_nonneg (by norm_num),
    calc_cell_gpb_rejects_negative_xi
      (⟨Real.log, Real.sqrt, Real.arctan, fun x => 1 / 2 * Real.log ((1 + x) / (1 - x)),
        Real.exp, fun x y => x ^ y⟩ : Libm ℝ)
      Real.pi (-1) 2 1 (1 / 1000000) 30000 ⟨7, 8, 9⟩ (by norm_num)
      (Real.log_nonneg (by norm_num))⟩

/-- C21 (counterexample): with `Rc = 1 < ro = 2` the value `xi_min` is negative, and for
`xi_m = xi_min < 0` `calc_cell_gpb` returns the closed form `(0, 0, 1)`, not
`result[2] = -5`. -/
theorem calc_cell_gpb_negative_xi_accepted :
    Real.log (1 / 2) / (1 + Real.log (1 / 2)) < 0 ∧ (0 : ℝ) < 1 ∧ (0 : ℝ) < 2 ∧
      calc_cell_gpb
          (⟨Real.log, Real.sqrt, Real.arctan, fun x => 1 / 2 * Real.log ((1 + x) / (1 - x)),
            Real.exp, fun x y => x ^ y⟩ : Libm ℝ)
          Real.pi (Real.log (1 / 2) / (1 + Real.log (1 / 2))) 1 2 (1 / 1000000) 30000
          ⟨7, 8, 9⟩ = (⟨0, 0, 1⟩, 0) ∧
      (calc_cell_gpb
          (⟨Real.log, Real.sqrt, Real.arctan, fun x => 1 / 2 * Real.log ((1 + x) / (1 - x)),
            Real.exp, fun x y => x ^ y⟩ : Libm ℝ)
          Real.pi (Real.log (1 / 2) / (1 + Real.log (1 / 2))) 1 2 (1 / 1000000) 30000
          ⟨7, 8, 9⟩).1.z ≠ -5 := by
  have hlog : Real.log (1 / 2) = -Real.log 2 := by
    rw [one_div, Real.log_inv]
  have h2a : Real.log 2 < 1 := lt_trans Real.log_two_lt_d9 (by norm_num)
  have h2b : 0 < Real.log 2 := Real.log_pos (by norm_num)
  have hneg : Real.log (1 / 2) / (1 + Real.log (1 / 2)) < 0 := by
    rw [hlog]
    exact div_neg_of_neg_of_pos (by linarith) (by linarith)
  have hval := calc_cell_gpb_at_xi_min
    (⟨Real.log, Real.sqrt, Real.arctan, fun x => 1 / 2 * Real.log ((1 + x) / (1 - x)),
      Real.exp, fun x y => x ^ y⟩ : Libm ℝ)
    Real.pi 1 2 (1 / 1000000) 30000 ⟨7, 8, 9⟩ (lt_trans hneg (by norm_num))
  refine ⟨hneg, by norm_num, by norm_num, hval, ?_⟩
  rw [hval]
  norm_num

end GpbRegimes

section GpbConvergence

variable {K : Type} [LinearOrderedField K] [FloorRing K]

end GpbConvergence

section GpbCommandClaims

variable {K : Type} [LinearOrderedField K] [FloorRing K]

/-- With five words `parse_cell_gpb` reads the iteration limit from the fifth word and
never reads the fourth: `calc_cell_gpb` is called with `gacc = 1e-6`. -/
theorem parse_cell_gpb_five_words (m : Libm K) (PI : K) (w0 w1 w2 w3 w4 : TclArg K)
    (xi_m Rc ro : K) (maxtry : Int) (result : Vec3 K)
    (h0 : w0.as_double = some xi_m) (h1 : w1.as_double = some Rc)
    (h2 : w2.as_double = some ro) (h4 : w4.as_int = some maxtry)
    (hx : 0 ≤ xi_m) (hRc : 0 < Rc) (hro : 0 < ro) :
    (parse_cell_gpb m PI [w0, w1, w2, w3, w4] result).2.1 =
      some ⟨xi_m, Rc, ro, 1 / 1000000, maxtry⟩ := by
  simp [parse_cell_gpb, gpb_gacc, gpb_maxtry, h0, h1, h2, h4, not_lt.mpr hx, hRc, hro]

/-- C30: the call `analyze cell_gpb 0.5 2 1 0.1 5` (both optional arguments given) runs
`calc_cell_gpb` with the iteration limit 5 but with the accuracy `1e-6`, not with the
accuracy 0.1 of the fourth word. -/
theorem parse_cell_gpb_ignores_accuracy_of_five_words :
    (parse_cell_gpb
        (⟨Real.log, Real.sqrt, Real.arctan, fun x => 1 / 2 * Real.log ((1 + x) / (1 - x)),
          Real.exp, fun x y => x ^ y⟩ : Libm ℝ)
        Real.pi
        [double_arg (1 / 2), int_arg 2, int_arg 1, double_arg (1 / 10), int_arg 5]
        ⟨7, 8, 9⟩).2.1 = some ⟨1 / 2, 2, 1, 1 / 1000000, 5⟩ ∧
      ((1 : ℝ) / 1000000 ≠ 1 / 10) := by
  refine ⟨?_, by norm_num⟩
  have h := parse_cell_gpb_five_words
    (⟨Real.log, Real.sqrt, Real.arctan, fun x => 1 / 2 * Real.log ((1 + x) / (1 - x)),
      Real.exp, fun x y => x ^ y⟩ : Libm ℝ)
    Real.pi (double_arg (1 / 2)) (int_arg 2) (int_arg 1) (double_arg (1 / 10)) (int_arg 5)
    (1 / 2) 2 1 5 ⟨7, 8, 9⟩ rfl (by simp [int_arg]) (by simp [int_arg]) rfl (by norm_num)
    (by norm_num) (by norm_num)
  exact h

end GpbCommandClaims

/-! ## Proofs: the commands -/

section CommandClaims

variable {K : Type} [LinearOrderedField K] [FloorRing K]

/-- C23: once the words of `analyze distribution` are read and the defaults are set,
`parse_distribution` returns `TCL_ERROR` without calling `calc_part_distribution`
whenever `r_bins < 1`, or `r_max ≤ r_min`, or `r_min < 0`, or `log_flag = 1` with
`r_min = 0`; for all other values it returns `TCL_OK` with the distribution computed by
`calc_part_distribution` (integrated when `int_flag = 1`).  When a word cannot be read it
returns `TCL_ERROR` as well. -/
theorem parse_distribution_validates_bins (sqrt log : K → K) (box_l : Vec3 K) (min_box_l : K)
    (partCfg : List (Particle K)) (argv : List (TclWord K)) (distribution : Int → K) :
    (distribution_args min_box_l (partCfg.length : Int) argv = none →
      parse_distribution sqrt log box_l min_box_l partCfg argv distribution =
        (TCL_ERROR, none)) ∧
    (∀ a : DistributionArgs K,
      distribution_args min_box_l (partCfg.length : Int) argv = some a →
      ((a.r_bins < 1 ∨ a.r_max ≤ a.r_min ∨ a.r_min < 0 ∨ (a.log_flag = 1 ∧ a.r_min = 0)) →
        parse_distribution sqrt log box_l min_box_l partCfg argv distribution =
          (TCL_ERROR, none)) ∧
      (¬ (a.r_bins < 1 ∨ a.r_max ≤ a.r_min ∨ a.r_min < 0 ∨
          (a.log_flag = 1 ∧ a.r_min = 0)) →
        parse_distribution sqrt log box_l min_box_l partCfg argv distribution =
          (TCL_OK,
            some (if a.int_flag = 1 then
              distribution_integrate a.r_bins
                (calc_part_distribution sqrt log box_l partCfg a.p1 a.p2 a.r_min a.r_max
                  a.r_bins a.log_flag distribution).1
                (calc_part_distribution sqrt log box_l partCfg a.p1 a.p2 a.r_min a.r_max
                  a.r_bins a.log_flag distribution).2
            else
              (calc_part_distribution sqrt log box_l partCfg a.p1 a.p2 a.r_min a.r_max
                a.r_bins a.log_flag distribution).2)))) := by
  constructor
  · intro ha
    unfold parse_distribution
    rw [ha]
  · intro a ha
    constructor
    · intro hbad
      unfold parse_distribution
      rw [ha]
      dsimp only
      by_cases h1 : a.r_min < 0 ∨ (a.log_flag = 1 ∧ a.r_min = 0)
      · rw [if_pos h1]
      rw [if_neg h1]
      by_cases h2 : a.r_max ≤ a.r_min
      · rw [if_pos h2]
      rw [if_neg h2]
      by_cases h3 : a.r_bins < 1
      · rw [if_pos h3]
      exfalso
      rcases hbad with h | h | h | h
      · exact h3 h
      · exact h2 h
      · exact h1 (Or.inl h)
      · exact h1 (Or.inr h)
    · intro hok
      unfold parse_distribution
      rw [ha]
      dsimp only
      rw [if_neg (fun h => hok (h.elim (fun h => Or.inr (Or.inr (Or.inl h)))
          (fun h => Or.inr (Or.inr (Or.inr h))))),
        if_neg (fun h => hok (Or.inr (Or.inl h))), if_neg (fun h => hok (Or.inl h))]

theorem parse_distribution_validates_bins_witness :
    parse_distribution Real.sqrt Real.log (box10 : Vec3 ℝ) 10 three_on_a_line
        [⟨bad_arg, some [0]⟩, ⟨bad_arg, some [0]⟩, ⟨double_arg 0, none⟩,
          ⟨double_arg 5, none⟩, ⟨int_arg 0, none⟩] (fun _ => 7) = (TCL_ERROR, none) ∧
      (parse_distribution Real.sqrt Real.log (box10 : Vec3 ℝ) 10 three_on_a_line
        [⟨bad_arg, some [0]⟩, ⟨bad_arg, some [0]⟩, ⟨double_arg 0, none⟩,
          ⟨double_arg 5, none⟩, ⟨int_arg 5, none⟩] (fun _ => 7)).1 = TCL_OK := by
  have ha0 : distribution_args (10 : ℝ) ((three_on_a_line : List (Particle ℝ)).length : Int)
      [⟨bad_arg, some [0]⟩, ⟨bad_arg, some [0]⟩, ⟨double_arg 0, none⟩,
        ⟨double_arg 5, none⟩, ⟨int_arg 0, none⟩] = some ⟨[0], [0], 0, 5, 0, 0, 0⟩ := by
    simp [distribution_args, opt_double, opt_int, double_arg, int_arg, bad_arg]
    norm_num
  have ha5 : distribution_args (10 : ℝ) ((three_on_a_line : List (Particle ℝ)).length : Int)
      [⟨bad_arg, some [0]⟩, ⟨bad_arg, some [0]⟩, ⟨double_arg 0, none⟩,
        ⟨double_arg 5, none⟩, ⟨int_arg 5, none⟩] = some ⟨[0], [0], 0, 5, 5, 0, 0⟩ := by
    simp [distribution_args, opt_double, opt_int, double_arg, int_arg, bad_arg]
    norm_num
  constructor
  · exact ((parse_distribution_validates_bins Real.sqrt Real.log box10 10 three_on_a_line _
      (fun _ => 7)).2 _ ha0).1 (Or.inl (by decide))
  · rw [((parse_distribution_validates_bins Real.sqrt Real.log box10 10 three_on_a_line _
      (fun _ => 7)).2 _ ha5).2 (by norm_num)]

end CommandClaims

section RdfCommandClaims

variable {K : Type} [LinearOrderedField K] [FloorRing K]

/-- Once its words are read, `analyze rdf` always calls `calc_rdf` and returns `TCL_OK`:
neither `r_bins` nor `r_min`, `r_max` are checked. -/
theorem parse_rdf_never_checks_bins (sqrt : K → K) (PI : K) (box_l : Vec3 K) (min_box_l : K)
    (partCfg : List (Particle K)) (h : History K) (argv : List (TclWord K))
    (rdf rdf_tmp : Int → K) (a : RdfArgs K)
    (ha : rdf_args min_box_l (partCfg.length : Int) h.n_configs 0 argv = some a) :
    parse_rdf sqrt PI box_l min_box_l partCfg h 0 argv rdf rdf_tmp =
      (TCL_OK, some (calc_rdf sqrt PI box_l partCfg a.p1 a.p2 a.r_min a.r_max a.r_bins rdf)) := by
  unfold parse_rdf
  rw [ha]
  dsimp only
  rw [if_pos rfl]

/-- C24: the call `analyze rdf 0 0 2 1 10` (`r_min = 2 > r_max = 1`) returns `TCL_OK` and
`calc_rdf` is run on the empty range; the call `analyze rdf 0 0` with three particles
(default `r_bins = 3 / 20 = 0`) returns `TCL_OK` and `calc_rdf` is run with `r_bins = 0`. -/
theorem parse_rdf_accepts_bad_bins :
    parse_rdf Real.sqrt Real.pi (box10 : Vec3 ℝ) 10 three_on_a_line empty_history 0
        [⟨bad_arg, some [0]⟩, ⟨bad_arg, some [0]⟩, ⟨double_arg 2, none⟩,
          ⟨double_arg 1, none⟩, ⟨int_arg 10, none⟩] (fun _ => 7) (fun _ => 7) =
      (TCL_OK,
        some (calc_rdf Real.sqrt Real.pi (box10 : Vec3 ℝ) three_on_a_line [0] [0] 2 1 10
          (fun _ => 7))) ∧
    parse_rdf Real.sqrt Real.pi (box10 : Vec3 ℝ) 10 three_on_a_line empty_history 0
        [⟨bad_arg, some [0]⟩, ⟨bad_arg, some [0]⟩] (fun _ => 7) (fun _ => 7) =
      (TCL_OK,
        some (calc_rdf Real.sqrt Real.pi (box10 : Vec3 ℝ) three_on_a_line [0] [0] 0 (10 / 2) 0
          (fun _ => 7))) := by
  constructor
  · apply parse_rdf_never_checks_bins Real.sqrt Real.pi box10 10 three_on_a_line
      empty_history _ (fun _ => 7) (fun _ => 7) ⟨[0], [0], 2, 1, 10, 1⟩
    simp [rdf_args, opt_double, opt_int, double_arg, int_arg, bad_arg]
    norm_num
  · apply parse_rdf_never_checks_bins Real.sqrt Real.pi box10 10 three_on_a_line
      empty_history _ (fun _ => 7) (fun _ => 7) ⟨[0], [0], 0, 10 / 2, 0, 1⟩
    simp [rdf_args, opt_double, opt_int, bad_arg, three_on_a_line]

end RdfCommandClaims

section AggregationCommandClaims

variable {K : Type} [LinearOrderedField K] [FloorRing K]

/-- C25 (as amended): `parse_aggregation` uses only the square of the distance criterion.
A first word that reads as `-d` gives the same result as one that reads as `d`; and when
the words are read, the node, cell system and molecule id checks pass and
`d * d ≤ max_range_non_bonded2`, the command returns `TCL_OK` and `aggregation` is run
with `dist_criteria2 = d * d`, whatever the sign of `d`. -/
theorem parse_aggregation_uses_squared_criterion (distance2vec : Vec3 K → Vec3 K → K)
    (n_molecules n_nodes : Int) (domdec : Bool) (max_range_non_bonded2 : K)
    (pairs : List (Particle K × Particle K)) (fuel : Nat) (junk : Int)
    (w w' w1 w2 : TclArg K) (rest : List (TclArg K)) (d : K) (s_mol_id f_mol_id : Int)
    (hw : w.as_double = some d) (hw' : w'.as_double = some (-d))
    (h1 : w1.as_int = some s_mol_id) (h2 : w2.as_int = some f_mol_id) :
    parse_aggregation distance2vec n_molecules n_nodes domdec max_range_non_bonded2 pairs
        fuel junk (w' :: w1 :: w2 :: rest) =
      parse_aggregation distance2vec n_molecules n_nodes domdec max_range_non_bonded2 pairs
        fuel junk (w :: w1 :: w2 :: rest) ∧
    (n_nodes ≤ 1 → domdec = true → 0 ≤ s_mol_id → s_mol_id ≤ n_molecules →
      0 ≤ f_mol_id → f_mol_id ≤ n_molecules → d * d ≤ max_range_non_bonded2 →
      rest = [] →
      parse_aggregation distance2vec n_molecules n_nodes domdec max_range_non_bonded2 pairs
          fuel junk (w :: w1 :: w2 :: rest) =
        (TCL_OK,
          some
            { dist_criteria2 := d * d
              min_contact := 1
              s_mol_id := s_mol_id
              f_mol_id := f_mol_id
              state :=
                (aggregation distance2vec n_molecules pairs fuel (d * d) 1 s_mol_id f_mol_id
                  (caller_state n_molecules junk)) })) := by
  constructor
  · unfold parse_aggregation
    simp only [List.length_cons, List.getElem?_cons_zero, List.getElem?_cons_succ,
      Option.some_bind, hw, hw', h1, h2, neg_mul_neg]
  · intro hn hd hs0 hs1 hf0 hf1 hmax hrest
    subst hrest
    unfold parse_aggregation
    simp only [List.length_cons, List.length_nil, List.getElem?_cons_zero,
      List.getElem?_cons_succ, Option.some_bind, hw, h1, h2]
    rw [if_neg (by omega), if_neg (by omega), if_neg (by rw [hd]; exact Bool.noConfusion),
      if_neg (by omega), if_neg (not_lt.mpr hmax)]
    simp

theorem parse_aggregation_uses_squared_criterion_witness :
    parse_aggregation distance2vec_plain 2 1 true (100 : ℚ) [] 10 7
        [double_arg (-3), int_arg 0, int_arg 1] =
      parse_aggregation distance2vec_plain 2 1 true (100 : ℚ) [] 10 7
        [double_arg 3, int_arg 0, int_arg 1] ∧
    (parse_aggregation distance2vec_plain 2 1 true (100 : ℚ) [] 10 7
        [double_arg 3, int_arg 0, int_arg 1]).1 = TCL_OK := by
  have h := parse_aggregation_uses_squared_criterion distance2vec_plain 2 1 true (100 : ℚ)
    [] 10 7 (double_arg 3) (double_arg (-3)) (int_arg 0) (int_arg 1) [] 3 0 1 rfl rfl rfl rfl
  refine ⟨h.1, ?_⟩
  rw [h.2 (by decide) rfl (by decide) (by decide) (by decide) (by decide) (by norm_num) rfl]

/-- C25 (counterexample): the call `analyze aggregation -1 0 1` with two molecules on one
node with the domain decomposition cell system returns `TCL_OK`, and `aggregation` is run
with `dist_criteria2 = 1`. -/
theorem parse_aggregation_accepts_negative_criterion :
    (-1 : ℚ) < 0 ∧
    (parse_aggregation distance2vec_plain 2 1 true (100 : ℚ) [] 10 7
        [double_arg (-1), int_arg 0, int_arg 1]).1 = TCL_OK ∧
    (parse_aggregation distance2vec_plain 2 1 true (100 : ℚ) [] 10 7
        [double_arg (-1), int_arg 0, int_arg 1]).2.map (fun run => run.dist_criteria2) =
      some 1 := by
  refine ⟨by norm_num, ?_, ?_⟩
  · decide!
  · decide!

end AggregationCommandClaims

/-! ## Proofs: `analyze_structurefactor` -/

section SfProofs

variable {K : Type} [LinearOrderedField K] [FloorRing K]

theorem sf_sums_fold (cos sin : K → K) (twoPI_L : K) (type i j k : Int) :
    ∀ (l : List (Particle K)) (acc : K × K),
      l.foldl
        (fun (acc : K × K) pt =>
          if pt.type = type then
            (acc.1 + cos (twoPI_L * ((i : K) * pt.p.x + (j : K) * pt.p.y + (k : K) * pt.p.z)),
              acc.2 + sin (twoPI_L * ((i : K) * pt.p.x + (j : K) * pt.p.y + (k : K) * pt.p.z)))
          else acc) acc =
      (acc.1 + sf_cos_sum cos twoPI_L l type (i, j, k),
        acc.2 + sf_sin_sum sin twoPI_L l type (i, j, k)) := by
  intro l
  induction l with
  | nil =>
    intro acc
    simp [sf_cos_sum, sf_sin_sum, of_type]
  | cons pt rest ih =>
    intro acc
    rw [List.foldl_cons, ih]
    unfold sf_cos_sum sf_sin_sum of_type
    by_cases ht : pt.type = type
    · rw [if_pos ht, List.filter_cons_of_pos (by simp [ht])]
      simp only [List.map_cons, List.sum_cons]
      congr 1 <;> ring
    · rw [if_neg ht, List.filter_cons_of_neg (by simpa using ht)]

theorem sf_sums_eq (cos sin : K → K) (twoPI_L : K) (partCfg : List (Particle K))
    (type i j k : Int) :
    sf_sums cos sin twoPI_L partCfg type i j k =
      (sf_cos_sum cos twoPI_L partCfg type (i, j, k),
        sf_sin_sum sin twoPI_L partCfg type (i, j, k)) := by
  unfold sf_sums
  rw [sf_sums_fold]
  simp

theorem sf_count_fold (type : Int) :
    ∀ (l : List (Particle K)) (n : Int),
      l.foldl (fun n pt => if pt.type = type then n + 1 else n) n =
        n + ((of_type type l).length : Int) := by
  intro l
  induction l with
  | nil =>
    intro n
    simp [of_type]
  | cons pt rest ih =>
    intro n
    rw [List.foldl_cons, ih]
    unfold of_type
    by_cases ht : pt.type = type
    · rw [if_pos ht, List.filter_cons_of_pos (by simp [ht]), List.length_cons]
      push_cast
      ring
    · rw [if_neg ht, List.filter_cons_of_neg (by simpa using ht)]

theorem sf_count_eq (partCfg : List (Particle K)) (type : Int) :
    sf_count partCfg type = ((of_type type partCfg).length : Int) := by
  unfold sf_count
  rw [sf_count_fold, zero_add]

/-- The three lattice loops visit the vectors of `sf_lattice`, in order. -/
theorem sf_loops_eq_fold {A : Type} (order : Int) (step : A → Int × Int × Int → A) (acc : A) :
    (mol_range 0 order).foldl
        (fun acc i =>
          (mol_range (-order) order).foldl
            (fun acc j =>
              (mol_range (-order) order).foldl (fun acc k => step acc (i, j, k)) acc)
            acc)
        acc =
      (sf_lattice order).foldl step acc := by
  unfold sf_lattice
  rw [foldl_flatMap_eq]
  congr 1
  funext acc i
  rw [foldl_flatMap_eq]
  congr 1
  funext acc j
  rw [List.foldl_map]

theorem mem_sf_lattice (order : Int) (v : Int × Int × Int) :
    v ∈ sf_lattice order ↔
      (0 ≤ v.1 ∧ v.1 ≤ order) ∧ (-order ≤ v.2.1 ∧ v.2.1 ≤ order) ∧
        (-order ≤ v.2.2 ∧ v.2.2 ≤ order) := by
  unfold sf_lattice
  simp only [List.mem_flatMap, List.mem_map, mem_mol_range]
  constructor
  · rintro ⟨i, hi, j, hj, k, hk, rfl⟩
    exact ⟨hi, hj, hk⟩
  · rintro ⟨hi, hj, hk⟩
    exact ⟨v.1, hi, v.2.1, hj, v.2.2, hk, rfl⟩

/-- Folding the lattice step over a list of vectors: entry `b` of `ff` grows by the terms
of the counted vectors of squared length `b`, entry `b` of `fn` by their number. -/
theorem sf_fold (cos sin : K → K) (twoPI_L : K) (partCfg : List (Particle K))
    (type order2 : Int) (b : Int) :
    ∀ (l : List (Int × Int × Int)) (acc : SfAcc K),
      (l.foldl (sf_vector_step cos sin twoPI_L partCfg type order2) acc).ff b =
        acc.ff b +
          ((l.filter (fun v => decide (v.1 * v.1 + v.2.1 * v.2.1 + v.2.2 * v.2.2 = b ∧
              b ≤ order2 ∧ b > 0))).map (fun v =>
            sf_cos_sum cos twoPI_L partCfg type v * sf_cos_sum cos twoPI_L partCfg type v +
              sf_sin_sum sin twoPI_L partCfg type v *
                sf_sin_sum sin twoPI_L partCfg type v)).sum ∧
      (l.foldl (sf_vector_step cos sin twoPI_L partCfg type order2) acc).fn b =
        acc.fn b +
          ((l.filter (fun v => decide (v.1 * v.1 + v.2.1 * v.2.1 + v.2.2 * v.2.2 = b ∧
              b ≤ order2 ∧ b > 0))).length : Int) := by
  intro l
  induction l with
  | nil =>
    intro acc
    simp
  | cons v rest ih =>
    intro acc
    obtain ⟨ih1, ih2⟩ := ih (sf_vector_step cos sin twoPI_L partCfg type order2 acc v)
    rw [List.foldl_cons, ih1, ih2]
    by_cases hb : v.1 * v.1 + v.2.1 * v.2.1 + v.2.2 * v.2.2 = b
    · by_cases hg : b ≤ order2 ∧ b > 0
      · rw [List.filter_cons_of_pos (by simp [hb, hg.1, hg.2])]
        unfold sf_vector_step
        dsimp only
        rw [hb, if_pos hg]
        dsimp only
        rw [Function.update_same, Function.update_same, sf_sums_eq, List.map_cons,
          List.sum_cons, List.length_cons]
        dsimp only
        constructor
        · ring
        · push_cast
          ring
      · rw [List.filter_cons_of_neg (by
          simp only [decide_eq_true_eq]
          exact fun h => hg h.2)]
        unfold sf_vector_step
        dsimp only
        rw [hb, if_neg hg]
        exact ⟨rfl, rfl⟩
    · rw [List.filter_cons_of_neg (by simp [hb])]
      unfold sf_vector_step
      dsimp only
      by_cases hg : v.1 * v.1 + v.2.1 * v.2.1 + v.2.2 * v.2.2 ≤ order2 ∧
          v.1 * v.1 + v.2.1 * v.2.1 + v.2.2 * v.2.2 > 0
      · rw [if_pos hg]
        dsimp only
        rw [Function.update_noteq (Ne.symm hb), Function.update_noteq (Ne.symm hb)]
        exact ⟨rfl, rfl⟩
      · rw [if_neg hg]
        exact ⟨rfl, rfl⟩

end SfProofs

section SfClaims

variable {K : Type} [LinearOrderedField K] [FloorRing K]

/-- C26: for a valid type with at least one particle and `order ≥ 1`,
`analyze_structurefactor` returns, and for every `n` in `1..order²` that is the squared
length of a lattice vector `(i, j, k)` with `0 ≤ i ≤ order`, `|j|, |k| ≤ order`,
`ff[n]` is the sum of `C² + S²` over these vectors divided by `N_t` times their number,
where `C` and `S` are the sums of `cos(q.r)` and `sin(q.r)` over the particles of the
type with `q = (2 PI / box_l[0]) (i, j, k)`; `ff[n] = 0` for `n` with no lattice vector;
and for `N_t = 1` (with `cos² + sin² = 1`) every `ff[n]` with a lattice vector is 1. -/
theorem analyze_structurefactor_averages_shells (cos sin : K → K) (PI : K) (box_l : Vec3 K)
    (n_particle_types : Int) (partCfg : List (Particle K)) (type order : Int)
    (ff : Int → K) (fn : Int → Int)
    (ht0 : 0 ≤ type) (ht1 : type ≤ n_particle_types) (ho : 1 ≤ order)
    (hN : 1 ≤ (of_type type partCfg).length) :
    ∃ out : Int → K,
      analyze_structurefactor cos sin PI box_l n_particle_types partCfg type order ff fn =
        SfOutcome.returned out ∧
      (∀ v : Int × Int × Int, v ∈ sf_lattice order ↔
        (0 ≤ v.1 ∧ v.1 ≤ order) ∧ (-order ≤ v.2.1 ∧ v.2.1 ≤ order) ∧
          (-order ≤ v.2.2 ∧ v.2.2 ≤ order)) ∧
      ∀ n : Int, 1 ≤ n → n ≤ order * order →
        (sf_vectors order n ≠ [] →
          out n =
            ((sf_vectors order n).map (fun v =>
              sf_cos_sum cos (2 * PI / box_l.x) partCfg type v *
                  sf_cos_sum cos (2 * PI / box_l.x) partCfg type v +
                sf_sin_sum sin (2 * PI / box_l.x) partCfg type v *
                  sf_sin_sum sin (2 * PI / box_l.x) partCfg type v)).sum /
              (((of_type type partCfg).length : K) * ((sf_vectors order n).length : K))) ∧
        (sf_vectors order n = [] → out n = 0) ∧
        ((of_type type partCfg).length = 1 → (∀ x : K, cos x * cos x + sin x * sin x = 1) →
          sf_vectors order n ≠ [] → out n = 1) := by
  have hshell : ∀ n : Int, 1 ≤ n → n ≤ order * order →
      (sf_lattice order).filter (fun v =>
        decide (v.1 * v.1 + v.2.1 * v.2.1 + v.2.2 * v.2.2 = n ∧ n ≤ order * order ∧ n > 0)) =
      sf_vectors order n := by
    intro n h1 h2
    unfold sf_vectors
    apply List.filter_congr
    intro v _
    apply decide_eq_decide.mpr
    constructor
    · exact fun h => h.1
    · exact fun h => ⟨h, h2, by omega⟩
  have hval : ∀ n : Int, 1 ≤ n → n ≤ order * order →
      sf_normalise (sf_count partCfg type) (order * order)
        ((sf_lattice order).foldl
          (sf_vector_step cos sin (2 * PI / box_l.x) partCfg type (order * order))
          (sf_clear (order * order) ff fn)) n =
      if sf_vectors order n = [] then 0
      else
        ((sf_vectors order n).map (fun v =>
          sf_cos_sum cos (2 * PI / box_l.x) partCfg type v *
              sf_cos_sum cos (2 * PI / box_l.x) partCfg type v +
            sf_sin_sum sin (2 * PI / box_l.x) partCfg type v *
              sf_sin_sum sin (2 * PI / box_l.x) partCfg type v)).sum /
          (((of_type type partCfg).length : K) * ((sf_vectors order n).length : K)) := by
    intro n h1 h2
    obtain ⟨hff, hfn⟩ := sf_fold cos sin (2 * PI / box_l.x) partCfg type (order * order) n
      (sf_lattice order) (sf_clear (order * order) ff fn)
    unfold sf_normalise
    unfold sf_clear at hff hfn ⊢
    rw [hshell n h1 h2] at hff hfn
    dsimp only at hff hfn
    rw [if_pos ⟨h1, h2⟩, zero_add] at hff hfn
    rw [hff, hfn, sf_count_eq, if_pos ⟨by omega, h2⟩]
    by_cases hnil : sf_vectors order n = []
    · rw [if_pos hnil, hnil]
      simp
    · have hpos := List.length_pos.mpr hnil
      rw [if_neg hnil, if_pos (by omega)]
      push_cast
      rfl
  have hret : analyze_structurefactor cos sin PI box_l n_particle_types partCfg type order
      ff fn =
      SfOutcome.returned (sf_normalise (sf_count partCfg type) (order * order)
        ((sf_lattice order).foldl
          (sf_vector_step cos sin (2 * PI / box_l.x) partCfg type (order * order))
          (sf_clear (order * order) ff fn))) := by
    unfold analyze_structurefactor
    dsimp only
    rw [if_neg (by omega), if_neg (by omega), sf_loops_eq_fold]
  refine ⟨_, hret, mem_sf_lattice order, ?_⟩
  · intro n h1 h2
    rw [hval n h1 h2]
    refine ⟨?_, ?_, ?_⟩
    · intro hne
      rw [if_neg hne]
    · intro hnil
      rw [if_pos hnil]
    · intro hone hcs hne
      rw [if_neg hne]
      obtain ⟨pt, hpt⟩ := List.length_eq_one.mp hone
      have hterm : ∀ v : Int × Int × Int,
          sf_cos_sum cos (2 * PI / box_l.x) partCfg type v *
              sf_cos_sum cos (2 * PI / box_l.x) partCfg type v +
            sf_sin_sum sin (2 * PI / box_l.x) partCfg type v *
              sf_sin_sum sin (2 * PI / box_l.x) partCfg type v = 1 := by
        intro v
        unfold sf_cos_sum sf_sin_sum
        rw [hpt]
        simp only [List.map_cons, List.map_nil, List.sum_cons, List.sum_nil, add_zero]
        exact hcs _
      simp only [hterm, hpt, List.length_singleton, Nat.cast_one, one_mul]
      have hlen : ((sf_vectors order n).length : K) ≠ 0 := by
        have := List.length_pos.mpr hne
        exact_mod_cast (by omega : (sf_vectors order n).length ≠ 0)
      rw [List.map_const', List.sum_replicate, nsmul_eq_mul, mul_one]
      exact div_self hlen

theorem analyze_structurefactor_averages_shells_witness :
    ∃ out : Int → ℝ,
      analyze_structurefactor Real.cos Real.sin Real.pi (box10 : Vec3 ℝ) 1
          [particle_on_x_axis 0 0 3] 0 1 (fun _ => 7) (fun _ => 7) =
        SfOutcome.returned out ∧
      out 1 = 1 := by
  obtain ⟨out, hout, _, hn⟩ := analyze_structurefactor_averages_shells Real.cos Real.sin
    Real.pi (box10 : Vec3 ℝ) 1 [particle_on_x_axis 0 0 3] 0 1 (fun _ => 7) (fun _ => 7)
    (by decide) (by decide) (by decide) (by simp [of_type, particle_on_x_axis])
  refine ⟨out, hout, (hn 1 (by decide) (by decide)).2.2 (by simp [of_type, particle_on_x_axis])
    (fun x => by rw [← sq, ← sq]; exact Real.cos_sq_add_sin_sq x) (by decide)⟩

/-- C27 (as amended): `analyze_structurefactor` returns to its caller exactly when
`0 ≤ type ≤ n_particle_types` and `order ≥ 1`; for a type outside that range or
`order < 1` it calls `errexit()`, which ends the process, and `parse_structurefactor`
hands both numbers on unchecked, so the command ends the process for them too.  A word
that is no integer, or fewer than two words, give `TCL_ERROR`. -/
theorem analyze_structurefactor_exits_on_bad_arguments (cos sin : K → K) (PI : K)
    (box_l : Vec3 K) (n_particle_types : Int) (partCfg : List (Particle K))
    (type order : Int) (ff : Int → K) (fn : Int → Int) :
    (analyze_structurefactor cos sin PI box_l n_particle_types partCfg type order ff fn =
        SfOutcome.errexit ↔ (type < 0 ∨ type > n_particle_types ∨ order < 1)) ∧
    ((0 ≤ type ∧ type ≤ n_particle_types ∧ 1 ≤ order) →
      ∃ out : Int → K,
        analyze_structurefactor cos sin PI box_l n_particle_types partCfg type order ff fn =
          SfOutcome.returned out) ∧
    (∀ (w0 w1 : TclArg K) (rest : List (TclArg K)),
      w0.as_int = some type → w1.as_int = some order →
      parse_structurefactor cos sin PI box_l n_particle_types partCfg (w0 :: w1 :: rest)
          ff fn =
        if type < 0 ∨ type > n_particle_types ∨ order < 1 then SfCommand.errexit
        else SfCommand.returned TCL_OK) ∧
    (∀ argv : List (TclArg K),
      (argv.length < 2 ∨ (argv[0]?).bind (fun a => a.as_int) = none ∨
        (argv[1]?).bind (fun a => a.as_int) = none) →
      parse_structurefactor cos sin PI box_l n_particle_types partCfg argv ff fn =
        SfCommand.returned TCL_ERROR) := by
  have hiff : analyze_structurefactor cos sin PI box_l n_particle_types partCfg type order
      ff fn = SfOutcome.errexit ↔ (type < 0 ∨ type > n_particle_types ∨ order < 1) := by
    unfold analyze_structurefactor
    dsimp only
    by_cases h1 : type < 0 ∨ type > n_particle_types
    · rw [if_pos h1]
      exact ⟨fun _ => h1.elim Or.inl (fun h => Or.inr (Or.inl h)), fun _ => rfl⟩
    · rw [if_neg h1]
      by_cases h2 : order < 1
      · rw [if_pos h2]
        exact ⟨fun _ => Or.inr (Or.inr h2), fun _ => rfl⟩
      · rw [if_neg h2]
        constructor
        · intro h
          cases h
        · rintro (h | h | h)
          · exact absurd (Or.inl h) h1
          · exact absurd (Or.inr h) h1
          · exact absurd h h2
  have hret : (0 ≤ type ∧ type ≤ n_particle_types ∧ 1 ≤ order) →
      ∃ out : Int → K,
        analyze_structurefactor cos sin PI box_l n_particle_types partCfg type order ff fn =
          SfOutcome.returned out := by
    rintro ⟨h0, h1, h2⟩
    unfold analyze_structurefactor
    dsimp only
    rw [if_neg (by omega), if_neg (by omega)]
    exact ⟨_, rfl⟩
  refine ⟨hiff, hret, ?_, ?_⟩
  · intro w0 w1 rest hw0 hw1
    unfold parse_structurefactor
    simp only [List.length_cons, List.getElem?_cons_zero, List.getElem?_cons_succ,
      Option.some_bind, hw0, hw1]
    rw [if_neg (by omega)]
    by_cases hbad : type < 0 ∨ type > n_particle_types ∨ order < 1
    · rw [if_pos hbad, hiff.mpr hbad]
    · rw [if_neg hbad]
      obtain ⟨out, hout⟩ := hret ⟨by omega, by omega, by omega⟩
      rw [hout]
  · intro argv hbad
    unfold parse_structurefactor
    by_cases hl : argv.length < 2
    · rw [if_pos hl]
    · rw [if_neg hl]
      rcases hbad with h | h | h
      · exact absurd h hl
      · rw [h]
      · rw [h]
        cases (argv[0]?).bind (fun a => a.as_int) <;> rfl

theorem analyze_structurefactor_exits_on_bad_arguments_witness :
    analyze_structurefactor Real.cos Real.sin Real.pi (box10 : Vec3 ℝ) 1
        [particle_on_x_axis 0 0 3] 0 0 (fun _ => 7) (fun _ => 7) = SfOutcome.errexit ∧
      ∃ out : Int → ℝ,
        analyze_structurefactor Real.cos Real.sin Real.pi (box10 : Vec3 ℝ) 1
          [particle_on_x_axis 0 0 3] 0 1 (fun _ => 7) (fun _ => 7) = SfOutcome.returned out :=
  ⟨(analyze_structurefactor_exits_on_bad_arguments Real.cos Real.sin Real.pi (box10 : Vec3 ℝ)
      1 [particle_on_x_axis 0 0 3] 0 0 (fun _ => 7) (fun _ => 7)).1.mpr
      (Or.inr (Or.inr (by decide))),
    (analyze_structurefactor_exits_on_bad_arguments Real.cos Real.sin Real.pi (box10 : Vec3 ℝ)
      1 [particle_on_x_axis 0 0 3] 0 1 (fun _ => 7) (fun _ => 7)).2.1
      ⟨by decide, by decide, by decide⟩⟩

/-- C27 (counterexample): the call `analyze structurefactor -1 1` does not return to its
caller: `analyze_structurefactor(-1, 1)` calls `errexit()`. -/
theorem parse_structurefactor_exits_process :
    parse_structurefactor Real.cos Real.sin Real.pi (box10 : Vec3 ℝ) 1
        [particle_on_x_axis 0 0 3] [int_arg (-1), int_arg 1] (fun _ => 7) (fun _ => 7) =
      SfCommand.errexit ∧
    analyze_structurefactor Real.cos Real.sin Real.pi (box10 : Vec3 ℝ) 1
        [particle_on_x_axis 0 0 3] (-1) 1 (fun _ => 7) (fun _ => 7) = SfOutcome.errexit := by
  have h : analyze_structurefactor Real.cos Real.sin Real.pi (box10 : Vec3 ℝ) 1
      [particle_on_x_axis 0 0 3] (-1) 1 (fun _ => 7) (fun _ => 7) = SfOutcome.errexit := by
    unfold analyze_structurefactor
    dsimp only
    rw [if_pos (Or.inl (by decide))]
  refine ⟨?_, h⟩
  unfold parse_structurefactor
  simp only [List.length_cons, List.length_nil, List.getElem?_cons_zero,
    List.getElem?_cons_succ, Option.some_bind, int_arg]
  rw [if_neg (by omega), h]

end SfClaims

/-! ## Proofs: bounds, defaults and outputs of the commands -/

section GpbExactZero

variable {K : Type} [LinearOrderedField K] [FloorRing K]

/-- When the first bisection loop stops before its rounds are used up, the step width is
below `gacc` or the function value at the last midpoint is exactly zero. -/
theorem gpb_loop_pos_exit (m : Libm K) (xi_m LOG gacc : K) :
    ∀ (n : Nat) (st : Bisection K),
      (gpb_loop_pos m xi_m LOG gacc (n + 1) st).rounds < st.rounds + (n + 1) →
        |(gpb_loop_pos m xi_m LOG gacc (n + 1) st).dg| < gacc ∨
          (gpb_loop_pos m xi_m LOG gacc (n + 1) st).fmid = 0 := by
  intro n
  induction n with
  | zero =>
    intro st
    unfold gpb_loop_pos
    dsimp only
    by_cases hbreak : |st.dg * (1 / 2)| < gacc ∨
        gpb_f_pos m xi_m LOG (st.rtb + st.dg * (1 / 2)) = 0
    · rw [if_pos hbreak]
      intro _
      exact hbreak
    · rw [if_neg hbreak]
      unfold gpb_loop_pos
      intro h
      dsimp only at h
      omega
  | succ n ih =>
    intro st
    unfold gpb_loop_pos
    dsimp only
    by_cases hbreak : |st.dg * (1 / 2)| < gacc ∨
        gpb_f_pos m xi_m LOG (st.rtb + st.dg * (1 / 2)) = 0
    · rw [if_pos hbreak]
      intro _
      exact hbreak
    · rw [if_neg hbreak]
      intro h
      apply ih
      dsimp only
      omega

/-- C31 (the code differs): in the first bisection of `calc_cell_gpb` (regime code 1 with
an initial bracket `f(g1) * f(g2) < 0`), whenever the loop stops after `r` rounds, fewer
than `maxtry` allows, while the step width `|g1 - g2| / 2^r` is still above `gacc`, the
function value at the returned midpoint `result[0]` is exactly zero and nevertheless the
function returns the non-convergence code `result[2] = -2`, not the regime code 1. -/
theorem calc_cell_gpb_exact_zero_reports_non_convergence (m : Libm K)
    (PI xi_m Rc ro gacc : K) (maxtry : Int) (result : Vec3 K) (g1 g2 : K)
    (hreg : gpb_regime m PI xi_m (m.log (Rc / ro))
      (m.log (Rc / ro) / (1 + m.log (Rc / ro))) = some (1, g1, g2))
    (hmin : xi_m ≠ m.log (Rc / ro) / (1 + m.log (Rc / ro))) (h0 : xi_m ≠ 0)
    (hbr : gpb_f_pos m xi_m (m.log (Rc / ro)) g1 * gpb_f_pos m xi_m (m.log (Rc / ro)) g2 < 0)
    (hearly : (calc_cell_gpb m PI xi_m Rc ro gacc maxtry result).2 < gpb_max_rounds maxtry)
    (hW : |g1 - g2| / 2 ^ (calc_cell_gpb m PI xi_m Rc ro gacc maxtry result).2 > gacc) :
    gpb_f_pos m xi_m (m.log (Rc / ro))
        (calc_cell_gpb m PI xi_m Rc ro gacc maxtry result).1.x = 0 ∧
      (calc_cell_gpb m PI xi_m Rc ro gacc maxtry result).1.z = -2 ∧
      (calc_cell_gpb m PI xi_m Rc ro gacc maxtry result).1.z ≠ 1 := by
  obtain ⟨n, hn⟩ := gpb_max_rounds_pos maxtry
  have hn2 : (if maxtry < 1 then 1 else maxtry).toNat = n + 1 := hn
  have hhalf : ∀ (w : K) (r : Nat), |w * (1 / 2) ^ r| = |w| / 2 ^ r := by
    intro w r
    rw [abs_mul, abs_of_pos (pow_pos (by norm_num : (0 : K) < 1 / 2) r), one_div, inv_pow,
      div_eq_mul_inv]
  rw [hn] at hearly
  -- the final state of the loop
  have key : ∀ st0 : Bisection K, st0.rounds = 0 → |st0.dg| = |g1 - g2| →
      calc_cell_gpb m PI xi_m Rc ro gacc maxtry result =
        (if |(gpb_loop_pos m xi_m (m.log (Rc / ro)) gacc (n + 1) st0).dg| > gacc then
          (⟨(gpb_loop_pos m xi_m (m.log (Rc / ro)) gacc (n + 1) st0).gmid,
            (gpb_loop_pos m xi_m (m.log (Rc / ro)) gacc (n + 1) st0).dg, -2⟩,
            (gpb_loop_pos m xi_m (m.log (Rc / ro)) gacc (n + 1) st0).rounds)
        else
          (⟨(gpb_loop_pos m xi_m (m.log (Rc / ro)) gacc (n + 1) st0).gmid,
            Rc * m.exp (-(1 / (gpb_loop_pos m xi_m (m.log (Rc / ro)) gacc (n + 1) st0).gmid) *
              m.atan (1 / (gpb_loop_pos m xi_m (m.log (Rc / ro)) gacc (n + 1) st0).gmid)), 1⟩,
            (gpb_loop_pos m xi_m (m.log (Rc / ro)) gacc (n + 1) st0).rounds)) →
      gpb_f_pos m xi_m (m.log (Rc / ro))
          (calc_cell_gpb m PI xi_m Rc ro gacc maxtry result).1.x = 0 ∧
        (calc_cell_gpb m PI xi_m Rc ro gacc maxtry result).1.z = -2 ∧
        (calc_cell_gpb m PI xi_m Rc ro gacc maxtry result).1.z ≠ 1 := by
    intro st0 hr0 hw0 heq
    obtain ⟨r, rtb, hr1, hr2, hrounds, hdg, hgmid, hfmid⟩ :=
      gpb_loop_pos_spec m xi_m (m.log (Rc / ro)) gacc n st0
    have hexit := gpb_loop_pos_exit m xi_m (m.log (Rc / ro)) gacc n st0
    have hrd : (calc_cell_gpb m PI xi_m Rc ro gacc maxtry result).2 =
        (gpb_loop_pos m xi_m (m.log (Rc / ro)) gacc (n + 1) st0).rounds := by
      rw [heq]
      split_ifs <;> rfl
    rw [hrd, hrounds, hr0, Nat.zero_add] at hearly hW
    have hbig : |(gpb_loop_pos m xi_m (m.log (Rc / ro)) gacc (n + 1) st0).dg| > gacc := by
      rw [hdg, hhalf, hw0]
      exact hW
    have hzero : (gpb_loop_pos m xi_m (m.log (Rc / ro)) gacc (n + 1) st0).fmid = 0 := by
      rcases hexit (by rw [hrounds, hr0]; omega) with h | h
      · exact absurd h (not_lt.mpr (le_of_lt hbig))
      · exact h
    rw [heq, if_pos hbig]
    dsimp only
    refine ⟨?_, rfl, by norm_num⟩
    rw [← hfmid]
    exact hzero
  by_cases hf : gpb_f_pos m xi_m (m.log (Rc / ro)) g1 < 0
  · apply key ⟨g1, g2 - g1, 0, gpb_f_pos m xi_m (m.log (Rc / ro)) g2, 0⟩ rfl
      (by dsimp only; rw [abs_sub_comm])
    unfold calc_cell_gpb
    dsimp only
    rw [hreg, hn2]
    dsimp only
    rw [if_neg hmin, if_neg h0, if_pos rfl, if_neg (not_le.mpr hbr), if_pos hf]
  · apply key ⟨g2, g1 - g2, 0, gpb_f_pos m xi_m (m.log (Rc / ro)) g2, 0⟩ rfl rfl
    unfold calc_cell_gpb
    dsimp only
    rw [hreg, hn2]
    dsimp only
    rw [if_neg hmin, if_neg h0, if_pos rfl, if_neg (not_le.mpr hbr), if_neg hf]

theorem calc_cell_gpb_exact_zero_reports_non_convergence_witness :
    (calc_cell_gpb (⟨fun x => x - 1, fun x => x, fun x => x, fun x => x, fun x => x,
        fun x _ => x⟩ : Libm ℚ) (8 / 3) 1 2 1 (1 / 10) 5 ⟨7, 8, 9⟩).2 = 1 ∧
      gpb_f_pos (⟨fun x => x - 1, fun x => x, fun x => x, fun x => x, fun x => x,
        fun x _ => x⟩ : Libm ℚ) 1 ((fun x : ℚ => x - 1) (2 / 1))
        (calc_cell_gpb (⟨fun x => x - 1, fun x => x, fun x => x, fun x => x, fun x => x,
          fun x _ => x⟩ : Libm ℚ) (8 / 3) 1 2 1 (1 / 10) 5 ⟨7, 8, 9⟩).1.x = 0 ∧
      (calc_cell_gpb (⟨fun x => x - 1, fun x => x, fun x => x, fun x => x, fun x => x,
        fun x _ => x⟩ : Libm ℚ) (8 / 3) 1 2 1 (1 / 10) 5 ⟨7, 8, 9⟩).1.z = -2 :=
  have h := calc_cell_gpb_exact_zero_reports_non_convergence
    (⟨fun x => x - 1, fun x => x, fun x => x, fun x => x, fun x => x,
      fun x _ => x⟩ : Libm ℚ) (8 / 3) 1 2 1 (1 / 10) 5 ⟨7, 8, 9⟩ (4 / 3) (2 / 3)
    (by decide!) (by decide!) (by decide!) (by decide!) (by decide!) (by decide!)
  ⟨by decide!, h.1, h.2.1⟩

end GpbExactZero

section DistributionDefault

variable {K : Type} [LinearOrderedField K] [FloorRing K]

/-- With at most four words, `opt_int` finds no word for `r_bins`, which keeps its
initial value 0; the default `n_total_particles / 20` is set only for a negative value. -/
theorem distribution_args_r_bins_not_given (min_box_l : K) (n_total_particles : Int)
    (argv : List (TclWord K)) (hlen : argv.length ≤ 4) (a : DistributionArgs K)
    (ha : distribution_args min_box_l n_total_particles argv = some a) : a.r_bins = 0 := by
  match argv, hlen with
  | [], _ => simp [distribution_args] at ha
  | [_], _ => simp [distribution_args] at ha
  | [w0, w1], _ =>
    cases h0 : w0.as_intlist <;> cases h1 : w1.as_intlist <;>
      simp [distribution_args, opt_double, opt_int, h0, h1] at ha
    rw [← ha]
  | [w0, w1, w2], _ =>
    cases h0 : w0.as_intlist <;> cases h1 : w1.as_intlist <;> cases h2 : w2.as_double <;>
      simp [distribution_args, opt_double, opt_int, h0, h1, h2] at ha
    rw [← ha]
  | [w0, w1, w2, w3], _ =>
    cases h0 : w0.as_intlist <;> cases h1 : w1.as_intlist <;> cases h2 : w2.as_double <;>
      cases h3 : w3.as_double <;>
      simp [distribution_args, opt_double, opt_int, h0, h1, h2, h3] at ha
    rw [← ha]
  | _ :: _ :: _ :: _ :: _ :: _, h => simp at h

/-- C32 (the code differs): when `<r_bins>` is not given (at most four words follow
`analyze distribution`), `parse_distribution` returns `TCL_ERROR` without computing a
distribution, for every number of particles, every box and all values of the other words:
`r_bins` keeps its initial value 0, the default `n_total_particles / 20` is not set, and
the check `r_bins < 1` rejects the call. -/
theorem parse_distribution_rejects_missing_r_bins (sqrt log : K → K) (box_l : Vec3 K)
    (min_box_l : K) (partCfg : List (Particle K)) (argv : List (TclWord K))
    (distribution : Int → K) (hlen : argv.length ≤ 4) :
    parse_distribution sqrt log box_l min_box_l partCfg argv distribution =
      (TCL_ERROR, none) := by
  unfold parse_distribution
  cases ha : distribution_args min_box_l (partCfg.length : Int) argv with
  | none => rfl
  | some a =>
    have hb := distribution_args_r_bins_not_given min_box_l _ argv hlen a ha
    dsimp only
    split_ifs <;> first | rfl | omega

theorem parse_distribution_rejects_missing_r_bins_witness :
    parse_distribution Real.sqrt Real.log (box10 : Vec3 ℝ) 10
        (List.replicate 40 (particle_on_x_axis 0 0 1))
        [⟨bad_arg, some [0]⟩, ⟨bad_arg, some [0]⟩, ⟨double_arg 0, none⟩,
          ⟨double_arg 5, none⟩] (fun _ => 7) = (TCL_ERROR, none) ∧
      (40 : Int) / 20 = 2 :=
  ⟨parse_distribution_rejects_missing_r_bins Real.sqrt Real.log box10 10
    (List.replicate 40 (particle_on_x_axis 0 0 1)) _ (fun _ => 7) (by decide), by decide⟩

end DistributionDefault

section RdfMixedPermutation

variable {K : Type} [LinearOrderedField K] [FloorRing K]

end RdfMixedPermutation

section RdfPooling

variable {K : Type} [LinearOrderedField K] [FloorRing K]

end RdfPooling

section RdfBinIndex

variable {K : Type} [LinearOrderedField K] [FloorRing K]

/-- The index `ind` of lines 504, 564 and 635 for a distance inside `(r_min, r_max)`. -/
theorem rdf_ind_bounds (r_min r_max dist : K) (r_bins : Int) (hbins : 1 ≤ r_bins)
    (hd1 : r_min < dist) (hd2 : dist < r_max) :
    0 ≤ c_int_cast ((dist - r_min) * (1 / ((r_max - r_min) / (r_bins : K)))) ∧
      c_int_cast ((dist - r_min) * (1 / ((r_max - r_min) / (r_bins : K)))) < r_bins := by
  have hrb : (0 : K) < (r_bins : K) := by exact_mod_cast (by omega : 0 < r_bins)
  have hbw : 0 < (r_max - r_min) / (r_bins : K) := div_pos (by linarith) hrb
  rw [c_int_cast_bin r_min _ dist hbw hd1]
  constructor
  · exact Int.floor_nonneg.mpr (div_nonneg (by linarith) (le_of_lt hbw))
  · rw [Int.floor_lt, div_lt_iff₀ hbw, mul_div_cancel₀ _ (ne_of_gt hrb)]
    linarith

/-- A run of the pair block over any list of pairs leaves every entry outside
`[0, r_bins)` as it was. -/
theorem hist_fold_outside (r_min r_max : K) (r_bins : Int) (hbins : 1 ≤ r_bins)
    (dist_of : RdfPair K → K) (pairs : List (RdfPair K))
    (acc : RdfAcc K) (i : Int) (hi : ¬ (0 ≤ i ∧ i < r_bins)) :
    (pairs.foldl (fun acc e => calc_rdf_pair r_min r_max
        (1 / ((r_max - r_min) / (r_bins : K))) (dist_of e) acc) acc).rdf i = acc.rdf i := by
  rw [(hist_fold r_min r_max (1 / ((r_max - r_min) / (r_bins : K))) dist_of pairs acc).2 i]
  have hnil : pairs.filter (fun e => decide (dist_of e > r_min ∧ dist_of e < r_max ∧
      c_int_cast ((dist_of e - r_min) * (1 / ((r_max - r_min) / (r_bins : K)))) = i)) = [] := by
    rw [List.filter_eq_nil_iff]
    intro e _ he
    rw [decide_eq_true_eq] at he
    obtain ⟨h1, h2, h3⟩ := he
    have := rdf_ind_bounds r_min r_max (dist_of e) r_bins hbins h1 h2
    rw [h3] at this
    exact hi this
  rw [hnil]
  simp

/-- C35: for `r_bins ≥ 1` and `r_max > r_min`, the bin index
`ind = (int)((dist - r_min) * inv_bin_width)` computed for a distance with
`r_min < dist < r_max` satisfies `0 ≤ ind < r_bins` (the bin width is positive), and the
particle loops of `calc_rdf`, `calc_rdf_av` and `calc_rdf_intermol_av` leave every entry
outside the `r_bins` entries of the histogram as it was: every histogram write is inside
the array. -/
theorem rdf_bin_index_in_range (sqrt : K → K) (box_l : Vec3 K) (partCfg : List (Particle K))
    (p1_types p2_types : List Int) (r_min r_max : K) (r_bins : Int) (frame : Snapshot K)
    (rdf0 : Int → K) (hbins : 1 ≤ r_bins) (hr : r_min < r_max) :
    0 < (r_max - r_min) / (r_bins : K) ∧
    (∀ dist : K, r_min < dist → dist < r_max →
      0 ≤ c_int_cast ((dist - r_min) * (1 / ((r_max - r_min) / (r_bins : K)))) ∧
        c_int_cast ((dist - r_min) * (1 / ((r_max - r_min) / (r_bins : K)))) < r_bins) ∧
    (∀ (dist : K) (acc : RdfAcc K) (i : Int), ¬ (0 ≤ i ∧ i < r_bins) →
      (calc_rdf_pair r_min r_max (1 / ((r_max - r_min) / (r_bins : K))) dist acc).rdf i =
        acc.rdf i) ∧
    (∀ i : Int, ¬ (0 ≤ i ∧ i < r_bins) →
      (calc_rdf_raw sqrt box_l partCfg p1_types p2_types r_min r_max r_bins rdf0).rdf i =
          rdf0 i ∧
        (calc_rdf_av_frame sqrt box_l partCfg p1_types p2_types r_min r_max
          (1 / ((r_max - r_min) / (r_bins : K))) (rdf_mixed_flag p1_types p2_types) r_bins
          frame rdf0).rdf i = rdf0 i ∧
        (calc_rdf_intermol_av_frame sqrt box_l partCfg p1_types p2_types r_min r_max
          (1 / ((r_max - r_min) / (r_bins : K))) (rdf_mixed_flag p1_types p2_types) r_bins
          frame rdf0).rdf i = rdf0 i) := by
  refine ⟨div_pos (by linarith) (by exact_mod_cast (by omega : 0 < r_bins)),
    fun dist h1 h2 => rdf_ind_bounds r_min r_max dist r_bins hbins h1 h2, ?_, ?_⟩
  · intro dist acc i hi
    unfold calc_rdf_pair
    dsimp only
    by_cases hd : dist > r_min ∧ dist < r_max
    · rw [if_pos hd]
      have := rdf_ind_bounds r_min r_max dist r_bins hbins hd.1 hd.2
      rw [Function.update_noteq]
      intro h
      rw [h] at hi
      exact hi this
    · rw [if_neg hd]
  · intro i hi
    have hclear : rdf_clear r_bins rdf0 i = rdf0 i := by
      unfold rdf_clear
      rw [if_neg hi]
    refine ⟨?_, ?_, ?_⟩
    · unfold calc_rdf_raw
      dsimp only
      rw [rdf_pair_loops_eq_fold]
      have := hist_fold_outside r_min r_max r_bins hbins (live_dist sqrt box_l)
        (rdf_examined partCfg p1_types p2_types (rdf_mixed_flag p1_types p2_types))
        { rdf := rdf_clear r_bins rdf0, cnt := 0 } i hi
      exact this.trans hclear
    · unfold calc_rdf_av_frame
      rw [rdf_pair_loops_eq_fold]
      have := hist_fold_outside r_min r_max r_bins hbins (frame_dist sqrt box_l frame)
        (rdf_examined partCfg p1_types p2_types (rdf_mixed_flag p1_types p2_types))
        { rdf := rdf_clear r_bins rdf0, cnt := 0 } i hi
      exact this.trans hclear
    · rw [calc_rdf_intermol_av_frame_eq_fold]
      have := hist_fold_outside r_min r_max r_bins hbins (frame_dist sqrt box_l frame)
        ((rdf_examined partCfg p1_types p2_types (rdf_mixed_flag p1_types p2_types)).filter
          (fun e => decide (e.1.2.mol_id ≠ e.2.2.mol_id)))
        { rdf := rdf_clear r_bins rdf0, cnt := 0 } i hi
      exact this.trans hclear

theorem rdf_bin_index_in_range_witness :
    (0 ≤ c_int_cast (((19 / 10 : ℚ) - 0) * (1 / ((2 - 0) / ((4 : Int) : ℚ)))) ∧
      c_int_cast (((19 / 10 : ℚ) - 0) * (1 / ((2 - 0) / ((4 : Int) : ℚ)))) < 4) ∧
    c_int_cast (((19 / 10 : ℚ) - 0) * (1 / ((2 - 0) / ((4 : Int) : ℚ)))) = 3 :=
  ⟨(rdf_bin_index_in_range (fun x => x) (box10 : Vec3 ℚ) three_on_a_line [0] [0] 0 2 4 []
    (fun _ => 7) (by decide) (by decide)).2.1 (19 / 10) (by decide!) (by decide!), by decide!⟩

end RdfBinIndex

section RdfAvReadClaims

variable {K : Type} [LinearOrderedField K] [FloorRing K]

/-- The rounds of `rdf_av_rounds` read exactly the blocks `configs[k]` for `k` in
`rdf_av_read_indices`, and the final division is by `rdf_av_divisor`. -/
theorem rdf_av_rounds_eq_reads (PI : K) (box_l : Vec3 K) (configs : List (Snapshot K))
    (r_min r_max : K) (r_bins : Int) (rdf0 : Int → K) (n_conf : Int)
    (frame_hist : Snapshot K → RdfAcc K) :
    rdf_av_rounds PI box_l configs r_min r_max r_bins rdf0 n_conf frame_hist =
      fun i =>
        if 0 ≤ i ∧ i < r_bins then
          (rdf_av_read_indices (configs.length : Int) n_conf).foldl
            (fun rdf k =>
              rdf_av_accumulate PI r_min ((r_max - r_min) / (r_bins : K))
                (box_l.x * box_l.y * box_l.z) r_bins rdf (frame_hist (config_at configs k)))
            (rdf_clear r_bins rdf0) i / ((rdf_av_divisor n_conf : Int) : K)
        else
          (rdf_av_read_indices (configs.length : Int) n_conf).foldl
            (fun rdf k =>
              rdf_av_accumulate PI r_min ((r_max - r_min) / (r_bins : K))
                (box_l.x * box_l.y * box_l.z) r_bins rdf (frame_hist (config_at configs k)))
            (rdf_clear r_bins rdf0) i := by
  unfold rdf_av_rounds rdf_av_read_indices rdf_av_divisor
  rw [List.foldl_map]

/-- For `1 ≤ n_conf ≤ n_configs` every index read lies in `[0, n_configs)` and the final
divisor is `n_conf`, not zero. -/
theorem rdf_av_reads_in_range (n_configs n_conf : Int) (h1 : 1 ≤ n_conf)
    (h2 : n_conf ≤ n_configs) :
    (∀ k ∈ rdf_av_read_indices n_configs n_conf, 0 ≤ k ∧ k < n_configs) ∧
      rdf_av_divisor n_conf = n_conf ∧ rdf_av_divisor n_conf ≠ 0 := by
  refine ⟨?_, ?_, ?_⟩
  · intro k hk
    unfold rdf_av_read_indices at hk
    obtain ⟨c, hc, rfl⟩ := List.mem_map.mp hk
    have := List.mem_range.mp hc
    omega
  · unfold rdf_av_divisor
    omega
  · unfold rdf_av_divisor
    omega

/-- C36 (the code differs): with one stored configuration, `analyze <rdf> 0 0 0 5 5 3` is
accepted (`n_conf = 3`, return code `TCL_OK`) and `calc_rdf_av` uses the history indices
0, -1 and -2; `analyze <rdf> 0 0 0 5 5 0` is accepted as well (`n_conf = 0`), no round is
run and the final division is by `cnt_conf - 1 = 0`.  The same holds for
`analyze <rdf-intermol>`. -/
theorem parse_rdf_accepts_n_conf_beyond_history :
    (rdf_args (10 : ℚ) 2 1 1
        [⟨bad_arg, some [0]⟩, ⟨bad_arg, some [0]⟩, ⟨double_arg 0, none⟩,
          ⟨double_arg 5, none⟩, ⟨int_arg 5, none⟩, ⟨int_arg 3, none⟩]).map
        (fun a => a.n_conf) = some 3 ∧
    (parse_rdf (fun x => x) 3 (box10 : Vec3 ℚ) 10
        [particle_on_x_axis 0 0 1, particle_on_x_axis 1 0 2] ⟨[[⟨1, 0, 0⟩, ⟨2, 0, 0⟩]], 2⟩ 1
        [⟨bad_arg, some [0]⟩, ⟨bad_arg, some [0]⟩, ⟨double_arg 0, none⟩,
          ⟨double_arg 5, none⟩, ⟨int_arg 5, none⟩, ⟨int_arg 3, none⟩]
        (fun _ => 7) (fun _ => 7)).1 = TCL_OK ∧
    (parse_rdf (fun x => x) 3 (box10 : Vec3 ℚ) 10
        [particle_on_x_axis 0 0 1, particle_on_x_axis 1 0 2] ⟨[[⟨1, 0, 0⟩, ⟨2, 0, 0⟩]], 2⟩ 2
        [⟨bad_arg, some [0]⟩, ⟨bad_arg, some [0]⟩, ⟨double_arg 0, none⟩,
          ⟨double_arg 5, none⟩, ⟨int_arg 5, none⟩, ⟨int_arg 3, none⟩]
        (fun _ => 7) (fun _ => 7)).1 = TCL_OK ∧
    rdf_av_read_indices 1 3 = [0, -1, -2] ∧
    (rdf_args (10 : ℚ) 2 1 1
        [⟨bad_arg, some [0]⟩, ⟨bad_arg, some [0]⟩, ⟨double_arg 0, none⟩,
          ⟨double_arg 5, none⟩, ⟨int_arg 5, none⟩, ⟨int_arg 0, none⟩]).map
        (fun a => a.n_conf) = some 0 ∧
    (parse_rdf (fun x => x) 3 (box10 : Vec3 ℚ) 10
        [particle_on_x_axis 0 0 1, particle_on_x_axis 1 0 2] ⟨[[⟨1, 0, 0⟩, ⟨2, 0, 0⟩]], 2⟩ 1
        [⟨bad_arg, some [0]⟩, ⟨bad_arg, some [0]⟩, ⟨double_arg 0, none⟩,
          ⟨double_arg 5, none⟩, ⟨int_arg 5, none⟩, ⟨int_arg 0, none⟩]
        (fun _ => 7) (fun _ => 7)).1 = TCL_OK ∧
    rdf_av_read_indices 1 0 = [] ∧ rdf_av_divisor 0 = 0 := by
  refine ⟨by decide!, by decide!, by decide!, by decide!, by decide!, by decide!, by decide!,
    by decide!⟩

end RdfAvReadClaims

section AggregationBounds

variable {K : Type} [LinearOrderedField K] [FloorRing K]

/-- The initialisation loop of `aggregation` writes the entry `f_mol_id` of all four
arrays whenever `s_mol_id ≤ f_mol_id`. -/
theorem agg_init_writes_last (s_mol_id f_mol_id : Int) (hsf : s_mol_id ≤ f_mol_id) :
    f_mol_id ∈ mol_range s_mol_id f_mol_id :=
  (mem_mol_range s_mol_id f_mol_id f_mol_id).mpr ⟨hsf, le_refl _⟩

/-- C37 (the code differs): with `n_molecules = 2`, the call
`analyze aggregation 1.0 0 2` passes the range check of `parse_aggregation` (return code
`TCL_OK`), and `aggregation` then writes `head_list[2]`, `link_list[2]`, `agg_id_list[2]`
and `agg_size[2]`: the loop `for (i = s_mol_id; i <= f_mol_id; i++)` covers the index
`2 = n_molecules`, one past the last entry of the `n_molecules`-element arrays (their
content `junk = 7` outside the written entries is unchanged, entry 2 is not). -/
theorem parse_aggregation_accepts_id_n_molecules :
    (parse_aggregation (distance2vec_plain : Vec3 ℚ → Vec3 ℚ → ℚ) 2 1 true 100 [] 10 7
        [double_arg 1, int_arg 0, int_arg 2]).1 = TCL_OK ∧
    (2 : Int) ∈ mol_range 0 2 ∧
    ((parse_aggregation (distance2vec_plain : Vec3 ℚ → Vec3 ℚ → ℚ) 2 1 true 100 [] 10 7
        [double_arg 1, int_arg 0, int_arg 2]).2.bind (fun r => r.state)).map
      (fun st => (st.head_list 2, st.link_list 2, st.agg_id_list 2, st.agg_size 2,
        st.head_list 3)) = some (2, -1, 2, 1, 7) := by
  refine ⟨by decide!, by decide!, by decide!⟩

end AggregationBounds

section PushBounds

variable {K : Type} [LinearOrderedField K] [FloorRing K]

/-- With a target size `i ≤ 0`, `analyze push <i>` on the empty history takes the branch
`else analyze_push()`: the test `n_configs < i` fails. -/
theorem parse_push_empty_takes_push (live : LiveStore K) (i : Int) (hi : i ≤ 0)
    (hn : n_total_particles live ≠ 0) (hs : live.sorted = true) :
    maintain_window i live empty_history = none := by
  unfold maintain_window parse_push
  have h0 : (empty_history : History K).n_configs = 0 := rfl
  rw [if_neg hn, h0]
  have h1 : ¬ ((0 : Int) > 0 ∧ (empty_history : History K).n_part_conf ≠ n_total_particles live) :=
    fun h => absurd h.1 (by decide)
  have h2 : ¬ (live.sorted = false) := by
    rw [hs]
    decide
  have h3 : ¬ ((0 : Int) < i) := not_lt.mpr hi
  rw [if_neg h1, if_neg h2]
  have h4 : (([int_arg i] : List (TclArg K)).head?).bind (fun a => a.as_int) = some i := rfl
  have h5 : ([int_arg i] : List (TclArg K)).length = 1 := rfl
  rw [if_pos h5, h4]
  dsimp only
  rw [if_neg h3]
  rfl

/-- C38 (the code differs): on the empty history `analyze push 0` (one particle in the
live store) calls `analyze_push`, which frees `configs[0]` and overwrites `configs[-1]`
with `n_configs = 0`, so neither slot lies in `[0, n_configs)`: the call has no result.
The same happens for `analyze push -1`; and `analyze push -5` on a history of two
snapshots runs `analyze_remove(0)` a third time, on the history it has already emptied. -/
theorem parse_push_evicts_from_empty_history :
    maintain_window 0 (one_particle_store (4 : ℚ)) empty_history = none ∧
    analyze_push (one_particle_store (4 : ℚ)) empty_history = none ∧
    analyze_push_slots (empty_history : History ℚ) = [0, -1] ∧
    (empty_history : History ℚ).n_configs = 0 ∧
    maintain_window (-1) (one_particle_store (4 : ℚ)) empty_history = none ∧
    maintain_window (-5) (one_particle_store (4 : ℚ)) ⟨[[⟨1, 0, 0⟩], [⟨2, 0, 0⟩]], 1⟩ = none ∧
    ((analyze_push (one_particle_store (4 : ℚ)) ⟨[[⟨1, 0, 0⟩], [⟨2, 0, 0⟩]], 1⟩).bind
        (fun h1 => analyze_remove h1 0)).bind (fun h2 => analyze_remove h2 0) =
      some empty_history ∧
    analyze_remove (empty_history : History ℚ) 0 = none := by
  refine ⟨by decide!, by decide!, by decide!, by decide!, by decide!, by decide!, by decide!,
    by decide!⟩

end PushBounds

section ActivateHistory

variable {K : Type} [LinearOrderedField K] [FloorRing K] {σ : Type}

/-- On a history that holds at least one configuration, `parse_activate` leaves the
stored configurations as they are, whatever the words and the return code. -/
theorem parse_activate_keeps_stored_configs (place_particle : σ → Int → Vec3 K → Int × σ)
    (live : LiveStore K) (argv : List (TclArg K)) (h : History K) (store : σ)
    (hne : h.n_configs ≠ 0) (r : Int × History K × σ × List Int)
    (hr : parse_activate place_particle live argv h store = some r) :
    r.2.1.configs = h.configs := by
  unfold parse_activate at hr
  have h1 : ∀ i : Int, ¬ (h.n_configs = 0 ∧ i = 0) := fun i hc => hne hc.1
  have h2 : ∀ i : Int, ¬ (h.n_configs = 0 ∧ i ≠ 0) := fun i hc => hne hc.1
  split_ifs at hr
  any_goals (injection hr with hr; rw [← hr])
  cases hw : (argv.head?).bind (fun a => a.as_int) with
  | none =>
    rw [hw] at hr
    injection hr with hr
    rw [← hr]
  | some i =>
    rw [hw] at hr
    dsimp only at hr
    rw [if_neg (h1 i), if_neg (h2 i)] at hr
    split_ifs at hr
    all_goals (injection hr with hr; rw [← hr])

/-- C39 (the code differs): on the empty history, `analyze activate 0` (one particle in
the live store) returns `TCL_OK` after calling `analyze_append`: the history then holds
one configuration, the live positions; no particle is written.  On a history with stored
configurations the same call leaves them unchanged. -/
theorem parse_activate_appends_to_empty_history :
    parse_activate (place_failing 7) (one_particle_store (4 : ℚ)) [int_arg 0] empty_history
        ([] : List Int) =
      some (TCL_OK, ⟨[[⟨4, 0, 0⟩]], 1⟩, [], []) ∧
    (empty_history : History ℚ).n_configs = 0 ∧
    (⟨[[⟨4, 0, 0⟩]], 1⟩ : History ℚ).n_configs = 1 ∧
    parse_activate (place_failing 7) (one_particle_store (4 : ℚ)) [int_arg 0]
        ⟨[[⟨1, 0, 0⟩], [⟨2, 0, 0⟩]], 1⟩ ([] : List Int) =
      some (TCL_OK, ⟨[[⟨1, 0, 0⟩], [⟨2, 0, 0⟩]], 1⟩, [0], []) := by
  refine ⟨by decide!, by decide!, by decide!, by decide!⟩

end ActivateHistory

section SfOutputClaims

variable {K : Type} [LinearOrderedField K] [FloorRing K]

/-- The output loop appends one text in every round: the indices of the rounds are
`1, ..., order² + 1`, whatever the array holds. -/
theorem sf_output_rounds (sqrt : K → K) (qfak : K) (sf : Int → K) :
    ∀ (l : List Int) (st : Option (K × K) × List (Int × Option (K × K))),
      ((l.foldl (sf_output_step sqrt qfak sf) st).2).map Prod.fst =
        st.2.map Prod.fst ++ l := by
  intro l
  induction l with
  | nil =>
    intro st
    simp
  | cons i l ih =>
    intro st
    rw [List.foldl_cons, ih]
    simp [sf_output_step]

/-- `parse_structurefactor_output` runs the output loop on the array that
`analyze_structurefactor` returns. -/
theorem parse_structurefactor_output_eq (cos sin sqrt : K → K) (PI : K) (box_l : Vec3 K)
    (n_particle_types : Int) (partCfg : List (Particle K)) (w0 w1 : TclArg K)
    (rest : List (TclArg K)) (type order : Int) (ff : Int → K) (fn : Int → Int)
    (sf : Int → K) (h0 : w0.as_int = some type) (h1 : w1.as_int = some order)
    (hsf : analyze_structurefactor cos sin PI box_l n_particle_types partCfg type order
      ff fn = SfOutcome.returned sf) :
    parse_structurefactor_output cos sin sqrt PI box_l n_particle_types partCfg
        (w0 :: w1 :: rest) ff fn = some (sf_output sqrt PI box_l order sf) := by
  unfold parse_structurefactor_output
  have hlen : ¬ ((w0 :: w1 :: rest).length < 2) := by
    simp
  rw [if_neg hlen]
  simp only [List.getElem?_cons_zero, List.getElem?_cons_succ, Option.some_bind, h0, h1, hsf]

/-- C40 (the code differs): for every `order` and every array `sf`, the output loop of
`parse_structurefactor` reads `sf[i]` and appends a text in each of the rounds
`i = 1, ..., order² + 1`; for `order ≥ 1` the last round reads `sf[order² + 1]`, one past
the `order² + 1` entries `sf[0..order²]`.  For `order = 1` the two appended texts are: in
round 1 the entry of `sf[1]` if it exceeds `1e-6`, else the unwritten buffer; in round 2
the entry of `sf[2]` if it exceeds `1e-6`, else the text of round 1 once more.  So the
call `analyze structurefactor 0 1` with one particle of type 0 at the origin (where only
`cos 0 = 1`, `sin 0 = 0` and `sqrt 1 = 1` are needed) and zeros behind the array appends
the entry of `sf[1] = 1` twice. -/
theorem parse_structurefactor_output_overruns (sqrt : K → K) (PI : K) (box_l : Vec3 K)
    (sf : Int → K) :
    (∀ order : Int,
      (sf_output sqrt PI box_l order sf).map Prod.fst = mol_range 1 (order * order + 1) ∧
      (1 ≤ order → order * order + 1 ∈ (sf_output sqrt PI box_l order sf).map Prod.fst ∧
        ¬ (order * order + 1 ≤ order * order) ∧
        (sf_output sqrt PI box_l order sf).length = (order * order + 1).toNat)) ∧
    sf_output sqrt PI box_l 1 sf =
      [(1, if sf 1 > 1 / 1000000 then some (2 * PI / box_l.x * sqrt ((1 : Int) : K), sf 1)
          else none),
        (2, if sf 2 > 1 / 1000000 then some (2 * PI / box_l.x * sqrt ((2 : Int) : K), sf 2)
          else if sf 1 > 1 / 1000000 then some (2 * PI / box_l.x * sqrt ((1 : Int) : K), sf 1)
          else none)] ∧
    parse_structurefactor_output (fun _ => 1) (fun _ => 0) (fun x => x) 3 (box10 : Vec3 ℚ) 1
        [particle_on_x_axis 0 0 0] [int_arg 0, int_arg 1] (fun _ => 0) (fun _ => 0) =
      some [(1, some (3 / 5, 1)), (2, some (3 / 5, 1))] := by
  have hreads : ∀ order : Int,
      (sf_output sqrt PI box_l order sf).map Prod.fst = mol_range 1 (order * order + 1) := by
    intro order
    unfold sf_output
    dsimp only
    rw [sf_output_rounds]
    simp
  refine ⟨fun order => ⟨hreads order, fun ho => ⟨?_, by omega, ?_⟩⟩, ?_, by decide!⟩
  · rw [hreads, mem_mol_range]
    constructor
    · nlinarith
    · exact le_refl _
  · have := congrArg List.length (hreads order)
    rw [List.length_map] at this
    rw [this]
    unfold mol_range
    rw [List.length_map, List.length_range]
    congr 1
    omega
  · have hr : mol_range 1 (1 * 1 + 1) = [1, 2] := by decide
    unfold sf_output
    dsimp only
    rw [hr]
    simp [sf_output_step]

end SfOutputClaims

end Statistics
